import Mathlib

/-!
# Juno transaction-admission pipeline (`app/ante.go`)

A shallow embedding of the three ante decorators defined in `app/ante.go`
(`MinCommissionDecorator`, `MempoolFeeDecorator`, `DeductFeeDecorator`) and of
`DeductFees`, followed by theorems about their behaviour, each named after the property
of the specification it concerns.

Conventions of the embedding.

* A Go `error` result is an `Option Error` (`none` is `nil`).
* A Go panic is the `.error` side of `Except String`; the `.ok` side carries what the
  function returns.
* The store and the event manager that a Go `sdk.Context` points to are passed
  explicitly as a `State`; the `Context` value keeps the read-only part.
* `uint64` is a `Nat` below `2 ^ 64`; the conversion `int64(gas)` is written out.
* Keepers and the codec are Go interfaces; they are fields or arguments holding
  functions, so every theorem that does not fix them holds for all implementations.
-/

namespace Juno

/-! ## Decimals and integers (`sdk.Dec`, `sdk.Int`) -/

/-- Modelled from the spec: the exact decimal of the cosmos-sdk (`sdk.Dec`), which is not
part of this repository. It is a fixed-point number with 18 fractional digits held as the
integer `i`; its value is `i / 10 ^ 18`. The bit-length limit of the library type is not
modelled. -/
structure Dec where
  i : Int
deriving DecidableEq, Repr

namespace Dec

/-- Modelled from the spec: number of fractional digits of `sdk.Dec`. -/
def Precision : Nat := 18

/-- Modelled from the spec: the scaling factor `10 ^ 18`. -/
def precisionReuse : Int := 10 ^ Precision

/-- Modelled from the spec: the rational value of a decimal. -/
def toRat (d : Dec) : ℚ := (d.i : ℚ) / 10 ^ Precision

/-- Modelled from the spec: `sdk.NewDec(i)`: the decimal with integer value `i`. -/
def NewDec (i : Int) : Dec := ⟨i * precisionReuse⟩

/-- Modelled from the spec: `sdk.NewDecWithPrec(i, prec)`: the decimal `i / 10 ^ prec`, for
`prec ≤ 18`. -/
def NewDecWithPrec (i : Int) (prec : Nat) : Dec := ⟨i * 10 ^ (Precision - prec)⟩

/-- Modelled from the spec: `Dec.LT`: strictly less than. -/
def LT (d d2 : Dec) : Bool := decide (d.i < d2.i)

/-- Modelled from the spec: `Dec.IsZero`. -/
def IsZero (d : Dec) : Bool := decide (d.i = 0)

/-- Modelled from the spec: the library's `chopPrecisionAndRound`: divide by `10 ^ 18`,
rounding half to even, symmetric around zero. -/
def chopPrecisionAndRound (d : Int) : Int :=
  let a : Int := d.natAbs
  let quo := a / precisionReuse
  let rem := a % precisionReuse
  let r :=
    if rem = 0 then quo
    else if rem < precisionReuse / 2 then quo
    else if precisionReuse / 2 < rem then quo + 1
    else if quo % 2 = 0 then quo
    else quo + 1
  if d < 0 then -r else r

/-- Modelled from the spec: `Dec.Mul`: the product, rounded to 18 fractional digits. -/
def Mul (d d2 : Dec) : Dec := ⟨chopPrecisionAndRound (d.i * d2.i)⟩

/-- Modelled from the spec: `Dec.Ceil`: the least integer decimal not below `d`. The library
divides with truncation towards zero and adds one when the remainder is positive. -/
def Ceil (d : Dec) : Dec :=
  let quo := Int.tdiv d.i precisionReuse
  let rem := Int.tmod d.i precisionReuse
  if rem = 0 then NewDec quo
  else if rem < 0 then NewDec quo
  else NewDec (quo + 1)

/-- Modelled from the spec: `Dec.RoundInt`: the decimal rounded to an integer (half to
even). -/
def RoundInt (d : Dec) : Int := chopPrecisionAndRound d.i

end Dec

/-- The Go conversion `int64(gas)` of a `uint64`: values from `2 ^ 63` on wrap around to
negative numbers. -/
def int64OfUint64 (gas : Nat) : Int :=
  let g : Nat := gas % 2 ^ 64
  if g < 2 ^ 63 then (g : Int) else (g : Int) - 2 ^ 64

/-! ## Coins (`sdk.Coin`, `sdk.Coins`, `sdk.DecCoins`) -/

/-- Modelled from the spec: one entry of a coin set (`sdk.Coin` of the cosmos-sdk): a
denomination and an integer amount. -/
structure Coin where
  denom : String
  amount : Int
deriving DecidableEq, Repr

/-- Modelled from the spec: a coin set (`sdk.Coins`), the list of its entries in the order
the library keeps them (ascending denominations when valid). -/
abbrev Coins := List Coin

/-- Modelled from the spec: an entry of a minimum-gas-price policy (`sdk.DecCoin`): a price
per unit of gas. -/
structure DecCoin where
  denom : String
  amount : Dec
deriving DecidableEq, Repr

/-- Modelled from the spec: a minimum-gas-price policy (`sdk.DecCoins`). -/
abbrev DecCoins := List DecCoin

/-- Lexicographic order of two character lists by code point. -/
def charsLT : List Char → List Char → Bool
  | _, [] => false
  | [], _ :: _ => true
  | a :: as, b :: bs =>
    if a.toNat < b.toNat then true
    else if a.toNat = b.toNat then charsLT as bs
    else false

/-- Go's `<` on strings, as used on denominations (which are ASCII when valid). -/
def denomLT (a b : String) : Bool := charsLT a.toList b.toList

/-- First character of a denomination: `[a-zA-Z]`. -/
def isDenomLetter (c : Char) : Bool := c.isAlpha

/-- Following characters of a denomination: `[a-zA-Z0-9/:._-]`. -/
def isDenomChar (c : Char) : Bool :=
  c.isAlphanum || c == '/' || c == ':' || c == '.' || c == '_' || c == '-'

/-- Modelled from the spec: `sdk.ValidateDenom` with the library's default pattern
`[a-zA-Z][a-zA-Z0-9/:._-]{2,127}`. -/
def ValidateDenom (denom : String) : Bool :=
  match denom.toList with
  | [] => false
  | c :: rest =>
    isDenomLetter c && decide (2 ≤ rest.length) && decide (rest.length ≤ 127)
      && rest.all isDenomChar

/-- Modelled from the spec: `sdk.NewCoin`, which panics when the denomination is invalid or
the amount negative ("arithmetic must never silently go negative"). -/
def NewCoin (denom : String) (amount : Int) : Except String Coin :=
  if !ValidateDenom denom then .error "invalid denom"
  else if amount < 0 then .error "negative coin amount"
  else .ok ⟨denom, amount⟩

namespace Coin

/-- Modelled from the spec: `Coin.IsZero`. -/
def IsZero (c : Coin) : Bool := decide (c.amount = 0)

/-- Modelled from the spec: `Coin.IsPositive`. -/
def IsPositive (c : Coin) : Bool := decide (0 < c.amount)

/-- Modelled from the spec: `Coin.IsNegative`. -/
def IsNegative (c : Coin) : Bool := decide (c.amount < 0)

end Coin

namespace Coins

/-- Modelled from the spec: the loop of `Coins.Validate` over the entries after the first:
every denomination is valid and strictly above the previous one, every amount positive. -/
def validateFrom : String → List Coin → Bool
  | _, [] => true
  | lowDenom, coin :: rest =>
    ValidateDenom coin.denom && denomLT lowDenom coin.denom && coin.IsPositive
      && validateFrom coin.denom rest

/-- Modelled from the spec: `Coins.IsValid` — denominations valid, unique and in ascending
order, amounts positive. The empty set is valid. -/
def IsValid : Coins → Bool
  | [] => true
  | coin :: rest => ValidateDenom coin.denom && coin.IsPositive && validateFrom coin.denom rest

/-- Modelled from the spec: `Coins.IsZero`: no entry has a non-zero amount. -/
def IsZero (coins : Coins) : Bool := coins.all Coin.IsZero

/-- Modelled from the spec: `Coins.AmountOf`, the amount held in a denomination (zero when
the denomination is absent). -/
def AmountOf : Coins → String → Int
  | [], _ => 0
  | coin :: rest, denom => if coin.denom = denom then coin.amount else AmountOf rest denom

/-- Modelled from the spec: `Coins.IsAnyGTE` of the cosmos-sdk — "the declared fee set
has, for at least one of those denominations, an amount greater than or equal to the
required amount for that denomination". An empty `coinsB` gives `false`. -/
def IsAnyGTE (coins coinsB : Coins) : Bool :=
  coinsB.any fun req => decide (req.amount ≤ coins.AmountOf req.denom)

/-- Modelled from the spec: `removeZeroCoins`. -/
def removeZeroCoins (coins : Coins) : Coins := coins.filter fun c => !c.IsZero

/-- Modelled from the spec: append an entry to a sum unless its amount is zero. -/
def consNonZero (c : Coin) (rest : Coins) : Coins := if c.IsZero then rest else c :: rest

/-- Modelled from the spec: the loop of `Coins.safeAdd` while the left entry `coinA` is
fixed: `recA` continues with the entries after `coinA`. -/
def safeAddAux (coinA : Coin) (restA : Coins) (recA : Coins → Coins) : Coins → Coins
  | [] => removeZeroCoins (coinA :: restA)
  | coinB :: restB =>
    if denomLT coinA.denom coinB.denom then consNonZero coinA (recA (coinB :: restB))
    else if coinA.denom = coinB.denom then
      consNonZero ⟨coinA.denom, coinA.amount + coinB.amount⟩ (recA restB)
    else consNonZero coinB (safeAddAux coinA restA recA restB)

/-- Modelled from the spec: `Coins.safeAdd`, the denomination-wise sum of two sets kept in
ascending order of denomination; entries whose amount is zero are dropped. -/
def safeAdd : Coins → Coins → Coins
  | [] => removeZeroCoins
  | coinA :: restA => safeAddAux coinA restA (safeAdd restA)

/-- Modelled from the spec: `Coins.negative`: every amount negated. -/
def negative (coins : Coins) : Coins := coins.map fun c => ⟨c.denom, -c.amount⟩

/-- Modelled from the spec: `Coins.IsAnyNegative`. -/
def IsAnyNegative (coins : Coins) : Bool := coins.any Coin.IsNegative

/-- Modelled from the spec: `Coins.Add`. -/
def Add (coins coinsB : Coins) : Coins := safeAdd coins coinsB

/-- Modelled from the spec: `Coins.Sub` — denomination-wise subtraction, which panics
instead of producing a negative amount ("subtraction requires amount ≤ current amount,
enforced as an error, not a wraparound"). -/
def Sub (coins coinsB : Coins) : Except String Coins :=
  let diff := safeAdd coins (negative coinsB)
  if IsAnyNegative diff then .error "negative coin amount" else .ok diff

end Coins

namespace DecCoins

/-- Modelled from the spec: `DecCoins.IsZero`: no price is non-zero (in particular the empty
policy). -/
def IsZero (coins : DecCoins) : Bool := coins.all fun c => c.amount.IsZero

end DecCoins

/-! ## Messages, transactions, errors -/

/-- Modelled from the spec: an account address (`sdk.AccAddress`): a byte string. A Go `nil`
address is the `none` of an `Option AccAddress`. -/
abbrev AccAddress := List Nat

/-- Modelled from the spec: `AccAddress.Equals`: equality of the bytes. -/
def AccAddress.Equals (a b : AccAddress) : Bool := a == b

/-- Modelled from the spec: a packed message inside an authorization batch
(`codectypes.Any`): a type URL and the encoded bytes. Only a codec can turn it into a
message. -/
structure Any where
  typeUrl : String
  value : List Nat
deriving DecidableEq, Repr

/-- Modelled from the spec: a Go value of the type `sdk.Dec` as a message field holds it: a
decimal number (`set`), or the zero value of the struct (`unset`), whose `big.Int` pointer is
nil; that is what a message decoded without the field carries. -/
inductive DecField where
  | unset
  | set (d : Dec)
deriving DecidableEq, Repr

/-- The Go run-time panic of a nil pointer dereference. -/
def nilPointerPanic : String :=
  "runtime error: invalid memory address or nil pointer dereference"

/-- Modelled from the spec: the method `LT` of `sdk.Dec` on a message field: the comparison
of the numbers; on the zero value the method dereferences the nil pointer and panics. -/
def DecField.LT (d : DecField) (d2 : Dec) : Except String Bool :=
  match d with
  | .unset => .error nilPointerPanic
  | .set x => .ok (x.LT d2)

/-- Modelled from the spec: the messages (`sdk.Msg`) the pipeline distinguishes, with the
fields it reads. The commission rate of `MsgCreateValidator` is a value (`Commission.Rate`),
the one of `MsgEditValidator` a pointer (`CommissionRate`, `none` for `nil`). Every other
message type is `Other`. -/
inductive Msg where
  | MsgCreateValidator (commissionRate : DecField)
  | MsgEditValidator (commissionRate : Option DecField)
  | MsgExecuteContract (contract : String)
  | MsgExec (msgs : List Any)
  | Other (typeUrl : String)
deriving DecidableEq, Repr

/-- Modelled from the spec: the registered root errors of `sdkerrors` used in `app/ante.go`.
-/
inductive SdkErr where
  | ErrTxDecode
  | ErrUnauthorized
  | ErrInsufficientFunds
  | ErrUnknownAddress
  | ErrInsufficientFee
  | ErrInvalidRequest
  | ErrLogic
deriving DecidableEq, Repr

/-- Modelled from the spec: an argument of a format string, kept unrendered. -/
inductive FmtArg where
  | coins (c : Coins)
  | addr (a : AccAddress)
  | str (s : String)
deriving DecidableEq, Repr

/-- Modelled from the spec: a Go `error` value: a registered root error, an error made by a
collaborator, a wrapped error (`sdkerrors.Wrap`, `sdkerrors.Wrapf`) or a `fmt.Errorf` error.
The format string and its arguments are kept apart. -/
inductive Error where
  | registered (e : SdkErr)
  | external (name : String)
  | Wrapf (err : Error) (format : String) (args : List FmtArg)
  | Errorf (format : String) (args : List FmtArg)
deriving DecidableEq, Repr

/-- Modelled from the spec: `sdkerrors.Wrap(err, description)`. -/
def Error.Wrap (err : Error) (description : String) : Error := .Wrapf err description []

/-- Modelled from the spec: the fee part of a transaction that implements `sdk.FeeTx`. -/
structure FeeTx where
  fee : Coins
  gas : Nat
  feePayer : AccAddress
  feeGranter : Option AccAddress
deriving DecidableEq, Repr

/-- Modelled from the spec: a transaction (`sdk.Tx`): its messages, and its fee part when
the transaction implements `sdk.FeeTx` (the type assertion `tx.(sdk.FeeTx)` succeeds). -/
structure Tx where
  msgs : List Msg
  feeTx : Option FeeTx
deriving DecidableEq, Repr

/-- Modelled from the spec: `tx.GetMsgs()`. -/
def Tx.GetMsgs (tx : Tx) : List Msg := tx.msgs

/-! ## Context, state and handlers -/

/-- Modelled from the spec: the read-only part of `sdk.Context` that the stages consult. -/
structure Context where
  IsCheckTx : Bool
  MinGasPrices : DecCoins
deriving DecidableEq, Repr

/-- Modelled from the spec: an event attribute; the value is kept unrendered. -/
structure Attribute where
  key : String
  value : FmtArg
deriving DecidableEq, Repr

/-- Modelled from the spec: an event (`sdk.Event`). -/
structure Event where
  type : String
  attributes : List Attribute
deriving DecidableEq, Repr

/-- Modelled from the spec: `sdk.EventTypeTx`. -/
def EventTypeTx : String := "tx"

/-- Modelled from the spec: `sdk.AttributeKeyFee`. -/
def AttributeKeyFee : String := "fee"

/-- Modelled from the spec: `sdk.AttributeKeyFeePayer`. -/
def AttributeKeyFeePayer : String := "fee_payer"

/-- Modelled from the spec: `types.FeeCollectorName`. -/
def FeeCollectorName : String := "fee_collector"

/-- Modelled from the spec: who holds a balance: an account, named by its address, or a
ledger-internal module account, named by its module name. -/
inductive Holder where
  | account (addr : AccAddress)
  | module (name : String)
deriving DecidableEq, Repr

/-- Modelled from the spec: the bank store: the balance of every holder in every
denomination. -/
abbrev Ledger := Holder → String → Int

/-- Modelled from the spec: the mutable state behind a Go context: the bank store, the store
of the grant module (of an arbitrary type `G`) and the events emitted so far. -/
structure State (G : Type) where
  bank : Ledger
  grants : G
  events : List Event

/-- Modelled from the spec: what a handler returns: a Go panic (`.error`), or the returned
context and error together with the state it leaves. -/
abbrev Result (G : Type) := Except String ((Context × Option Error) × State G)

/-- Modelled from the spec: an ante handler (`sdk.AnteHandler`). -/
abbrev AnteHandler (G : Type) := Context → Tx → Bool → State G → Result G

/-! ## Collaborators -/

/-- Modelled from the spec: an account (`types.AccountI`), known by its address. -/
structure Account where
  address : AccAddress
deriving DecidableEq, Repr

/-- Modelled from the spec: `acc.GetAddress()`. -/
def Account.GetAddress (acc : Account) : AccAddress := acc.address

/-- Modelled from the spec: the account lookup (`authforktypes.AccountKeeper`, declared
outside the given sources): "GetAccount(address) -> Account | None, GetModuleAddress(name)
-> Address | None". -/
structure AccountKeeper (G : Type) where
  HasAccount : State G → AccAddress → Bool
  GetModuleAddress : String → Option AccAddress

/-- Modelled from the spec: `ak.GetAccount(ctx, addr)`: the account stored at the address,
if any. -/
def AccountKeeper.GetAccount {G : Type} (ak : AccountKeeper G) (s : State G)
    (addr : AccAddress) : Option Account :=
  if ak.HasAccount s addr then some ⟨addr⟩ else none

/-- Modelled from the spec: the balance-transfer capability (`authforktypes.BankKeeper`,
declared outside the given sources). Each call either fails with a message and moves
nothing, or returns the new bank store. -/
structure BankKeeper where
  SendCoinsFromAccountToModule : Ledger → AccAddress → String → Coins → Except String Ledger
  SendCoinsFromModuleToAccount : Ledger → String → AccAddress → Coins → Except String Ledger

/-- Modelled from the spec: the grant-usage capability (`authforktypes.FeegrantKeeper`):
"UseGrant(granter, grantee, CoinSet, messages) -> Result<(), GrantError>". It works on the
store of the grant module only. -/
structure FeegrantKeeper (G : Type) where
  UseGrantedFees : G → AccAddress → AccAddress → Coins → List Msg → Except Error G

/-- Modelled from the spec: a revenue record — "contract address -> (deployer address,
optional withdrawer address)". The Go zero value has no withdrawer. -/
structure Revenue where
  deployer : AccAddress
  withdrawer : Option AccAddress
deriving DecidableEq, Repr

/-- Modelled from the spec: `revenueData.GetWithdrawerAddr()`: the withdrawer address,
`none` for Go `nil`. -/
def Revenue.GetWithdrawerAddr (r : Revenue) : Option AccAddress := r.withdrawer

/-- Modelled from the spec: the revenue registry (`authforktypes.FeeShareKeeper`):
"GetRevenue(contractAddress) -> RevenueRecord | None (read-only)"; the Go method returns the
record and a found flag. -/
structure FeeShareKeeper (G : Type) where
  GetRevenue : State G → AccAddress → Revenue × Bool

/-! ### A ledger with atomic transfers -/

namespace Ledger

/-- Modelled from the spec: the holder owns at least the amount, in every denomination of
the coin set. -/
def covers (l : Ledger) (h : Holder) (amt : Coins) : Bool :=
  amt.all fun c => decide (c.amount ≤ l h c.denom)

/-- Modelled from the spec: the ledger after the coin set has left `src` and reached `dst`;
the amount of a denomination in the set is read with `AmountOf` (denominations of a set are
unique). -/
def moved (l : Ledger) (src dst : Holder) (amt : Coins) : Ledger :=
  fun h denom =>
    l h denom - (if h = src then amt.AmountOf denom else 0)
      + (if h = dst then amt.AmountOf denom else 0)

/-- Modelled from the spec: an atomic transfer — "either the full amount moves or none
does"; it fails when the source does not own the amount. -/
def transfer (l : Ledger) (src dst : Holder) (amt : Coins) : Except String Ledger :=
  if covers l src amt then .ok (moved l src dst amt) else .error "insufficient funds"

/-- Modelled from the spec: the balance-transfer capability over the ledger
("TransferAccountToModule", "TransferModuleToAccount"). -/
def keeper : BankKeeper where
  SendCoinsFromAccountToModule := fun l senderAddr recipientModule amt =>
    transfer l (.account senderAddr) (.module recipientModule) amt
  SendCoinsFromModuleToAccount := fun l senderModule recipientAddr amt =>
    transfer l (.module senderModule) (.account recipientAddr) amt

end Ledger

/-! ## The commission guard (`MinCommissionDecorator`) -/

/-- The decorator holds the codec; of the codec only `UnpackAny` is used, which either
decodes a packed message or fails. -/
structure MinCommissionDecorator where
  cdc : Any → Option Msg

/-- The local `minCommissionRate := sdk.NewDecWithPrec(5, 2)`. -/
def minCommissionRate : Dec := Dec.NewDecWithPrec 5 2

/-- The error of a commission below the floor. -/
def errCommissionTooLow : Error :=
  (Error.registered .ErrUnauthorized).Wrap "commission can't be lower than 5%"

/-- The error of an inner message that cannot be decoded. -/
def errUnmarshalAuthz : Error :=
  .Wrapf (.registered .ErrUnauthorized) "cannot unmarshal authz exec msgs" []

namespace MinCommissionDecorator

/-- The closure `validMsg` of `AnteHandle`: a panic, or the error returned (`none` for
`nil`). The comparison panics on a rate that was never set. -/
def validMsg (m : Msg) : Except String (Option Error) :=
  match m with
  | .MsgCreateValidator rate =>
    match rate.LT minCommissionRate with
    | .error p => .error p
    | .ok lt => if lt then .ok (some errCommissionTooLow) else .ok none
  | .MsgEditValidator commissionRate =>
    match commissionRate with
    | none => .ok none
    | some rate =>
      match rate.LT minCommissionRate with
      | .error p => .error p
      | .ok lt => if lt then .ok (some errCommissionTooLow) else .ok none
  | _ => .ok none

/-- The closure `validAuthz` of `AnteHandle`, applied to `execMsg.Msgs`. -/
def validAuthz (min : MinCommissionDecorator) : List Any → Except String (Option Error)
  | [] => .ok none
  | v :: rest =>
    match min.cdc v with
    | none => .ok (some errUnmarshalAuthz)
    | some innerMsg =>
      match validMsg innerMsg with
      | .error p => .error p
      | .ok (some err) => .ok (some err)
      | .ok none => validAuthz min rest

/-- The body of the loop `for _, m := range msgs`, for one message. -/
def checkMsg (min : MinCommissionDecorator) (m : Msg) : Except String (Option Error) :=
  match m with
  | .MsgExec msgs => validAuthz min msgs
  | _ => validMsg m

/-- The loop `for _, m := range msgs` of `AnteHandle`: a panic, or the first error, if
any. -/
def scanMsgs (min : MinCommissionDecorator) : List Msg → Except String (Option Error)
  | [] => .ok none
  | m :: rest =>
    match checkMsg min m with
    | .error p => .error p
    | .ok (some err) => .ok (some err)
    | .ok none => scanMsgs min rest

/-- The method `MinCommissionDecorator.AnteHandle`. -/
def AnteHandle {G : Type} (min : MinCommissionDecorator) (ctx : Context) (tx : Tx)
    (simulate : Bool) (next : AnteHandler G) (s : State G) : Result G :=
  match scanMsgs min tx.GetMsgs with
  | .error p => .error p
  | .ok (some err) => .ok ((ctx, some err), s)
  | .ok none => next ctx tx simulate s

end MinCommissionDecorator

/-! ## Fee sufficiency (`MempoolFeeDecorator`) -/

/-- The error of a transaction that is not a `FeeTx`. -/
def errNotFeeTx : Error := (Error.registered .ErrTxDecode).Wrap "Tx must be a FeeTx"

/-- The error of an insufficient fee. -/
def errInsufficientFee (feeCoins requiredFees : Coins) : Error :=
  .Wrapf (.registered .ErrInsufficientFee) "insufficient fees; got: %s required: %s"
    [.coins feeCoins, .coins requiredFees]

namespace MempoolFeeDecorator

/-- One entry of `requiredFees`: `sdk.NewCoin(gp.Denom, gp.Amount.Mul(glDec).Ceil().RoundInt())`. -/
def requiredFee (glDec : Dec) (gp : DecCoin) : Except String Coin :=
  NewCoin gp.denom ((gp.amount.Mul glDec).Ceil.RoundInt)

/-- The loop that fills `requiredFees`, entry by entry; a panic ends it. -/
def requiredFeesLoop (glDec : Dec) : DecCoins → Except String Coins
  | [] => .ok []
  | gp :: rest =>
    match requiredFee glDec gp with
    | .error p => .error p
    | .ok coin =>
      match requiredFeesLoop glDec rest with
      | .error p => .error p
      | .ok coins => .ok (coin :: coins)

/-- The required fees, with `glDec := sdk.NewDec(int64(gas))`. -/
def requiredFees (minGasPrices : DecCoins) (gas : Nat) : Except String Coins :=
  requiredFeesLoop (Dec.NewDec (int64OfUint64 gas)) minGasPrices

/-- The method `MempoolFeeDecorator.AnteHandle`. -/
def AnteHandle {G : Type} (ctx : Context) (tx : Tx) (simulate : Bool)
    (next : AnteHandler G) (s : State G) : Result G :=
  match tx.feeTx with
  | none => .ok ((ctx, some errNotFeeTx), s)
  | some feeTx =>
    let feeCoins := feeTx.fee
    let gas := feeTx.gas
    if ctx.IsCheckTx && !simulate then
      let minGasPrices := ctx.MinGasPrices
      if !minGasPrices.IsZero then
        match requiredFees minGasPrices gas with
        | .error p => .error p
        | .ok required =>
          if !feeCoins.IsAnyGTE required then
            .ok ((ctx, some (errInsufficientFee feeCoins required)), s)
          else next ctx tx simulate s
      else next ctx tx simulate s
    else next ctx tx simulate s

end MempoolFeeDecorator

/-! ## Fee deduction and revenue split (`DeductFeeDecorator`, `DeductFees`) -/

/-- The error of an invalid fee set. -/
def errInvalidFee (fees : Coins) : Error :=
  .Wrapf (.registered .ErrInsufficientFee) "invalid fee amount: %s" [.coins fees]

/-- The error that wraps a failed transfer: `Wrapf(ErrInsufficientFunds, err.Error())`. -/
def errInsufficientFunds (msg : String) : Error :=
  .Wrapf (.registered .ErrInsufficientFunds) msg []

/-- The first loop of `DeductFees`: the decoded contract address of every top-level
`MsgExecuteContract`, in transaction order; the first address that does not decode ends
the loop with its error. `fromBech32` is `sdk.AccAddressFromBech32`, a library function
that returns the address or an error, known here by its message. -/
def collectContracts (fromBech32 : String → Except String AccAddress) :
    List Msg → Except Error (List AccAddress)
  | [] => .ok []
  | msg :: rest =>
    match msg with
    | .MsgExecuteContract contract =>
      match fromBech32 contract with
      | .error msg => .error (.external msg)
      | .ok cAddr =>
        match collectContracts fromBech32 rest with
        | .error err => .error err
        | .ok contracts => .ok (cAddr :: contracts)
    | _ => collectContracts fromBech32 rest

/-- The loop that fills `splitFees`: `sdk.NewCoin(c.Denom, c.Amount.QuoRaw(2))` for
every entry of the fee; `QuoRaw` truncates towards zero. -/
def splitFees : Coins → Except String Coins
  | [] => .ok []
  | c :: rest =>
    match NewCoin c.denom (Int.tdiv c.amount 2) with
    | .error p => .error p
    | .ok half =>
      match splitFees rest with
      | .error p => .error p
      | .ok halves => .ok (half :: halves)

/-- The last transfer of `DeductFees`, from the account to the module `distribution`. -/
def payToModule {G : Type} (bankKeeper : BankKeeper) (s : State G) (acc : Account)
    (fees : Coins) : Option Error × State G :=
  match bankKeeper.SendCoinsFromAccountToModule s.bank acc.GetAddress "distribution" fees with
  | .error msg => (some (errInsufficientFunds msg), s)
  | .ok bank => (none, { s with bank := bank })

/-- The function `DeductFees`. The result is a panic, or the returned error with the state left. -/
def DeductFees {G : Type} (fromBech32 : String → Except String AccAddress)
    (bankKeeper : BankKeeper) (s : State G) (acc : Account) (fees : Coins)
    (revKeeper : FeeShareKeeper G) (msgs : List Msg) : Except String (Option Error × State G) :=
  if !fees.IsValid then .ok (some (errInvalidFee fees), s)
  else
    match collectContracts fromBech32 msgs with
    | .error err => .ok (some err, s)
    | .ok [] => .ok (payToModule bankKeeper s acc fees)
    | .ok (contract :: _) =>
      match splitFees fees with
      | .error p => .error p
      | .ok split =>
        let revenueData := (revKeeper.GetRevenue s contract).1
        match revenueData.GetWithdrawerAddr with
        | none => .ok (payToModule bankKeeper s acc fees)
        | some withdrawAddr =>
          match fees.Sub split with
          | .error p => .error p
          | .ok rest =>
            match bankKeeper.SendCoinsFromModuleToAccount s.bank "distribution" withdrawAddr rest with
            | .error msg => .ok (some (errInsufficientFunds msg), s)
            | .ok bank => .ok (payToModule bankKeeper { s with bank := bank } acc rest)

/-- The decorator and its four keepers; a Go `nil` grant keeper is `none`. -/
structure DeductFeeDecorator (G : Type) where
  ak : AccountKeeper G
  bankKeeper : BankKeeper
  feegrantKeeper : Option (FeegrantKeeper G)
  feesharekeeper : FeeShareKeeper G

/-- The error of an unset fee-collector module account. -/
def errNoFeeCollector : Error :=
  .Errorf "fee collector module account (%s) has not been set" [.str FeeCollectorName]

/-- The error of a fee granter when no grant keeper is configured. -/
def errGrantsNotEnabled : Error :=
  (Error.registered .ErrInvalidRequest).Wrap "fee grants are not enabled"

/-- The error that wraps a refused grant. -/
def errGrantRefused (err : Error) (feeGranter feePayer : AccAddress) : Error :=
  .Wrapf err "%s not allowed to pay fees from %s" [.addr feeGranter, .addr feePayer]

/-- The error of a missing account to deduct from. -/
def errUnknownFeePayer (deductFeesFrom : AccAddress) : Error :=
  .Wrapf (.registered .ErrUnknownAddress) "fee payer address: %s does not exist"
    [.addr deductFeesFrom]

/-- The event emitted after the deduction. -/
def feeEvent (fee : Coins) (deductFeesFrom : AccAddress) : Event :=
  ⟨EventTypeTx, [⟨AttributeKeyFee, .coins fee⟩, ⟨AttributeKeyFeePayer, .addr deductFeesFrom⟩]⟩

namespace DeductFeeDecorator

/-- The block `if feeGranter != nil` of `AnteHandle`: the address to deduct from and the
grant store after the grant was used, or the error returned. -/
def resolvePayer {G : Type} (dfd : DeductFeeDecorator G) (grants : G) (fee : Coins)
    (feePayer : AccAddress) (feeGranter : Option AccAddress) (msgs : List Msg) :
    Except Error (AccAddress × G) :=
  match feeGranter with
  | none => .ok (feePayer, grants)
  | some granter =>
    match dfd.feegrantKeeper with
    | none => .error errGrantsNotEnabled
    | some fk =>
      if !granter.Equals feePayer then
        match fk.UseGrantedFees grants granter feePayer fee msgs with
        | .error err => .error (errGrantRefused err granter feePayer)
        | .ok grants1 => .ok (granter, grants1)
      else .ok (granter, grants)

/-- The end of `AnteHandle`: emit the event and call the next handler. -/
def emitAndNext {G : Type} (ctx : Context) (tx : Tx) (simulate : Bool) (next : AnteHandler G)
    (fee : Coins) (deductFeesFrom : AccAddress) (s : State G) : Result G :=
  next ctx tx simulate { s with events := s.events ++ [feeEvent fee deductFeesFrom] }

/-- The method `DeductFeeDecorator.AnteHandle`. -/
def AnteHandle {G : Type} (fromBech32 : String → Except String AccAddress)
    (dfd : DeductFeeDecorator G) (ctx : Context) (tx : Tx) (simulate : Bool)
    (next : AnteHandler G) (s : State G) : Result G :=
  match tx.feeTx with
  | none => .ok ((ctx, some errNotFeeTx), s)
  | some feeTx =>
    match dfd.ak.GetModuleAddress FeeCollectorName with
    | none => .ok ((ctx, some errNoFeeCollector), s)
    | some _ =>
      let fee := feeTx.fee
      match resolvePayer dfd s.grants fee feeTx.feePayer feeTx.feeGranter tx.GetMsgs with
      | .error err => .ok ((ctx, some err), s)
      | .ok (deductFeesFrom, grants1) =>
        let s1 : State G := { s with grants := grants1 }
        match dfd.ak.GetAccount s1 deductFeesFrom with
        | none => .ok ((ctx, some (errUnknownFeePayer deductFeesFrom)), s1)
        | some deductFeesFromAcc =>
          if !fee.IsZero then
            match DeductFees fromBech32 dfd.bankKeeper s1 deductFeesFromAcc fee
                dfd.feesharekeeper tx.GetMsgs with
            | .error p => .error p
            | .ok (some err, s2) => .ok ((ctx, some err), s2)
            | .ok (none, s2) => emitAndNext ctx tx simulate next fee deductFeesFrom s2
          else emitAndNext ctx tx simulate next fee deductFeesFrom s1

end DeductFeeDecorator

/-! ## The pipeline builder (`NewAnteHandler`) -/

/-- An ante decorator (`sdk.AnteDecorator`), given by its method `AnteHandle`. -/
abbrev Stage (G : Type) := Context → Tx → Bool → AnteHandler G → State G → Result G

/-- Modelled from the spec: the recursion of `sdk.ChainAnteDecorators` over a chain: every
decorator gets the rest of the chain as its next handler; at the end stands the
`Terminator` the library appends, which returns the context and no error. -/
def chainFrom {G : Type} : List (Stage G) → AnteHandler G
  | [] => fun ctx _ _ s => .ok ((ctx, none), s)
  | d :: rest => fun ctx tx simulate s => d ctx tx simulate (chainFrom rest) s

/-- Modelled from the spec: `sdk.ChainAnteDecorators` — "one composed handler"; for an
empty chain the library returns a `nil` handler. -/
def ChainAnteDecorators {G : Type} (chain : List (Stage G)) : Option (AnteHandler G) :=
  match chain with
  | [] => none
  | _ :: _ => some (chainFrom chain)

/-- Modelled from the spec: the signing-mode resolver (`authsigning.SignModeHandler`), an
external collaborator of which the builder only tests the presence. -/
structure SignModeHandler where
  id : Nat
deriving DecidableEq, Repr

/-- Modelled from the spec: a signature-gas consumer (`ante.SignatureVerificationGasConsumer`):
the default one of the library, or one supplied by the caller. -/
inductive SigGasConsumer where
  | DefaultSigVerificationGasConsumer
  | custom (id : Nat)
deriving DecidableEq, Repr

/-- Modelled from the spec: the cross-chain verifier (`ibckeeper.Keeper`), an external
collaborator handed to the last stage. -/
structure IBCKeeper where
  id : Nat
deriving DecidableEq, Repr

/-- Modelled from the spec: a store key (`sdk.StoreKey`). -/
structure StoreKey where
  name : String
deriving DecidableEq, Repr

/-- Modelled from the spec: the part of `wasmTypes.WasmConfig` the builder reads, the
minimum-simulation-gas limit (a Go pointer, `none` for `nil`). -/
structure WasmConfig where
  SimulationGasLimit : Option Nat
deriving DecidableEq, Repr

/-- The options of the builder: the embedded `ante.HandlerOptions` (account keeper, bank
keeper, grant keeper, sign-mode handler, signature-gas consumer) and the fields added by
this repository. A Go `nil` is `none`. The codec, the fork bank keeper and the revenue
registry are taken as present: the builder hands them on without looking at them. -/
structure HandlerOptions (G : Type) where
  AccountKeeper : Option (Juno.AccountKeeper G)
  BankKeeper : Option Juno.BankKeeper
  FeegrantKeeper : Option (Juno.FeegrantKeeper G)
  SignModeHandler : Option Juno.SignModeHandler
  SigGasConsumer : Option Juno.SigGasConsumer
  IBCKeeper : Option Juno.IBCKeeper
  feesharekeeper : FeeShareKeeper G
  BankKeeperFork : Juno.BankKeeper
  TxCounterStoreKey : StoreKey
  WasmConfig : Juno.WasmConfig
  Cdc : Any → Option Msg

/-- The decorator values that `NewAnteHandler` puts in the slice `anteDecorators`, each
with the arguments of its constructor. `MempoolFeeDecorator` is the one of the library
package `ante` (the builder calls `ante.NewMempoolFeeDecorator()`). -/
inductive Decorator (G : Type) where
  | SetUpContextDecorator
  | MinCommissionDecorator (min : Juno.MinCommissionDecorator)
  | LimitSimulationGasDecorator (gasLimit : Option Nat)
  | CountTXDecorator (storeKey : StoreKey)
  | RejectExtensionOptionsDecorator
  | MempoolFeeDecorator
  | ValidateBasicDecorator
  | TxTimeoutHeightDecorator
  | ValidateMemoDecorator (ak : AccountKeeper G)
  | ConsumeTxSizeGasDecorator (ak : AccountKeeper G)
  | DeductFeeDecorator (dfd : Juno.DeductFeeDecorator G)
  | SetPubKeyDecorator (ak : AccountKeeper G)
  | ValidateSigCountDecorator (ak : AccountKeeper G)
  | SigGasConsumeDecorator (ak : AccountKeeper G) (sigGasConsumer : SigGasConsumer)
  | SigVerificationDecorator (ak : AccountKeeper G) (signModeHandler : SignModeHandler)
  | IncrementSequenceDecorator (ak : AccountKeeper G)
  | IBCAnteDecorator (k : Option IBCKeeper)

/-- The kinds of stage in the pipeline. -/
inductive StageKind where
  | contextSetup
  | commissionGuard
  | simulationGasLimit
  | countTx
  | rejectExtensionOptions
  | feeSufficiency
  | validateBasic
  | txTimeoutHeight
  | validateMemo
  | consumeTxSizeGas
  | feeDeduction
  | setPubKey
  | signerCount
  | signatureGas
  | signatureVerification
  | sequenceIncrement
  | crossChainGuard
deriving DecidableEq, Repr

/-- The kind of stage of a decorator value. -/
def Decorator.kind {G : Type} : Decorator G → StageKind
  | .SetUpContextDecorator => .contextSetup
  | .MinCommissionDecorator _ => .commissionGuard
  | .LimitSimulationGasDecorator _ => .simulationGasLimit
  | .CountTXDecorator _ => .countTx
  | .RejectExtensionOptionsDecorator => .rejectExtensionOptions
  | .MempoolFeeDecorator => .feeSufficiency
  | .ValidateBasicDecorator => .validateBasic
  | .TxTimeoutHeightDecorator => .txTimeoutHeight
  | .ValidateMemoDecorator _ => .validateMemo
  | .ConsumeTxSizeGasDecorator _ => .consumeTxSizeGas
  | .DeductFeeDecorator _ => .feeDeduction
  | .SetPubKeyDecorator _ => .setPubKey
  | .ValidateSigCountDecorator _ => .signerCount
  | .SigGasConsumeDecorator _ _ => .signatureGas
  | .SigVerificationDecorator _ _ => .signatureVerification
  | .IncrementSequenceDecorator _ => .sequenceIncrement
  | .IBCAnteDecorator _ => .crossChainGuard

/-- The behaviour of the decorators that come from the cosmos-sdk, wasmd and ibc-go; they
are external collaborators, each "a single-call stage contract", taken as parameters. -/
structure ExternalDecorators (G : Type) where
  SetUpContextDecorator : Stage G
  LimitSimulationGasDecorator : Option Nat → Stage G
  CountTXDecorator : StoreKey → Stage G
  RejectExtensionOptionsDecorator : Stage G
  MempoolFeeDecorator : Stage G
  ValidateBasicDecorator : Stage G
  TxTimeoutHeightDecorator : Stage G
  ValidateMemoDecorator : AccountKeeper G → Stage G
  ConsumeTxSizeGasDecorator : AccountKeeper G → Stage G
  SetPubKeyDecorator : AccountKeeper G → Stage G
  ValidateSigCountDecorator : AccountKeeper G → Stage G
  SigGasConsumeDecorator : AccountKeeper G → SigGasConsumer → Stage G
  SigVerificationDecorator : AccountKeeper G → SignModeHandler → Stage G
  IncrementSequenceDecorator : AccountKeeper G → Stage G
  IBCAnteDecorator : Option IBCKeeper → Stage G

/-- The method `AnteHandle` of a decorator value: the decorators of this repository are the
ones embedded above, the others are the external ones. -/
def Decorator.AnteHandle {G : Type} (ext : ExternalDecorators G)
    (fromBech32 : String → Except String AccAddress) : Decorator G → Stage G
  | .SetUpContextDecorator => ext.SetUpContextDecorator
  | .MinCommissionDecorator min => fun ctx tx simulate next s =>
      min.AnteHandle ctx tx simulate next s
  | .LimitSimulationGasDecorator gasLimit => ext.LimitSimulationGasDecorator gasLimit
  | .CountTXDecorator storeKey => ext.CountTXDecorator storeKey
  | .RejectExtensionOptionsDecorator => ext.RejectExtensionOptionsDecorator
  | .MempoolFeeDecorator => ext.MempoolFeeDecorator
  | .ValidateBasicDecorator => ext.ValidateBasicDecorator
  | .TxTimeoutHeightDecorator => ext.TxTimeoutHeightDecorator
  | .ValidateMemoDecorator ak => ext.ValidateMemoDecorator ak
  | .ConsumeTxSizeGasDecorator ak => ext.ConsumeTxSizeGasDecorator ak
  | .DeductFeeDecorator dfd => fun ctx tx simulate next s =>
      Juno.DeductFeeDecorator.AnteHandle fromBech32 dfd ctx tx simulate next s
  | .SetPubKeyDecorator ak => ext.SetPubKeyDecorator ak
  | .ValidateSigCountDecorator ak => ext.ValidateSigCountDecorator ak
  | .SigGasConsumeDecorator ak sigGasConsumer => ext.SigGasConsumeDecorator ak sigGasConsumer
  | .SigVerificationDecorator ak signModeHandler =>
      ext.SigVerificationDecorator ak signModeHandler
  | .IncrementSequenceDecorator ak => ext.IncrementSequenceDecorator ak
  | .IBCAnteDecorator k => ext.IBCAnteDecorator k

/-- Modelled from the spec: the constructor `wasmkeeper.NewLimitSimulationGasDecorator` of
the simulation-gas stage (library code outside the given sources): it accepts an absent
limit, and panics when the limit points to zero. -/
def NewLimitSimulationGasDecorator (gasLimit : Option Nat) : Except String (Option Nat) :=
  match gasLimit with
  | some 0 => .error "gas limit must not be zero"
  | _ => .ok gasLimit

/-- The call of the constructor of a decorator value, as an entry of the slice literal
evaluates it: the constructor of the simulation-gas stage can panic, the other
constructors only store their arguments. -/
def Decorator.construct {G : Type} (ext : ExternalDecorators G)
    (fromBech32 : String → Except String AccAddress) : Decorator G → Except String (Stage G)
  | .LimitSimulationGasDecorator gasLimit =>
    match NewLimitSimulationGasDecorator gasLimit with
    | .error p => .error p
    | .ok limit => .ok (ext.LimitSimulationGasDecorator limit)
  | d => .ok (d.AnteHandle ext fromBech32)

/-- The evaluation of the slice literal: the constructors are called in the order of the
entries, and the first panic ends the evaluation. -/
def constructAll {G : Type} (ext : ExternalDecorators G)
    (fromBech32 : String → Except String AccAddress) :
    List (Decorator G) → Except String (List (Stage G))
  | [] => .ok []
  | d :: rest =>
    match d.construct ext fromBech32 with
    | .error p => .error p
    | .ok stage =>
      match constructAll ext fromBech32 rest with
      | .error p => .error p
      | .ok stages => .ok (stage :: stages)

/-- The constructor `NewMinCommissionDecorator`. -/
def NewMinCommissionDecorator (cdc : Any → Option Msg) : MinCommissionDecorator := ⟨cdc⟩

/-- The constructor `NewDeductFeeDecorator`. -/
def NewDeductFeeDecorator {G : Type} (ak : AccountKeeper G) (bk : BankKeeper)
    (fk : Option (FeegrantKeeper G)) (fs : FeeShareKeeper G) : DeductFeeDecorator G :=
  ⟨ak, bk, fk, fs⟩

/-- The entries of the slice `anteDecorators` of `NewAnteHandler`, in order, each a
constructor with its arguments, for an account keeper and a sign-mode handler that are
present and the signature-gas consumer chosen before. -/
def anteDecorators {G : Type} (options : HandlerOptions G) (accountKeeper : AccountKeeper G)
    (signModeHandler : SignModeHandler) (sigGasConsumer : SigGasConsumer) :
    List (Decorator G) :=
  [ .SetUpContextDecorator,
    .MinCommissionDecorator (NewMinCommissionDecorator options.Cdc),
    .LimitSimulationGasDecorator options.WasmConfig.SimulationGasLimit,
    .CountTXDecorator options.TxCounterStoreKey,
    .RejectExtensionOptionsDecorator,
    .MempoolFeeDecorator,
    .ValidateBasicDecorator,
    .TxTimeoutHeightDecorator,
    .ValidateMemoDecorator accountKeeper,
    .ConsumeTxSizeGasDecorator accountKeeper,
    .DeductFeeDecorator (NewDeductFeeDecorator accountKeeper options.BankKeeperFork
      options.FeegrantKeeper options.feesharekeeper),
    .SetPubKeyDecorator accountKeeper,
    .ValidateSigCountDecorator accountKeeper,
    .SigGasConsumeDecorator accountKeeper sigGasConsumer,
    .SigVerificationDecorator accountKeeper signModeHandler,
    .IncrementSequenceDecorator accountKeeper,
    .IBCAnteDecorator options.IBCKeeper ]

/-- The configuration error of a missing mandatory collaborator. -/
def errRequired (what : String) : Error := (Error.registered .ErrLogic).Wrap what

/-- The function `NewAnteHandler`: a panic, or the handler (`none` for `nil`) and the
error. -/
def NewAnteHandler {G : Type} (ext : ExternalDecorators G)
    (fromBech32 : String → Except String AccAddress) (options : HandlerOptions G) :
    Except String (Option (AnteHandler G) × Option Error) :=
  match options.AccountKeeper with
  | none => .ok (none, some (errRequired "account keeper is required for ante builder"))
  | some accountKeeper =>
    match options.BankKeeper with
    | none => .ok (none, some (errRequired "bank keeper is required for ante builder"))
    | some _ =>
      match options.SignModeHandler with
      | none =>
        .ok (none, some (errRequired "sign mode handler is required for ante builder"))
      | some signModeHandler =>
        let sigGasConsumer :=
          match options.SigGasConsumer with
          | none => SigGasConsumer.DefaultSigVerificationGasConsumer
          | some consumer => consumer
        match constructAll ext fromBech32
            (anteDecorators options accountKeeper signModeHandler sigGasConsumer) with
        | .error p => .error p
        | .ok chain => .ok (ChainAnteDecorators chain, none)

/-! ## The messages of the feeshare module (`x/feeshare/types/msg.go`) -/

/-- The message `MsgRegisterRevenue`, with the three string fields that the constructor in
`msg.go` fills; the declaration of the type is generated code outside the given sources. -/
structure MsgRegisterRevenue where
  ContractAddress : String
  DeployerAddress : String
  WithdrawerAddress : String
deriving DecidableEq, Repr

/-- The message `MsgUpdateRevenue`, with the three string fields that the constructor in
`msg.go` fills; the declaration of the type is generated code outside the given sources. -/
structure MsgUpdateRevenue where
  ContractAddress : String
  DeployerAddress : String
  WithdrawerAddress : String
deriving DecidableEq, Repr

/-- The constructor `NewMsgRegisterRevenue`. The contract is any `sdk.Address`, known by its
method `String` (`contractString`); `addrString` is the method `String` of an account
address; both are library functions. A Go `nil` withdrawer is `none`. -/
def NewMsgRegisterRevenue {A : Type} (contractString : A → String)
    (addrString : AccAddress → String) (contract : A) (deployer : AccAddress)
    (withdrawer : Option AccAddress) : MsgRegisterRevenue :=
  let withdrawerAddress :=
    match withdrawer with
    | some w => addrString w
    | none => ""
  { ContractAddress := contractString contract,
    DeployerAddress := addrString deployer,
    WithdrawerAddress := withdrawerAddress }

/-- The method `MsgRegisterRevenue.ValidateBasic`; `none` is the Go `nil` error.
`fromBech32` is `sdk.AccAddressFromBech32`. -/
def MsgRegisterRevenue.ValidateBasic (fromBech32 : String → Except String AccAddress)
    (msg : MsgRegisterRevenue) : Option Error :=
  match fromBech32 msg.DeployerAddress with
  | .error err =>
    some (.Wrapf (.external err) "invalid deployer address %s" [.str msg.DeployerAddress])
  | .ok _ =>
    match fromBech32 msg.ContractAddress with
    | .error err =>
      some (.Wrapf (.external err) "invalid contract address %s" [.str msg.ContractAddress])
    | .ok _ =>
      if msg.WithdrawerAddress ≠ "" then
        match fromBech32 msg.WithdrawerAddress with
        | .error err =>
          some (.Wrapf (.external err) "invalid withdraw address %s"
            [.str msg.WithdrawerAddress])
        | .ok _ => none
      else none

/-- The method `MsgUpdateRevenue.ValidateBasic`; `none` is the Go `nil` error. -/
def MsgUpdateRevenue.ValidateBasic (fromBech32 : String → Except String AccAddress)
    (msg : MsgUpdateRevenue) : Option Error :=
  match fromBech32 msg.DeployerAddress with
  | .error err =>
    some (.Wrapf (.external err) "invalid deployer address %s" [.str msg.DeployerAddress])
  | .ok _ =>
    match fromBech32 msg.ContractAddress with
    | .error err =>
      some (.Wrapf (.external err) "invalid contract address %s" [.str msg.ContractAddress])
    | .ok _ =>
      match fromBech32 msg.WithdrawerAddress with
      | .error err =>
        some (.Wrapf (.external err) "invalid withdraw address %s"
          [.str msg.WithdrawerAddress])
      | .ok _ => none

/-! ## Vocabulary of the statements -/

/-- The contract fields of the top-level `MsgExecuteContract` messages, in transaction
order. -/
def executedContracts : List Msg → List String
  | [] => []
  | .MsgExecuteContract contract :: rest => contract :: executedContracts rest
  | _ :: rest => executedContracts rest

/-- The share kept back by the split, entry by entry: `floor(amount / 2)`. -/
def halfCoins (fees : Coins) : Coins := fees.map fun c => ⟨c.denom, c.amount / 2⟩

/-- The share that is transferred by the split, entry by entry:
`amount - floor(amount / 2)`. -/
def owedCoins (fees : Coins) : Coins := fees.map fun c => ⟨c.denom, c.amount - c.amount / 2⟩

/-- A stage accepts: whatever the next handler and the state are, the stage returns what
the next handler returns on the same context, transaction, flag and state. -/
def Accepts {G : Type} (stage : AnteHandler G → State G → Result G) (ctx : Context)
    (tx : Tx) (simulate : Bool) : Prop :=
  ∀ (next : AnteHandler G) (s : State G), stage next s = next ctx tx simulate s

/-- A stage rejects with an error: whatever the next handler and the state are, the stage
returns the context it was given and the error, leaves the state as it was, and the
result does not depend on the next handler. -/
def RejectsWith {G : Type} (stage : AnteHandler G → State G → Result G) (ctx : Context)
    (err : Error) : Prop :=
  ∀ (next : AnteHandler G) (s : State G), stage next s = .ok ((ctx, some err), s)

/-- A next handler that returns its arguments and no error. -/
def nextOk {G : Type} : AnteHandler G := fun ctx _ _ s => .ok ((ctx, none), s)

/-- The required amount of the specification for one entry of the policy:
`ceil(minPrice[denom] * gasLimit)`, computed on rationals. -/
def requiredAmount (gp : DecCoin) (gas : Nat) : Int := ⌈gp.amount.toRat * (gas : ℚ)⌉

/-- The fixed order of the stage kinds in the pipeline. -/
def pipelineOrder : List StageKind :=
  [ .contextSetup, .commissionGuard, .simulationGasLimit, .countTx, .rejectExtensionOptions,
    .feeSufficiency, .validateBasic, .txTimeoutHeight, .validateMemo, .consumeTxSizeGas,
    .feeDeduction, .setPubKey, .signerCount, .signatureGas, .signatureVerification,
    .sequenceIncrement, .crossChainGuard ]

/-- In a list of stage kinds, `a` occurs and `b` occurs later than the first `a`. -/
def precedes (l : List StageKind) (a b : StageKind) : Bool :=
  decide (l.indexOf a < l.indexOf b ∧ l.indexOf b < l.length)

/-- In a list of stage kinds, `b` stands right after `a`. -/
def immediatelyBefore (l : List StageKind) (a b : StageKind) : Bool :=
  decide (l.indexOf a + 1 = l.indexOf b ∧ l.indexOf b < l.length)

/-- The stages defined in this repository, as decorator values: the commission guard, the
fee-sufficiency stage and the fee-deduction stage. -/
inductive LocalStage (G : Type) where
  | commissionGuard (min : MinCommissionDecorator)
  | feeSufficiency
  | feeDeduction (dfd : DeductFeeDecorator G)

/-- The method `AnteHandle` of a stage of this repository. -/
def LocalStage.AnteHandle {G : Type} (fromBech32 : String → Except String AccAddress) :
    LocalStage G → Stage G
  | .commissionGuard min => fun ctx tx simulate next s => min.AnteHandle ctx tx simulate next s
  | .feeSufficiency => fun ctx tx simulate next s =>
      MempoolFeeDecorator.AnteHandle ctx tx simulate next s
  | .feeDeduction dfd => fun ctx tx simulate next s =>
      DeductFeeDecorator.AnteHandle fromBech32 dfd ctx tx simulate next s

/-- A stage passes from state `s` to state `s1`: whatever the next handler is, the stage
returns what the next handler returns on the context, transaction and flag the stage was
given and on the state `s1`. -/
def Passes {G : Type} (d : Stage G) (ctx : Context) (tx : Tx) (simulate : Bool)
    (s s1 : State G) : Prop :=
  ∀ next : AnteHandler G, d ctx tx simulate next s = next ctx tx simulate s1

/-- A stage fails with the error `e` and leaves the state `s1`: whatever the next handler
is, the stage returns the context it was given and the error; the next handler has no
part in the result. -/
def Fails {G : Type} (d : Stage G) (ctx : Context) (tx : Tx) (simulate : Bool)
    (s : State G) (e : Error) (s1 : State G) : Prop :=
  ∀ next : AnteHandler G, d ctx tx simulate next s = .ok ((ctx, some e), s1)

/-- A stage panics: whatever the next handler is, the stage ends in the Go panic `p`. -/
def Panics {G : Type} (d : Stage G) (ctx : Context) (tx : Tx) (simulate : Bool)
    (s : State G) (p : String) : Prop :=
  ∀ next : AnteHandler G, d ctx tx simulate next s = .error p

/-- Every stage of a list passes, one after the other, from state `s` to state `s1`. -/
def PassAll {G : Type} (ctx : Context) (tx : Tx) (simulate : Bool) :
    List (Stage G) → State G → State G → Prop
  | [], s, s1 => s1 = s
  | d :: rest, s, s1 => ∃ s2, Passes d ctx tx simulate s s2 ∧ PassAll ctx tx simulate rest s2 s1

/-! ## Sample data of the worked examples -/

/-- A sample address decoder: two well-formed contract addresses, everything else is
malformed. -/
def sampleBech32 : String → Except String AccAddress := fun str =>
  if str = "juno1contract" then .ok [1, 1]
  else if str = "juno1other" then .ok [2, 2]
  else .error "decoding bech32 failed"

/-- A sample revenue registry: the contract `[1, 1]` has the withdrawer `[7]`, no other
contract is registered. -/
def sampleRegistry : FeeShareKeeper Unit where
  GetRevenue := fun _ contract =>
    if contract = [1, 1] then (⟨[9], some [7]⟩, true) else (⟨[], none⟩, false)

/-- A sample ledger: the module `distribution` holds 1000 ujuno, the account `[5]` holds
500 ujuno, the account `[6]` holds 300 ujuno. -/
def sampleLedger : Ledger := fun h denom =>
  if denom = "ujuno" then
    if h = .module "distribution" then 1000
    else if h = .account [5] then 500
    else if h = .account [6] then 300
    else 0
  else 0

/-- The sample state: the sample ledger, no grant store, no event. -/
def sampleState : State Unit := ⟨sampleLedger, (), []⟩

/-- The sample fee payer, the account `[5]`. -/
def samplePayer : Account := ⟨[5]⟩

/-- The sample state after the split settlement of the fee `101 ujuno`: 51 ujuno went
from the module to the withdrawer `[7]`, then 51 ujuno from the payer `[5]` to the
module. -/
def sampleSplitState : State Unit :=
  ⟨Ledger.moved
    (Ledger.moved sampleLedger (.module "distribution") (.account [7]) [⟨"ujuno", 51⟩])
    (.account [5]) (.module "distribution") [⟨"ujuno", 51⟩], (), []⟩

/-- The sample state after the ordinary settlement of the fee `100 ujuno`. -/
def samplePlainState : State Unit :=
  ⟨Ledger.moved sampleLedger (.account [5]) (.module "distribution") [⟨"ujuno", 100⟩], (), []⟩

/-- A sample codec: a packed `MsgCreateValidator` whose bytes are the single number `n`
decodes to a validator creation with the commission rate `n / 100`, and one without bytes
to a validator creation whose rate was never set; a packed `MsgSend` decodes to another
message; everything else fails to decode. -/
def sampleCdc : Any → Option Msg := fun a =>
  if a.typeUrl = "/cosmos.staking.v1beta1.MsgCreateValidator" then
    match a.value with
    | [] => some (.MsgCreateValidator .unset)
    | [n] => some (.MsgCreateValidator (.set (Dec.NewDecWithPrec n 2)))
    | _ => none
  else if a.typeUrl = "/cosmos.bank.v1beta1.MsgSend" then
    some (.Other "/cosmos.bank.v1beta1.MsgSend")
  else none

/-- The commission guard with the sample codec. -/
def sampleGuard : MinCommissionDecorator := ⟨sampleCdc⟩

/-- A sample check-mode context with the policy `denomA: 0.01`. -/
def sampleCtx : Context := ⟨true, [⟨"denomA", Dec.NewDecWithPrec 1 2⟩]⟩

/-- A sample account lookup: the accounts `[5]`, `[6]` and `[7]` exist, and the
fee-collector module account is set. -/
def sampleAccounts : AccountKeeper Unit where
  HasAccount := fun _ addr => decide (addr = [5] ∨ addr = [6] ∨ addr = [7])
  GetModuleAddress := fun name => if name = FeeCollectorName then some [0] else none

/-- A sample grant keeper that authorizes every use. -/
def sampleGrants : FeegrantKeeper Unit where
  UseGrantedFees := fun grants _ _ _ _ => .ok grants

/-- The sample fee-deduction stage, with the grant keeper. -/
def sampleDeduct : DeductFeeDecorator Unit :=
  ⟨sampleAccounts, Ledger.keeper, some sampleGrants, sampleRegistry⟩

/-- The sample fee-deduction stage without a grant keeper. -/
def sampleDeductNoGrants : DeductFeeDecorator Unit :=
  ⟨sampleAccounts, Ledger.keeper, none, sampleRegistry⟩

/-- A fee-deduction stage without grant keeper whose account keeper has no fee-collector
module account. -/
def sampleDeductNoCollector : DeductFeeDecorator Unit :=
  ⟨⟨sampleAccounts.HasAccount, fun _ => none⟩, Ledger.keeper, none, sampleRegistry⟩

/-- Sample external stages: every one hands over to the next stage. -/
def sampleExternal : ExternalDecorators Unit where
  SetUpContextDecorator := fun ctx tx simulate next s => next ctx tx simulate s
  LimitSimulationGasDecorator := fun _ ctx tx simulate next s => next ctx tx simulate s
  CountTXDecorator := fun _ ctx tx simulate next s => next ctx tx simulate s
  RejectExtensionOptionsDecorator := fun ctx tx simulate next s => next ctx tx simulate s
  MempoolFeeDecorator := fun ctx tx simulate next s => next ctx tx simulate s
  ValidateBasicDecorator := fun ctx tx simulate next s => next ctx tx simulate s
  TxTimeoutHeightDecorator := fun ctx tx simulate next s => next ctx tx simulate s
  ValidateMemoDecorator := fun _ ctx tx simulate next s => next ctx tx simulate s
  ConsumeTxSizeGasDecorator := fun _ ctx tx simulate next s => next ctx tx simulate s
  SetPubKeyDecorator := fun _ ctx tx simulate next s => next ctx tx simulate s
  ValidateSigCountDecorator := fun _ ctx tx simulate next s => next ctx tx simulate s
  SigGasConsumeDecorator := fun _ _ ctx tx simulate next s => next ctx tx simulate s
  SigVerificationDecorator := fun _ _ ctx tx simulate next s => next ctx tx simulate s
  IncrementSequenceDecorator := fun _ ctx tx simulate next s => next ctx tx simulate s
  IBCAnteDecorator := fun _ ctx tx simulate next s => next ctx tx simulate s

/-- Sample builder options: the three mandatory collaborators are present; no grant
keeper, no signature-gas consumer and no cross-chain keeper are given. -/
def sampleOptions : HandlerOptions Unit where
  AccountKeeper := some sampleAccounts
  BankKeeper := some Ledger.keeper
  FeegrantKeeper := none
  SignModeHandler := some ⟨1⟩
  SigGasConsumer := none
  IBCKeeper := none
  feesharekeeper := sampleRegistry
  BankKeeperFork := Ledger.keeper
  TxCounterStoreKey := ⟨"wasm"⟩
  WasmConfig := ⟨none⟩
  Cdc := sampleCdc

/-- A sample codec that also decodes a packed authorization batch: a packed `MsgExec`
decodes to a batch holding one packed validator creation with the same bytes; every other
packed message is decoded by the sample codec above. -/
def sampleNestedCdc : Any → Option Msg := fun a =>
  if a.typeUrl = "/cosmos.authz.v1beta1.MsgExec" then
    some (.MsgExec [⟨"/cosmos.staking.v1beta1.MsgCreateValidator", a.value⟩])
  else sampleCdc a

/-- A sample codec that also decodes a packed contract execution: a packed
`MsgExecuteContract` decodes to the execution of the contract `juno1contract`; every other
packed message is decoded by the sample codec above. -/
def sampleWasmCdc : Any → Option Msg := fun a =>
  if a.typeUrl = "/cosmwasm.wasm.v1.MsgExecuteContract" then
    some (.MsgExecuteContract "juno1contract")
  else sampleCdc a

/-- A sample of the method `String` of an address, the inverse of the sample decoder on the
two well-formed addresses; every other address is written as the empty string. -/
def sampleAddrString : AccAddress → String := fun a =>
  if a = [1, 1] then "juno1contract" else if a = [2, 2] then "juno1other" else ""

/-! ## Theorems -/

/-- No character list is below itself. -/
theorem charsLT_irrefl (l : List Char) : charsLT l l = false := by
  induction l with
  | nil => rfl
  | cons a as ih => simp [charsLT, ih]

/-- No denomination is below itself. -/
theorem denomLT_irrefl (a : String) : denomLT a a = false := charsLT_irrefl _

/-- Entries accepted by the validation loop have a valid denomination and a positive
amount. -/
theorem validateFrom_forall (rest : List Coin) : ∀ (low : String),
    Coins.validateFrom low rest = true →
    ∀ c ∈ rest, ValidateDenom c.denom = true ∧ 0 < c.amount := by
  induction rest with
  | nil => intro _ _ c hc; simp at hc
  | cons x xs ih =>
    intro low h c hc
    simp only [Coins.validateFrom, Bool.and_eq_true, Coin.IsPositive, decide_eq_true_eq] at h
    rcases List.mem_cons.mp hc with rfl | hc
    · exact ⟨h.1.1.1, h.1.2⟩
    · exact ih _ h.2 c hc

/-- Every entry of a valid coin set has a valid denomination and a positive amount. -/
theorem isValid_forall (fees : Coins) (h : fees.IsValid = true) :
    ∀ c ∈ fees, ValidateDenom c.denom = true ∧ 0 < c.amount := by
  cases fees with
  | nil => intro c hc; simp at hc
  | cons x xs =>
    intro c hc
    simp only [Coins.IsValid, Bool.and_eq_true, Coin.IsPositive, decide_eq_true_eq] at h
    rcases List.mem_cons.mp hc with rfl | hc
    · exact ⟨h.1.1, h.1.2⟩
    · exact validateFrom_forall xs _ h.2 c hc

/-- On a valid fee the loop that fills `splitFees` does not panic and yields
`floor(amount / 2)` in every entry. -/
theorem splitFees_eq (fees : Coins)
    (h : ∀ c ∈ fees, ValidateDenom c.denom = true ∧ 0 < c.amount) :
    splitFees fees = .ok (halfCoins fees) := by
  induction fees with
  | nil => rfl
  | cons x xs ih =>
    have hx := h x (List.mem_cons_self _ _)
    have hxs := ih (fun c hc => h c (List.mem_cons_of_mem _ hc))
    have hdiv : Int.tdiv x.amount 2 = x.amount / 2 :=
      Int.tdiv_eq_ediv (le_of_lt hx.2) (by decide)
    have hnn : ¬ x.amount / 2 < 0 := by omega
    simp [splitFees, NewCoin, hx.1, hdiv, hnn, hxs, halfCoins]

/-- Adding the negated halves entry by entry leaves `amount - floor(amount / 2)`. -/
theorem safeAdd_negative_halfCoins (fees : Coins) (h : ∀ c ∈ fees, 0 < c.amount) :
    Coins.safeAdd fees (Coins.negative (halfCoins fees)) = owedCoins fees := by
  induction fees with
  | nil => rfl
  | cons x xs ih =>
    have hx := h x (List.mem_cons_self _ _)
    have hxs := ih (fun c hc => h c (List.mem_cons_of_mem _ hc))
    have hne : ¬ (x.amount + -(x.amount / 2) = 0) := by omega
    simp only [halfCoins, owedCoins, Coins.negative, List.map_cons, Coins.safeAdd,
      Coins.safeAddAux, denomLT_irrefl, Bool.false_eq_true, if_false, if_true,
      Coins.consNonZero, Coin.IsZero, decide_eq_true_eq, hne] at hxs ⊢
    rw [hxs]
    simp [sub_eq_add_neg]

/-- The subtraction `fees.Sub(splitFees)` does not panic on positive amounts. -/
theorem sub_halfCoins (fees : Coins) (h : ∀ c ∈ fees, 0 < c.amount) :
    Coins.Sub fees (halfCoins fees) = .ok (owedCoins fees) := by
  have hneg : Coins.IsAnyNegative (owedCoins fees) = false := by
    rw [Bool.eq_false_iff]
    intro hc
    simp only [Coins.IsAnyNegative, owedCoins, List.any_eq_true, List.mem_map,
      Coin.IsNegative, decide_eq_true_eq] at hc
    obtain ⟨c, ⟨x, hx, rfl⟩, hlt⟩ := hc
    have := h x hx
    simp only at hlt
    omega
  simp [Coins.Sub, safeAdd_negative_halfCoins fees h, hneg]

/-- The kept share of a denomination is half of what the fee holds in it, rounded down. -/
theorem amountOf_halfCoins (fees : Coins) (d : String) :
    (halfCoins fees).AmountOf d = fees.AmountOf d / 2 := by
  induction fees with
  | nil => rfl
  | cons x xs ih =>
    simp only [halfCoins, List.map_cons, Coins.AmountOf] at ih ⊢
    split
    · rfl
    · exact ih

/-- The transferred share of a denomination is what the fee holds in it minus the half
rounded down. -/
theorem amountOf_owedCoins (fees : Coins) (d : String) :
    (owedCoins fees).AmountOf d = fees.AmountOf d - fees.AmountOf d / 2 := by
  induction fees with
  | nil => rfl
  | cons x xs ih =>
    simp only [owedCoins, List.map_cons, Coins.AmountOf] at ih ⊢
    split
    · rfl
    · exact ih


/-- The floor `minCommissionRate` is the decimal 0.05: a rate is below it exactly when
its value is below 5/100. -/
theorem lt_minCommissionRate_iff (r : Dec) :
    r.LT minCommissionRate = true ↔ r.toRat < 5 / 100 := by
  have h18 : ((10 : ℚ) ^ Dec.Precision) = 1000000000000000000 := by norm_num [Dec.Precision]
  have hi : minCommissionRate.i = 50000000000000000 := by decide
  simp only [Dec.LT, decide_eq_true_eq, hi, Dec.toRat, h18]
  rw [div_lt_div_iff₀ (by norm_num) (by norm_num)]
  constructor
  · intro h
    have : (r.i : ℚ) < 50000000000000000 := by exact_mod_cast h
    linarith
  · intro h
    have : (r.i : ℚ) < 50000000000000000 := by linarith
    exact_mod_cast this

/-- The check of one message fails only with the commission error. -/
theorem validMsg_eq_some (m : Msg) (e : Error)
    (h : MinCommissionDecorator.validMsg m = .ok (some e)) : e = errCommissionTooLow := by
  cases m with
  | MsgCreateValidator rate =>
    cases rate with
    | unset => simp [MinCommissionDecorator.validMsg, DecField.LT] at h
    | set r =>
      simp only [MinCommissionDecorator.validMsg, DecField.LT] at h
      split at h <;> simp_all
  | MsgEditValidator rate =>
    cases rate with
    | none => simp [MinCommissionDecorator.validMsg] at h
    | some rate =>
      cases rate with
      | unset => simp [MinCommissionDecorator.validMsg, DecField.LT] at h
      | set r =>
        simp only [MinCommissionDecorator.validMsg, DecField.LT] at h
        split at h <;> simp_all
  | MsgExecuteContract c => simp [MinCommissionDecorator.validMsg] at h
  | MsgExec l => simp [MinCommissionDecorator.validMsg] at h
  | Other t => simp [MinCommissionDecorator.validMsg] at h

/-- The check of one message panics only on a commission rate that was never set, with the
panic of a nil pointer dereference. -/
theorem validMsg_eq_error_iff (m : Msg) (p : String) :
    MinCommissionDecorator.validMsg m = .error p
      ↔ (m = .MsgCreateValidator .unset ∨ m = .MsgEditValidator (some .unset))
        ∧ p = nilPointerPanic := by
  cases m with
  | MsgCreateValidator rate =>
    cases rate with
    | unset =>
      simp only [MinCommissionDecorator.validMsg, DecField.LT, Except.error.injEq, true_or,
        true_and]
      exact eq_comm
    | set r =>
      simp only [MinCommissionDecorator.validMsg, DecField.LT]
      split <;> simp
  | MsgEditValidator rate =>
    cases rate with
    | none => simp [MinCommissionDecorator.validMsg]
    | some rate =>
      cases rate with
      | unset =>
        simp only [MinCommissionDecorator.validMsg, DecField.LT, Except.error.injEq, or_true,
          true_and]
        exact eq_comm
      | set r =>
        simp only [MinCommissionDecorator.validMsg, DecField.LT]
        split <;> simp
  | MsgExecuteContract c => simp [MinCommissionDecorator.validMsg]
  | MsgExec l => simp [MinCommissionDecorator.validMsg]
  | Other t => simp [MinCommissionDecorator.validMsg]

/-- The guard accepts exactly when the scan of the messages finds no error. -/
theorem accepts_iff_scan {G : Type} [Inhabited G] (min : MinCommissionDecorator)
    (ctx : Context) (tx : Tx) (simulate : Bool) :
    Accepts (G := G) (min.AnteHandle ctx tx simulate) ctx tx simulate
      ↔ min.scanMsgs tx.GetMsgs = .ok none := by
  constructor
  · intro h
    have h1 := h nextOk ⟨fun _ _ => 0, default, []⟩
    unfold MinCommissionDecorator.AnteHandle at h1
    cases hs : min.scanMsgs tx.GetMsgs with
    | error p => rw [hs] at h1; simp [nextOk] at h1
    | ok r =>
      cases r with
      | none => rfl
      | some e => rw [hs] at h1; simp [nextOk] at h1
  · intro h next s
    unfold MinCommissionDecorator.AnteHandle
    rw [h]

/-- The guard rejects with an error exactly when the scan of the messages finds it. -/
theorem rejectsWith_iff_scan {G : Type} [Inhabited G] (min : MinCommissionDecorator)
    (ctx : Context) (tx : Tx) (simulate : Bool) (e : Error) :
    RejectsWith (G := G) (min.AnteHandle ctx tx simulate) ctx e
      ↔ min.scanMsgs tx.GetMsgs = .ok (some e) := by
  constructor
  · intro h
    have h1 := h nextOk ⟨fun _ _ => 0, default, []⟩
    unfold MinCommissionDecorator.AnteHandle at h1
    cases hs : min.scanMsgs tx.GetMsgs with
    | error p => rw [hs] at h1; simp at h1
    | ok r =>
      cases r with
      | none => rw [hs] at h1; simp [nextOk] at h1
      | some e1 =>
        rw [hs] at h1
        simp only [Except.ok.injEq, Prod.mk.injEq, Option.some.injEq, true_and, and_true] at h1
        rw [h1]
  · intro h next s
    unfold MinCommissionDecorator.AnteHandle
    rw [h]

/-- The guard panics, whatever the next handler and the state are, exactly when the scan of
the messages panics. -/
theorem panics_iff_scan {G : Type} [Inhabited G] (min : MinCommissionDecorator)
    (ctx : Context) (tx : Tx) (simulate : Bool) (p : String) :
    (∀ (next : AnteHandler G) (s : State G), min.AnteHandle ctx tx simulate next s = .error p)
      ↔ min.scanMsgs tx.GetMsgs = .error p := by
  constructor
  · intro h
    have h1 := h nextOk ⟨fun _ _ => 0, default, []⟩
    unfold MinCommissionDecorator.AnteHandle at h1
    cases hs : min.scanMsgs tx.GetMsgs with
    | error q => rw [hs] at h1; simpa using h1
    | ok r =>
      cases r with
      | none => rw [hs] at h1; simp [nextOk] at h1
      | some e1 => rw [hs] at h1; simp at h1
  · intro h next s
    unfold MinCommissionDecorator.AnteHandle
    rw [h]

/-- C1: for every commission rate `r`, the commission guard applied to a transaction whose
only message is `CreateValidator{r}` accepts iff `r ≥ 0.05` (and rejects with the
commission error iff `r < 0.05`); the same holds for `EditValidator` with a rate `r`;
`EditValidator` without a rate is always accepted. -/
theorem C1_commission_floor {G : Type} [Inhabited G] (min : MinCommissionDecorator)
    (ctx : Context) (simulate : Bool) (feeTx : Option FeeTx) (r : Dec) :
    (Accepts (G := G) (min.AnteHandle ctx ⟨[.MsgCreateValidator (.set r)], feeTx⟩ simulate)
        ctx ⟨[.MsgCreateValidator (.set r)], feeTx⟩ simulate ↔ (5 : ℚ) / 100 ≤ r.toRat)
    ∧ (RejectsWith (G := G)
        (min.AnteHandle ctx ⟨[.MsgCreateValidator (.set r)], feeTx⟩ simulate) ctx
        errCommissionTooLow ↔ r.toRat < 5 / 100)
    ∧ (Accepts (G := G)
        (min.AnteHandle ctx ⟨[.MsgEditValidator (some (.set r))], feeTx⟩ simulate) ctx
        ⟨[.MsgEditValidator (some (.set r))], feeTx⟩ simulate ↔ (5 : ℚ) / 100 ≤ r.toRat)
    ∧ (RejectsWith (G := G)
        (min.AnteHandle ctx ⟨[.MsgEditValidator (some (.set r))], feeTx⟩ simulate)
        ctx errCommissionTooLow ↔ r.toRat < 5 / 100)
    ∧ Accepts (G := G) (min.AnteHandle ctx ⟨[.MsgEditValidator none], feeTx⟩ simulate) ctx
        ⟨[.MsgEditValidator none], feeTx⟩ simulate := by
  have hlt := lt_minCommissionRate_iff r
  simp only [accepts_iff_scan, rejectsWith_iff_scan, Tx.GetMsgs,
    MinCommissionDecorator.scanMsgs, MinCommissionDecorator.checkMsg,
    MinCommissionDecorator.validMsg, DecField.LT]
  by_cases h : r.LT minCommissionRate = true
  · have h2 : r.toRat < 5 / 100 := hlt.mp h
    simp [h, h2]
  · have h2 : ¬ r.toRat < 5 / 100 := fun h3 => h (hlt.mpr h3)
    simp [h, h2]
    exact not_lt.mp h2

/-- Without a top-level contract execution the first loop of `DeductFees` collects
nothing. -/
theorem collectContracts_of_nil (fromBech32 : String → Except String AccAddress)
    (msgs : List Msg) (h : executedContracts msgs = []) :
    collectContracts fromBech32 msgs = .ok [] := by
  induction msgs with
  | nil => rfl
  | cons m rest ih =>
    cases m <;> simp_all [executedContracts, collectContracts]

/-- When the first loop of `DeductFees` succeeds, the first address it collected is the
decoded contract field of the first top-level contract execution. -/
theorem collectContracts_head (fromBech32 : String → Except String AccAddress)
    (msgs : List Msg) (c : String) (cs : List String) (l : List AccAddress)
    (h : executedContracts msgs = c :: cs)
    (hl : collectContracts fromBech32 msgs = .ok l) :
    ∃ a as, fromBech32 c = .ok a ∧ l = a :: as := by
  induction msgs with
  | nil => simp [executedContracts] at h
  | cons m rest ih =>
    cases m with
    | MsgExecuteContract contract =>
      simp only [executedContracts, List.cons.injEq] at h
      obtain ⟨rfl, -⟩ := h
      simp only [collectContracts] at hl
      cases hfb : fromBech32 contract with
      | error e => rw [hfb] at hl; simp at hl
      | ok a =>
        rw [hfb] at hl
        cases hrest : collectContracts fromBech32 rest with
        | error e => rw [hrest] at hl; simp at hl
        | ok as =>
          rw [hrest] at hl
          simp only [Except.ok.injEq] at hl
          exact ⟨a, as, rfl, hl.symm⟩
    | MsgCreateValidator r => exact ih (by simpa [executedContracts] using h) (by simpa [collectContracts] using hl)
    | MsgEditValidator r => exact ih (by simpa [executedContracts] using h) (by simpa [collectContracts] using hl)
    | MsgExec r => exact ih (by simpa [executedContracts] using h) (by simpa [collectContracts] using hl)
    | Other r => exact ih (by simpa [executedContracts] using h) (by simpa [collectContracts] using hl)

/-- When every top-level contract execution carries an address that decodes, the first
loop of `DeductFees` succeeds. -/
theorem collectContracts_ok (fromBech32 : String → Except String AccAddress)
    (msgs : List Msg)
    (h : ∀ c ∈ executedContracts msgs, ∃ a, fromBech32 c = .ok a) :
    ∃ l, collectContracts fromBech32 msgs = .ok l := by
  induction msgs with
  | nil => exact ⟨[], rfl⟩
  | cons m rest ih =>
    cases m with
    | MsgExecuteContract contract =>
      simp only [executedContracts, List.mem_cons, forall_eq_or_imp] at h
      obtain ⟨a, ha⟩ := h.1
      obtain ⟨l, hl⟩ := ih h.2
      exact ⟨a :: l, by simp [collectContracts, ha, hl]⟩
    | MsgCreateValidator r => simpa [executedContracts, collectContracts] using ih (by simpa [executedContracts] using h)
    | MsgEditValidator r => simpa [executedContracts, collectContracts] using ih (by simpa [executedContracts] using h)
    | MsgExec r => simpa [executedContracts, collectContracts] using ih (by simpa [executedContracts] using h)
    | Other r => simpa [executedContracts, collectContracts] using ih (by simpa [executedContracts] using h)

/-- The split path of `DeductFees`: with a valid fee, a first collected contract and a
registered withdrawer, `DeductFees` sends `fees - splitFees` from the module to the
withdrawer and then the same amount from the account to the module. -/
theorem DeductFees_split {G : Type} (fromBech32 : String → Except String AccAddress)
    (bankKeeper : BankKeeper) (s : State G) (acc : Account) (fees : Coins)
    (revKeeper : FeeShareKeeper G) (msgs : List Msg) (contract w : AccAddress)
    (cs : List AccAddress) (hvalid : fees.IsValid = true)
    (hcol : collectContracts fromBech32 msgs = .ok (contract :: cs))
    (hw : (revKeeper.GetRevenue s contract).1.GetWithdrawerAddr = some w) :
    DeductFees fromBech32 bankKeeper s acc fees revKeeper msgs =
      match bankKeeper.SendCoinsFromModuleToAccount s.bank "distribution" w (owedCoins fees) with
      | .error msg => .ok (some (errInsufficientFunds msg), s)
      | .ok bank => .ok (payToModule bankKeeper { s with bank := bank } acc (owedCoins fees)) := by
  have hall := isValid_forall fees hvalid
  have hsplit := splitFees_eq fees hall
  have hsub := sub_halfCoins fees (fun c hc => (hall c hc).2)
  simp only [DeductFees, hvalid, Bool.not_true, Bool.false_eq_true, if_false, hcol, hsplit, hw,
    hsub]

/-- The ordinary path of `DeductFees`: with a valid fee, and either no collected contract
or a first contract without a withdrawer, `DeductFees` is the single transfer of the
whole fee from the account to the module. -/
theorem DeductFees_plain {G : Type} (fromBech32 : String → Except String AccAddress)
    (bankKeeper : BankKeeper) (s : State G) (acc : Account) (fees : Coins)
    (revKeeper : FeeShareKeeper G) (msgs : List Msg) (l : List AccAddress)
    (hvalid : fees.IsValid = true)
    (hcol : collectContracts fromBech32 msgs = .ok l)
    (hw : ∀ contract ∈ l.head?, (revKeeper.GetRevenue s contract).1.GetWithdrawerAddr = none) :
    DeductFees fromBech32 bankKeeper s acc fees revKeeper msgs =
      .ok (payToModule bankKeeper s acc fees) := by
  have hall := isValid_forall fees hvalid
  have hsplit := splitFees_eq fees hall
  cases l with
  | nil => simp only [DeductFees, hvalid, Bool.not_true, Bool.false_eq_true, if_false, hcol]
  | cons contract cs =>
    have h1 := hw contract (by simp)
    simp only [DeductFees, hvalid, Bool.not_true, Bool.false_eq_true, if_false, hcol, hsplit, h1]


/-- C3: for every valid fee set `F`, when the first top-level `ExecuteContract` message
names a contract with a registered withdrawer `w` and `DeductFees` succeeds (both
transfers succeed): the kept share `Half` is `floor(F[denom] / 2)` in every denomination;
the withdrawer is credited exactly `F - Half` and the payer debited exactly `F - Half`
(not `F`), no other balance moves; the balance of the collector module account is the
same after as before. -/
theorem C3_split_gives_withdrawer_and_debits_payer_owed {G : Type}
    (fromBech32 : String → Except String AccAddress) (s s1 : State G) (acc : Account)
    (fees : Coins) (revKeeper : FeeShareKeeper G) (msgs : List Msg) (c : String)
    (contract w : AccAddress)
    (hvalid : fees.IsValid = true)
    (hfirst : (executedContracts msgs).head? = some c)
    (haddr : fromBech32 c = .ok contract)
    (hw : (revKeeper.GetRevenue s contract).1.GetWithdrawerAddr = some w)
    (hok : DeductFees fromBech32 Ledger.keeper s acc fees revKeeper msgs = .ok (none, s1)) :
    (splitFees fees = .ok (halfCoins fees)
      ∧ ∀ d, (halfCoins fees).AmountOf d = fees.AmountOf d / 2)
    ∧ (∀ h d, s1.bank h d = s.bank h d
        + (if h = .account w then fees.AmountOf d - fees.AmountOf d / 2 else 0)
        - (if h = .account acc.GetAddress then fees.AmountOf d - fees.AmountOf d / 2 else 0))
    ∧ (∀ d, s1.bank (.module "distribution") d = s.bank (.module "distribution") d)
    ∧ (w ≠ acc.GetAddress → ∀ d,
        s1.bank (.account w) d = s.bank (.account w) d
          + (fees.AmountOf d - fees.AmountOf d / 2)
        ∧ s1.bank (.account acc.GetAddress) d = s.bank (.account acc.GetAddress) d
          - (fees.AmountOf d - fees.AmountOf d / 2))
    ∧ s1.grants = s.grants ∧ s1.events = s.events := by
  have hall := isValid_forall fees hvalid
  obtain ⟨cs, hcs⟩ : ∃ cs, executedContracts msgs = c :: cs := by
    cases hex : executedContracts msgs with
    | nil => rw [hex] at hfirst; simp at hfirst
    | cons x xs =>
      rw [hex] at hfirst
      simp only [List.head?_cons, Option.some.injEq] at hfirst
      exact ⟨xs, by rw [hfirst]⟩
  -- the first loop succeeded, and its first address is `contract`
  have hcol : ∃ as, collectContracts fromBech32 msgs = .ok (contract :: as) := by
    cases hc : collectContracts fromBech32 msgs with
    | error e =>
      simp [DeductFees, hvalid, hc] at hok
    | ok l =>
      obtain ⟨a, as, ha, rfl⟩ := collectContracts_head fromBech32 msgs c cs l hcs hc
      rw [haddr] at ha
      simp only [Except.ok.injEq] at ha
      exact ⟨as, by rw [ha]⟩
  obtain ⟨as, hcol⟩ := hcol
  rw [DeductFees_split fromBech32 Ledger.keeper s acc fees revKeeper msgs contract w as hvalid
    hcol hw] at hok
  simp only [Ledger.keeper, Ledger.transfer, payToModule] at hok
  have hs1 : s1 = ⟨Ledger.moved
      (Ledger.moved s.bank (.module "distribution") (.account w) (owedCoins fees))
      (.account acc.GetAddress) (.module "distribution") (owedCoins fees),
      s.grants, s.events⟩ := by
    by_cases h1 : Ledger.covers s.bank (.module "distribution") (owedCoins fees) = true
    · simp only [h1, if_true] at hok
      by_cases h2 : Ledger.covers
          (Ledger.moved s.bank (.module "distribution") (.account w) (owedCoins fees))
          (.account acc.GetAddress) (owedCoins fees) = true
      · simp only [h2, if_true, Except.ok.injEq, Prod.mk.injEq, true_and] at hok
        exact hok.symm
      · simp [h2] at hok
    · simp [h1] at hok
  have hbank : ∀ h d, s1.bank h d = s.bank h d
        + (if h = .account w then fees.AmountOf d - fees.AmountOf d / 2 else 0)
        - (if h = .account acc.GetAddress then fees.AmountOf d - fees.AmountOf d / 2 else 0) := by
    intro h d
    rw [hs1]
    simp only [Ledger.moved, amountOf_owedCoins]
    split <;> split <;> split <;> simp_all
  refine ⟨⟨splitFees_eq fees hall, amountOf_halfCoins fees⟩, hbank, ?_, ?_, ?_, ?_⟩
  · intro d
    rw [hbank]
    simp
  · intro hne d
    have hne2 : acc.GetAddress ≠ w := fun h => hne h.symm
    constructor
    · rw [hbank]; simp [hne]
    · rw [hbank]; simp [hne2]
  · rw [hs1]
  · rw [hs1]



/-- Witness of C3, the example of the specification: fee `101 ujuno`, one contract
execution, registered withdrawer `[7]`, payer `[5]`. The withdrawer receives 51, the payer
is debited 51 (500 to 449), the module balance stays 1000. -/
theorem C3_witness :
    Coins.IsValid [⟨"ujuno", 101⟩] = true
    ∧ (executedContracts [.MsgExecuteContract "juno1contract"]).head? = some "juno1contract"
    ∧ sampleBech32 "juno1contract" = .ok [1, 1]
    ∧ (sampleRegistry.GetRevenue sampleState [1, 1]).1.GetWithdrawerAddr = some [7]
    ∧ DeductFees sampleBech32 Ledger.keeper sampleState samplePayer [⟨"ujuno", 101⟩]
        sampleRegistry [.MsgExecuteContract "juno1contract"] = .ok (none, sampleSplitState)
    ∧ sampleSplitState.bank (.account [7]) "ujuno" = 51
    ∧ sampleSplitState.bank (.account [5]) "ujuno" = 449
    ∧ sampleSplitState.bank (.module "distribution") "ujuno" = 1000 := by
  have h := C3_split_gives_withdrawer_and_debits_payer_owed sampleBech32 sampleState
    sampleSplitState samplePayer [⟨"ujuno", 101⟩] sampleRegistry
    [.MsgExecuteContract "juno1contract"] "juno1contract" [1, 1] [7]
    (by decide) (by rfl) (by rfl) (by rfl) (by rfl)
  obtain ⟨-, hb, hc, hd, -, -⟩ := h
  refine ⟨by decide, by rfl, by rfl, by rfl, by rfl, ?_, ?_, ?_⟩
  · rw [(hd (by decide) "ujuno").1]; decide
  · have := (hd (by decide) "ujuno").2
    simp only [Account.GetAddress, samplePayer] at this
    rw [this]; decide
  · rw [hc]; decide


/-- Counterexample to C4 as stated: the first top-level `ExecuteContract` names a
contract without a registered withdrawer and the fee `100 ujuno` is valid, but a later
`ExecuteContract` carries a malformed address; `DeductFees` returns the decode error of
the first loop and makes no transfer at all: the state is the one it was given, the payer
still owns 500 ujuno and the collector module account 1000 ujuno. -/
theorem C4_counterexample_malformed_later_contract :
    Coins.IsValid [⟨"ujuno", 100⟩] = true
    ∧ (executedContracts
        [.MsgExecuteContract "juno1other", .MsgExecuteContract "not-an-address"]).head?
        = some "juno1other"
    ∧ sampleBech32 "juno1other" = .ok [2, 2]
    ∧ (sampleRegistry.GetRevenue sampleState [2, 2]).1.GetWithdrawerAddr = none
    ∧ DeductFees sampleBech32 Ledger.keeper sampleState samplePayer [⟨"ujuno", 100⟩]
        sampleRegistry [.MsgExecuteContract "juno1other", .MsgExecuteContract "not-an-address"]
        = .ok (some (.external "decoding bech32 failed"), sampleState)
    ∧ sampleState.bank (.account samplePayer.GetAddress) "ujuno" = 500
    ∧ sampleState.bank (.module "distribution") "ujuno" = 1000 := by
  refine ⟨by decide, by rfl, by rfl, by rfl, by rfl, by decide, by decide⟩

/-- C4 (amended): for every valid fee set `F`, when every top-level `ExecuteContract`
message carries a well-formed contract address, and the transaction has no top-level
`ExecuteContract` message or the contract of the first one has no registered withdrawer,
`DeductFees` is exactly one transfer, of the entire `F` from the payer to the collector
module account (for every bank keeper). On the ledger: when the payer owns `F` the
transfer is made, the payer balance decreases by exactly `F`, the collector balance
increases by `F` and no other balance changes; otherwise `DeductFees` fails with
`ErrInsufficientFunds` and nothing changes. -/
theorem C4_no_split_single_transfer {G : Type}
    (fromBech32 : String → Except String AccAddress) (bankKeeper : BankKeeper) (s : State G)
    (acc : Account) (fees : Coins) (revKeeper : FeeShareKeeper G) (msgs : List Msg)
    (hvalid : fees.IsValid = true)
    (hdecode : ∀ c ∈ executedContracts msgs, ∃ a, fromBech32 c = .ok a)
    (hnone : ∀ c ∈ (executedContracts msgs).head?, ∀ a, fromBech32 c = .ok a →
      (revKeeper.GetRevenue s a).1.GetWithdrawerAddr = none) :
    DeductFees fromBech32 bankKeeper s acc fees revKeeper msgs
      = .ok (payToModule bankKeeper s acc fees)
    ∧ (Ledger.covers s.bank (.account acc.GetAddress) fees = true →
        ∃ s1, DeductFees fromBech32 Ledger.keeper s acc fees revKeeper msgs = .ok (none, s1)
          ∧ (∀ d, s1.bank (.account acc.GetAddress) d
              = s.bank (.account acc.GetAddress) d - fees.AmountOf d)
          ∧ (∀ d, s1.bank (.module "distribution") d
              = s.bank (.module "distribution") d + fees.AmountOf d)
          ∧ (∀ h d, h ≠ .account acc.GetAddress → h ≠ .module "distribution" →
              s1.bank h d = s.bank h d)
          ∧ s1.grants = s.grants ∧ s1.events = s.events)
    ∧ (Ledger.covers s.bank (.account acc.GetAddress) fees = false →
        DeductFees fromBech32 Ledger.keeper s acc fees revKeeper msgs
          = .ok (some (errInsufficientFunds "insufficient funds"), s)) := by
  obtain ⟨l, hl⟩ := collectContracts_ok fromBech32 msgs hdecode
  have hw : ∀ contract ∈ l.head?, (revKeeper.GetRevenue s contract).1.GetWithdrawerAddr = none := by
    intro contract hc
    cases hex : executedContracts msgs with
    | nil =>
      rw [collectContracts_of_nil fromBech32 msgs hex] at hl
      simp only [Except.ok.injEq] at hl
      subst hl
      simp at hc
    | cons c cs =>
      obtain ⟨a, as, ha, rfl⟩ := collectContracts_head fromBech32 msgs c cs l hex hl
      simp only [List.head?_cons, Option.mem_def, Option.some.injEq] at hc
      subst hc
      exact hnone c (by rw [hex]; simp) a ha
  have hplain := fun bk => DeductFees_plain fromBech32 bk s acc fees revKeeper msgs l hvalid hl hw
  refine ⟨hplain bankKeeper, ?_, ?_⟩
  · intro hcov
    refine ⟨⟨Ledger.moved s.bank (.account acc.GetAddress) (.module "distribution") fees,
      s.grants, s.events⟩, ?_, ?_, ?_, ?_, rfl, rfl⟩
    · rw [hplain]
      simp [payToModule, Ledger.keeper, Ledger.transfer, hcov]
    · intro d; simp [Ledger.moved]
    · intro d; simp [Ledger.moved]
    · intro h d h1 h2; simp [Ledger.moved, h1, h2]
  · intro hcov
    rw [hplain]
    simp [payToModule, Ledger.keeper, Ledger.transfer, hcov]

/-- Witness of C4, the example of the specification: a transaction without contract
execution and the fee `100 ujuno` moves exactly 100 ujuno from the payer (500 to 400) to
the collector module account (1000 to 1100). -/
theorem C4_witness :
    Coins.IsValid [⟨"ujuno", 100⟩] = true
    ∧ DeductFees sampleBech32 Ledger.keeper sampleState samplePayer [⟨"ujuno", 100⟩]
        sampleRegistry [.Other "/cosmos.bank.v1beta1.MsgSend"] = .ok (none, samplePlainState)
    ∧ samplePlainState.bank (.account [5]) "ujuno" = 400
    ∧ samplePlainState.bank (.module "distribution") "ujuno" = 1100
    ∧ samplePlainState.bank (.account [6]) "ujuno" = 300 := by
  have h := C4_no_split_single_transfer sampleBech32 Ledger.keeper sampleState samplePayer
    [⟨"ujuno", 100⟩] sampleRegistry [.Other "/cosmos.bank.v1beta1.MsgSend"] (by decide)
    (by intro c hc; simp [executedContracts] at hc)
    (by intro c hc; simp [executedContracts] at hc)
  refine ⟨by decide, ?_, by decide, by decide, by decide⟩
  rw [h.1]
  rfl


/-- The fee-sufficiency stage in check mode, not simulating, with a policy that is not
zero, when the computation of the required fees panics: the stage panics. -/
theorem mempoolFee_of_panic {G : Type} (ctx : Context) (msgs : List Msg) (f : FeeTx)
    (next : AnteHandler G) (s : State G) (p : String) (hc : ctx.IsCheckTx = true)
    (hz : ctx.MinGasPrices.IsZero = false)
    (hreq : MempoolFeeDecorator.requiredFees ctx.MinGasPrices f.gas = .error p) :
    MempoolFeeDecorator.AnteHandle ctx ⟨msgs, some f⟩ false next s = .error p := by
  simp only [MempoolFeeDecorator.AnteHandle, hc, hz, hreq, Bool.not_false, Bool.and_self,
    if_true]

/-- The fee-sufficiency stage in check mode, not simulating, with a policy that is not
zero, when the required fees are computed: the stage compares the fee with them. -/
theorem mempoolFee_of_required {G : Type} (ctx : Context) (msgs : List Msg) (f : FeeTx)
    (next : AnteHandler G) (s : State G) (required : Coins) (hc : ctx.IsCheckTx = true)
    (hz : ctx.MinGasPrices.IsZero = false)
    (hreq : MempoolFeeDecorator.requiredFees ctx.MinGasPrices f.gas = .ok required) :
    MempoolFeeDecorator.AnteHandle ctx ⟨msgs, some f⟩ false next s =
      if f.fee.IsAnyGTE required then next ctx ⟨msgs, some f⟩ false s
      else .ok ((ctx, some (errInsufficientFee f.fee required)), s) := by
  simp only [MempoolFeeDecorator.AnteHandle, hc, hz, hreq, Bool.not_false, Bool.and_self,
    if_true]
  cases h : f.fee.IsAnyGTE required <;> simp

/-- The scaling factor written out. -/
theorem precisionReuse_eq : Dec.precisionReuse = 1000000000000000000 := by decide

/-- Rounding an exact multiple of the scaling factor gives the multiple back. -/
theorem chopPrecisionAndRound_mul (q : Int) (hq : 0 ≤ q) :
    Dec.chopPrecisionAndRound (q * Dec.precisionReuse) = q := by
  unfold Dec.chopPrecisionAndRound
  rw [precisionReuse_eq]
  have h1 : ((q * 1000000000000000000).natAbs : Int) = q * 1000000000000000000 := by
    omega
  simp only [h1]
  have h2 : q * 1000000000000000000 % 1000000000000000000 = 0 := by omega
  have h3 : q * 1000000000000000000 / 1000000000000000000 = q := by omega
  have h4 : ¬ (q * 1000000000000000000 < 0) := by omega
  simp [h2, h3, h4]

/-- The product of a price and an integer decimal is exact. -/
theorem mul_newDec (p g : Int) (hp : 0 ≤ p) (hg : 0 ≤ g) :
    (Dec.Mul ⟨p⟩ (Dec.NewDec g)).i = p * g := by
  unfold Dec.Mul Dec.NewDec
  simp only
  rw [← mul_assoc]
  exact chopPrecisionAndRound_mul (p * g) (mul_nonneg hp hg)

/-- The library's `Ceil` followed by `RoundInt` is the integer ceiling of the quotient by the scaling
factor. -/
theorem ceil_roundInt (x : Int) (hx : 0 ≤ x) :
    (Dec.Ceil ⟨x⟩).RoundInt = (x + 999999999999999999) / 1000000000000000000 := by
  have hq : 0 ≤ (x + 999999999999999999) / 1000000000000000000 := by omega
  have hd : Int.tdiv x Dec.precisionReuse = x / 1000000000000000000 := by
    rw [precisionReuse_eq]; exact Int.tdiv_eq_ediv hx (by decide)
  have hm : Int.tmod x Dec.precisionReuse = x % 1000000000000000000 := by
    rw [precisionReuse_eq]; exact Int.tmod_eq_emod hx (by decide)
  unfold Dec.Ceil Dec.RoundInt
  simp only [hd, hm]
  by_cases h0 : x % 1000000000000000000 = 0
  · simp only [h0, if_true, Dec.NewDec]
    rw [chopPrecisionAndRound_mul _ (by omega)]
    omega
  · have hneg : ¬ (x % 1000000000000000000 < 0) := by omega
    simp only [h0, hneg, if_false, Dec.NewDec]
    rw [chopPrecisionAndRound_mul _ (by omega)]
    omega

/-- The integer ceiling of the quotient is the ceiling of the rational product of price
and gas limit. -/
theorem ceil_toRat_mul (p : Int) (g : Nat) (hp : 0 ≤ p) :
    ⌈(⟨p⟩ : Dec).toRat * (g : ℚ)⌉ = (p * g + 999999999999999999) / 1000000000000000000 := by
  rw [Int.ceil_eq_iff]
  have h18 : ((10 : ℚ) ^ Dec.Precision) = 1000000000000000000 := by norm_num [Dec.Precision]
  simp only [Dec.toRat, h18]
  have hx : 0 ≤ p * (g : Int) := mul_nonneg hp (by omega)
  generalize hxe : p * (g : Int) = x at hx ⊢
  have hxq : (p : ℚ) / 1000000000000000000 * (g : ℚ) = (x : ℚ) / 1000000000000000000 := by
    rw [← hxe]; push_cast; ring
  rw [hxq]
  set c := (x + 999999999999999999) / 1000000000000000000 with hc
  have h1 : (c - 1) * 1000000000000000000 < x := by omega
  have h2 : x ≤ c * 1000000000000000000 := by omega
  constructor
  · rw [lt_div_iff₀ (by norm_num)]
    have : (((c - 1) * 1000000000000000000 : Int) : ℚ) < (x : ℚ) := by exact_mod_cast h1
    push_cast at this
    linarith
  · rw [div_le_iff₀ (by norm_num)]
    have : ((x : Int) : ℚ) ≤ ((c * 1000000000000000000 : Int) : ℚ) := by exact_mod_cast h2
    push_cast at this
    linarith


/-- Below `2 ^ 63` the conversion `int64(gas)` keeps the value. -/
theorem int64OfUint64_of_lt (gas : Nat) (h : gas < 2 ^ 63) : int64OfUint64 gas = (gas : Int) := by
  unfold int64OfUint64
  have h1 : gas % 2 ^ 64 = gas := Nat.mod_eq_of_lt (by omega)
  simp only [h1, h, if_true]

/-- For a valid denomination and a non-negative price, the required amount computed by
the stage from an unconverted gas limit is `ceil(price * gas)`; `sdk.NewCoin` does not
panic. -/
theorem requiredFee_eq (gp : DecCoin) (gas : Nat) (hd : ValidateDenom gp.denom = true)
    (hp : 0 ≤ gp.amount.i) :
    MempoolFeeDecorator.requiredFee (Dec.NewDec (gas : Int)) gp
      = .ok ⟨gp.denom, requiredAmount gp gas⟩ := by
  obtain ⟨denom, ⟨p⟩⟩ := gp
  simp only at hd hp
  have hmul : Dec.Mul ⟨p⟩ (Dec.NewDec (gas : Int)) = ⟨p * gas⟩ := by
    have := mul_newDec p gas hp (by omega)
    cases h : Dec.Mul ⟨p⟩ (Dec.NewDec (gas : Int)) with
    | mk i => rw [h] at this; simp only at this; rw [this]
  have hx : 0 ≤ p * (gas : Int) := mul_nonneg hp (by omega)
  have hnn : ¬ ((p * (gas : Int) + 999999999999999999) / 1000000000000000000 < 0) := by omega
  simp only [MempoolFeeDecorator.requiredFee, hmul, ceil_roundInt _ hx, NewCoin, hd,
    Bool.not_true, Bool.false_eq_true, if_false, hnn, requiredAmount, ceil_toRat_mul p gas hp]

/-- For gas limits below `2 ^ 63` the required fees are `ceil(price * gas)` for every
entry of the policy, in the order of the policy. -/
theorem requiredFees_eq (minGasPrices : DecCoins) (gas : Nat) (hgas : gas < 2 ^ 63)
    (hpol : ∀ gp ∈ minGasPrices, ValidateDenom gp.denom = true ∧ 0 ≤ gp.amount.i) :
    MempoolFeeDecorator.requiredFees minGasPrices gas
      = .ok (minGasPrices.map fun gp => ⟨gp.denom, requiredAmount gp gas⟩) := by
  unfold MempoolFeeDecorator.requiredFees
  rw [int64OfUint64_of_lt gas hgas]
  induction minGasPrices with
  | nil => rfl
  | cons gp rest ih =>
    have h1 := hpol gp (List.mem_cons_self _ _)
    have h2 := ih (fun x hx => hpol x (List.mem_cons_of_mem _ hx))
    simp only [MempoolFeeDecorator.requiredFeesLoop, requiredFee_eq gp gas h1.1 h1.2, h2,
      List.map_cons]

/-- The fee-sufficiency stage for gas limits below `2 ^ 63`, in check mode, not
simulating, with a policy that is not zero and has valid denominations and non-negative
prices: the stage accepts when for at least one denomination of the policy the declared
fee amount is at least `ceil(price * gas)`, and otherwise fails with
`ErrInsufficientFee`. -/
theorem mempoolFee_in_range {G : Type} (ctx : Context) (msgs : List Msg) (f : FeeTx)
    (next : AnteHandler G) (s : State G) (hc : ctx.IsCheckTx = true)
    (hz : ctx.MinGasPrices.IsZero = false)
    (hpol : ∀ gp ∈ ctx.MinGasPrices, ValidateDenom gp.denom = true ∧ 0 ≤ gp.amount.i)
    (hgas : f.gas < 2 ^ 63) :
    ((∃ gp ∈ ctx.MinGasPrices, requiredAmount gp f.gas ≤ f.fee.AmountOf gp.denom) →
      MempoolFeeDecorator.AnteHandle ctx ⟨msgs, some f⟩ false next s
        = next ctx ⟨msgs, some f⟩ false s)
    ∧ ((¬ ∃ gp ∈ ctx.MinGasPrices, requiredAmount gp f.gas ≤ f.fee.AmountOf gp.denom) →
      MempoolFeeDecorator.AnteHandle ctx ⟨msgs, some f⟩ false next s
        = .ok ((ctx, some (errInsufficientFee f.fee
            (ctx.MinGasPrices.map fun gp => ⟨gp.denom, requiredAmount gp f.gas⟩))), s)) := by
  have hreq := requiredFees_eq ctx.MinGasPrices f.gas hgas hpol
  have hform := mempoolFee_of_required ctx msgs f next s _ hc hz hreq
  have hany : f.fee.IsAnyGTE (ctx.MinGasPrices.map fun gp => ⟨gp.denom, requiredAmount gp f.gas⟩)
      = true ↔ ∃ gp ∈ ctx.MinGasPrices, requiredAmount gp f.gas ≤ f.fee.AmountOf gp.denom := by
    simp [Coins.IsAnyGTE]
  constructor
  · intro h
    rw [hform, if_pos (hany.mpr h)]
  · intro h
    rw [hform, if_neg (fun h1 => h (hany.mp h1))]

/-- The conversion `int64(gas)` at `gas = 2 ^ 63` is `-2 ^ 63`. -/
theorem int64OfUint64_wraps :
    int64OfUint64 9223372036854775808 = -9223372036854775808 := by decide

/-- C2 (failing input): in check mode, not simulating, with the policy `denomA: 0.01` and
the gas limit `2 ^ 63`, the required amount of the claim is
`ceil(0.01 * 2 ^ 63) = 92233720368547759`, so by the claim a fee of that amount is
accepted and a smaller one is rejected with `ErrInsufficientFee`. The stage does neither:
for every declared fee it panics in `sdk.NewCoin`, because `int64(gas)` is `-2 ^ 63` and
the required amount it computes is negative. -/
theorem C2_gas_limit_wraps_to_negative :
    requiredAmount ⟨"denomA", Dec.NewDecWithPrec 1 2⟩ 9223372036854775808
      = 92233720368547759
    ∧ ∀ {G : Type} (msgs : List Msg) (fee : Coins) (feePayer : AccAddress)
        (feeGranter : Option AccAddress) (next : AnteHandler G) (s : State G),
        MempoolFeeDecorator.AnteHandle sampleCtx
          ⟨msgs, some ⟨fee, 9223372036854775808, feePayer, feeGranter⟩⟩ false next s
          = .error "negative coin amount" := by
  constructor
  · have h := ceil_toRat_mul 10000000000000000 9223372036854775808 (by decide)
    have hp : Dec.NewDecWithPrec 1 2 = ⟨10000000000000000⟩ := by decide
    unfold requiredAmount
    rw [hp]
    simp only at h ⊢
    rw [h]
    decide
  · intro G msgs fee feePayer feeGranter next s
    have hreq : MempoolFeeDecorator.requiredFees sampleCtx.MinGasPrices 9223372036854775808
        = .error "negative coin amount" := by
      unfold MempoolFeeDecorator.requiredFees
      rw [int64OfUint64_wraps]
      rfl
    exact mempoolFee_of_panic sampleCtx msgs ⟨fee, 9223372036854775808, feePayer, feeGranter⟩
      next s _ rfl (by decide) hreq

/-- The example of the specification for the fee-sufficiency stage: policy
`denomA: 0.01`, gas limit 1000; the required amount is 10; the fee `10 denomA` is
accepted and the fee `9 denomA` is rejected with `ErrInsufficientFee`. -/
theorem mempoolFee_example {G : Type} (msgs : List Msg) (feePayer : AccAddress)
    (feeGranter : Option AccAddress) (next : AnteHandler G) (s : State G) :
    MempoolFeeDecorator.requiredFees sampleCtx.MinGasPrices 1000 = .ok [⟨"denomA", 10⟩]
    ∧ MempoolFeeDecorator.AnteHandle sampleCtx
        ⟨msgs, some ⟨[⟨"denomA", 10⟩], 1000, feePayer, feeGranter⟩⟩ false next s
      = next sampleCtx ⟨msgs, some ⟨[⟨"denomA", 10⟩], 1000, feePayer, feeGranter⟩⟩ false s
    ∧ MempoolFeeDecorator.AnteHandle sampleCtx
        ⟨msgs, some ⟨[⟨"denomA", 9⟩], 1000, feePayer, feeGranter⟩⟩ false next s
      = .ok ((sampleCtx,
          some (errInsufficientFee [⟨"denomA", 9⟩] [⟨"denomA", 10⟩])), s) := by
  have hreq : MempoolFeeDecorator.requiredFees sampleCtx.MinGasPrices 1000
      = .ok [⟨"denomA", 10⟩] := by rfl
  refine ⟨hreq, ?_, ?_⟩
  · exact mempoolFee_of_required sampleCtx msgs ⟨[⟨"denomA", 10⟩], 1000, feePayer, feeGranter⟩
      next s _ rfl (by decide) hreq
  · exact mempoolFee_of_required sampleCtx msgs ⟨[⟨"denomA", 9⟩], 1000, feePayer, feeGranter⟩
      next s _ rfl (by decide) hreq


/-- When every packed message decodes and none of the decoded messages is itself an
authorization batch, the check of the batch is the scan of the decoded messages. -/
theorem validAuthz_eq_scanMsgs (min : MinCommissionDecorator) (anys : List Any) :
    ∀ (inner : List Msg), anys.map min.cdc = inner.map some →
      (∀ m ∈ inner, ∀ l, m ≠ .MsgExec l) →
      min.validAuthz anys = min.scanMsgs inner := by
  induction anys with
  | nil =>
    intro inner h _
    cases inner with
    | nil => rfl
    | cons m ms => simp at h
  | cons v rest ih =>
    intro inner h hne
    cases inner with
    | nil => simp at h
    | cons m ms =>
      simp only [List.map_cons, List.cons.injEq] at h
      have hm : min.checkMsg m = MinCommissionDecorator.validMsg m := by
        cases m with
        | MsgExec l => exact absurd rfl (hne _ (List.mem_cons_self _ _) l)
        | _ => rfl
      have hrest := ih ms h.2 (fun x hx => hne x (List.mem_cons_of_mem _ hx))
      simp only [MinCommissionDecorator.validAuthz, h.1, MinCommissionDecorator.scanMsgs, hm,
        hrest]

/-- C5: authorization-wrapped messages are validated exactly as if sent directly. For
every list of inner messages that all decode and none of which is itself an `AuthzExec`,
the commission guard accepts the transaction `[AuthzExec{inner}]` iff it accepts the
transaction whose top-level messages are the inner messages, it rejects the one with
an error iff it rejects the other with the same error, and it panics on the one iff it
panics on the other. -/
theorem C5_authz_wrapped_same_as_direct {G : Type} [Inhabited G]
    (min : MinCommissionDecorator) (ctx : Context) (simulate : Bool) (feeTx : Option FeeTx)
    (anys : List Any) (inner : List Msg)
    (hdecode : anys.map min.cdc = inner.map some)
    (hflat : ∀ m ∈ inner, ∀ l, m ≠ .MsgExec l) :
    (Accepts (G := G) (min.AnteHandle ctx ⟨[.MsgExec anys], feeTx⟩ simulate) ctx
        ⟨[.MsgExec anys], feeTx⟩ simulate
      ↔ Accepts (G := G) (min.AnteHandle ctx ⟨inner, feeTx⟩ simulate) ctx ⟨inner, feeTx⟩
        simulate)
    ∧ (∀ e, RejectsWith (G := G) (min.AnteHandle ctx ⟨[.MsgExec anys], feeTx⟩ simulate) ctx e
      ↔ RejectsWith (G := G) (min.AnteHandle ctx ⟨inner, feeTx⟩ simulate) ctx e)
    ∧ min.scanMsgs [.MsgExec anys] = min.scanMsgs inner
    ∧ (∀ p,
        (∀ (next : AnteHandler G) (s : State G),
          min.AnteHandle ctx ⟨[.MsgExec anys], feeTx⟩ simulate next s = .error p)
        ↔ ∀ (next : AnteHandler G) (s : State G),
          min.AnteHandle ctx ⟨inner, feeTx⟩ simulate next s = .error p) := by
  have h := validAuthz_eq_scanMsgs min anys inner hdecode hflat
  have hscan : min.scanMsgs [.MsgExec anys] = min.scanMsgs inner := by
    simp only [MinCommissionDecorator.scanMsgs, MinCommissionDecorator.checkMsg, h]
    cases min.scanMsgs inner with
    | error p => rfl
    | ok r => cases r <;> rfl
  refine ⟨?_, ?_, hscan, ?_⟩
  · rw [accepts_iff_scan, accepts_iff_scan]
    simp only [Tx.GetMsgs, hscan]
  · intro e
    rw [rejectsWith_iff_scan, rejectsWith_iff_scan]
    simp only [Tx.GetMsgs, hscan]
  · intro p
    rw [panics_iff_scan, panics_iff_scan]
    simp only [Tx.GetMsgs, hscan]

/-- Witness of C5: a batch of a bank send and a validator creation at 1%, with the sample
codec; wrapped or direct, the guard rejects with the commission error. -/
theorem C5_witness :
    ([⟨"/cosmos.bank.v1beta1.MsgSend", []⟩,
        ⟨"/cosmos.staking.v1beta1.MsgCreateValidator", [1]⟩].map sampleGuard.cdc
      = [Msg.Other "/cosmos.bank.v1beta1.MsgSend",
          Msg.MsgCreateValidator (.set (Dec.NewDecWithPrec 1 2))].map some)
    ∧ sampleGuard.scanMsgs [.MsgExec [⟨"/cosmos.bank.v1beta1.MsgSend", []⟩,
        ⟨"/cosmos.staking.v1beta1.MsgCreateValidator", [1]⟩]]
      = sampleGuard.scanMsgs [Msg.Other "/cosmos.bank.v1beta1.MsgSend",
          Msg.MsgCreateValidator (.set (Dec.NewDecWithPrec 1 2))]
    ∧ sampleGuard.scanMsgs [Msg.Other "/cosmos.bank.v1beta1.MsgSend",
          Msg.MsgCreateValidator (.set (Dec.NewDecWithPrec 1 2))]
      = .ok (some errCommissionTooLow) :=
  ⟨by decide,
    (C5_authz_wrapped_same_as_direct (G := Unit) sampleGuard sampleCtx false none
      [⟨"/cosmos.bank.v1beta1.MsgSend", []⟩,
        ⟨"/cosmos.staking.v1beta1.MsgCreateValidator", [1]⟩]
      [Msg.Other "/cosmos.bank.v1beta1.MsgSend",
        Msg.MsgCreateValidator (.set (Dec.NewDecWithPrec 1 2))]
      (by decide) (by intro m hm l; simp at hm; rcases hm with rfl | rfl <;> simp)).2.2.1,
    by rfl⟩

/-- The scan finds no error iff every message passes its check. -/
theorem scanMsgs_eq_none_iff (min : MinCommissionDecorator) (msgs : List Msg) :
    min.scanMsgs msgs = .ok none ↔ ∀ m ∈ msgs, min.checkMsg m = .ok none := by
  induction msgs with
  | nil => simp [MinCommissionDecorator.scanMsgs]
  | cons m rest ih =>
    simp only [MinCommissionDecorator.scanMsgs, List.mem_cons, forall_eq_or_imp]
    cases h : min.checkMsg m with
    | error p => simp
    | ok r =>
      cases r with
      | none => simpa using ih
      | some e => simp

/-- The scan of a list passes over a prefix whose messages all pass. -/
theorem scanMsgs_append_of_pass (min : MinCommissionDecorator) (pre rest : List Msg)
    (h : ∀ m ∈ pre, min.checkMsg m = .ok none) :
    min.scanMsgs (pre ++ rest) = min.scanMsgs rest := by
  induction pre with
  | nil => rfl
  | cons m ms ih =>
    have hm := h m (List.mem_cons_self _ _)
    simp only [List.cons_append, MinCommissionDecorator.scanMsgs, hm]
    exact ih (fun x hx => h x (List.mem_cons_of_mem _ hx))

/-- The scan ends in a result other than a pass iff that result is the check result of a
message before which every message passes. -/
theorem scanMsgs_eq_iff (min : MinCommissionDecorator) (msgs : List Msg)
    (r : Except String (Option Error)) (hr : r ≠ .ok none) :
    min.scanMsgs msgs = r ↔
      ∃ pre m post, msgs = pre ++ m :: post ∧ (∀ x ∈ pre, min.checkMsg x = .ok none)
        ∧ min.checkMsg m = r := by
  constructor
  · induction msgs with
    | nil => intro h; exact absurd h.symm hr
    | cons m rest ih =>
      intro h
      simp only [MinCommissionDecorator.scanMsgs] at h
      cases hm : min.checkMsg m with
      | error p =>
        rw [hm] at h
        exact ⟨[], m, rest, rfl, by simp, by rw [hm, ← h]⟩
      | ok c =>
        cases c with
        | some e1 =>
          rw [hm] at h
          exact ⟨[], m, rest, rfl, by simp, by rw [hm, ← h]⟩
        | none =>
          rw [hm] at h
          obtain ⟨pre, x, post, hmsgs, hpre, hx⟩ := ih h
          refine ⟨m :: pre, x, post, by rw [hmsgs]; rfl, ?_, hx⟩
          intro y hy
          rcases List.mem_cons.mp hy with rfl | hy
          · exact hm
          · exact hpre y hy
  · rintro ⟨pre, m, post, rfl, hpre, hm⟩
    rw [scanMsgs_append_of_pass min pre _ hpre]
    simp only [MinCommissionDecorator.scanMsgs, hm]
    cases r with
    | error p => rfl
    | ok c =>
      cases c with
      | none => exact absurd rfl hr
      | some e => rfl

/-- The scan returns an error iff that error is the check result of a message before
which every message passes. -/
theorem scanMsgs_eq_some_iff (min : MinCommissionDecorator) (msgs : List Msg) (e : Error) :
    min.scanMsgs msgs = .ok (some e) ↔
      ∃ pre m post, msgs = pre ++ m :: post ∧ (∀ x ∈ pre, min.checkMsg x = .ok none)
        ∧ min.checkMsg m = .ok (some e) :=
  scanMsgs_eq_iff min msgs (.ok (some e)) (by simp)

/-- The scan panics iff the check of a message panics before which every message
passes. -/
theorem scanMsgs_eq_error_iff (min : MinCommissionDecorator) (msgs : List Msg) (p : String) :
    min.scanMsgs msgs = .error p ↔
      ∃ pre m post, msgs = pre ++ m :: post ∧ (∀ x ∈ pre, min.checkMsg x = .ok none)
        ∧ min.checkMsg m = .error p :=
  scanMsgs_eq_iff min msgs (.error p) (by simp)

/-- The check of a batch does not pass iff some inner message fails to decode or does not
pass the commission check. -/
theorem validAuthz_ne_none_iff (min : MinCommissionDecorator) (anys : List Any) :
    min.validAuthz anys ≠ .ok none ↔
      ∃ a ∈ anys, min.cdc a = none
        ∨ ∃ m, min.cdc a = some m ∧ MinCommissionDecorator.validMsg m ≠ .ok none := by
  induction anys with
  | nil => simp [MinCommissionDecorator.validAuthz]
  | cons v rest ih =>
    simp only [MinCommissionDecorator.validAuthz, List.mem_cons, exists_eq_or_imp]
    cases hv : min.cdc v with
    | none => simp
    | some m =>
      cases hm : MinCommissionDecorator.validMsg m with
      | error p => simp [hm]
      | ok r =>
        cases r with
        | some e => simp [hm]
        | none => simpa [hm] using ih

/-- The check of a batch fails only with the decode error or the commission error. -/
theorem validAuthz_eq_some (min : MinCommissionDecorator) (anys : List Any) (e : Error)
    (h : min.validAuthz anys = .ok (some e)) :
    e = errUnmarshalAuthz ∨ e = errCommissionTooLow := by
  induction anys with
  | nil => simp [MinCommissionDecorator.validAuthz] at h
  | cons v rest ih =>
    simp only [MinCommissionDecorator.validAuthz] at h
    cases hv : min.cdc v with
    | none =>
      rw [hv] at h
      simp only [Except.ok.injEq, Option.some.injEq] at h
      exact Or.inl h.symm
    | some m =>
      rw [hv] at h
      cases hm : MinCommissionDecorator.validMsg m with
      | error p => simp [hm] at h
      | ok r =>
        cases r with
        | some e1 =>
          simp only [hm, Except.ok.injEq, Option.some.injEq] at h
          subst h
          exact Or.inr (validMsg_eq_some m e1 hm)
        | none => simp only [hm] at h; exact ih h

/-- The scan of a list whose first part ends in a result other than a pass ends in that
result; after a first part that passes it is the scan of the rest. -/
theorem scanMsgs_append (min : MinCommissionDecorator) (pre rest : List Msg) :
    min.scanMsgs (pre ++ rest)
      = match min.scanMsgs pre with
        | .ok none => min.scanMsgs rest
        | r => r := by
  induction pre with
  | nil => rfl
  | cons m ms ih =>
    simp only [List.cons_append, MinCommissionDecorator.scanMsgs]
    cases hm : min.checkMsg m with
    | error p => rfl
    | ok c =>
      cases c with
      | some e => rfl
      | none => exact ih

/-- The scan fails only with the decode error or the commission error. -/
theorem scanMsgs_eq_some (min : MinCommissionDecorator) (msgs : List Msg) (e : Error)
    (h : min.scanMsgs msgs = .ok (some e)) :
    e = errUnmarshalAuthz ∨ e = errCommissionTooLow := by
  obtain ⟨p, m, q, -, -, hm⟩ := (scanMsgs_eq_some_iff min msgs e).mp h
  cases m with
  | MsgExec l => exact validAuthz_eq_some min l e hm
  | MsgCreateValidator r => exact Or.inr (validMsg_eq_some (.MsgCreateValidator r) e hm)
  | MsgEditValidator r => exact Or.inr (validMsg_eq_some (.MsgEditValidator r) e hm)
  | MsgExecuteContract r => exact Or.inr (validMsg_eq_some (.MsgExecuteContract r) e hm)
  | Other r => exact Or.inr (validMsg_eq_some (.Other r) e hm)

/-- The scan does not panic when no check of a message panics. -/
theorem scanMsgs_ne_error (min : MinCommissionDecorator) (msgs : List Msg)
    (h : ∀ m ∈ msgs, ∀ p, min.checkMsg m ≠ .error p) :
    ∀ p, min.scanMsgs msgs ≠ .error p := by
  intro p hp
  obtain ⟨pre, m, post, hmsgs, -, hm⟩ := (scanMsgs_eq_error_iff min msgs p).mp hp
  exact h m (by rw [hmsgs]; simp) p hm

/-- The check of a batch with an undecodable message, when no inner message before it
makes the commission check panic, fails with the decode error or the commission error. -/
theorem validAuthz_undecodable_fails (min : MinCommissionDecorator) (pre post : List Any)
    (bad : Any) (hbad : min.cdc bad = none)
    (hpre : ∀ a ∈ pre, ∀ m, min.cdc a = some m →
      ∀ p, MinCommissionDecorator.validMsg m ≠ .error p) :
    ∃ e, min.validAuthz (pre ++ bad :: post) = .ok (some e)
      ∧ (e = errUnmarshalAuthz ∨ e = errCommissionTooLow) := by
  induction pre with
  | nil =>
    exact ⟨errUnmarshalAuthz, by simp [MinCommissionDecorator.validAuthz, hbad], Or.inl rfl⟩
  | cons v rest ih =>
    obtain ⟨e1, he1, hor1⟩ := ih (fun a ha => hpre a (List.mem_cons_of_mem _ ha))
    cases hv : min.cdc v with
    | none =>
      exact ⟨errUnmarshalAuthz, by simp [MinCommissionDecorator.validAuthz, hv], Or.inl rfl⟩
    | some m =>
      have hnp := hpre v (List.mem_cons_self _ _) m hv
      cases hm : MinCommissionDecorator.validMsg m with
      | error p => exact absurd hm (hnp p)
      | ok r =>
        cases r with
        | some e =>
          exact ⟨e, by simp [MinCommissionDecorator.validAuthz, hv, hm],
            Or.inr (validMsg_eq_some m e hm)⟩
        | none =>
          exact ⟨e1, by simpa [MinCommissionDecorator.validAuthz, hv, hm] using he1, hor1⟩

/-- The check of a batch with an undecodable message, when every inner message before it
decodes and passes the commission check, is the decode error. -/
theorem validAuthz_undecodable (min : MinCommissionDecorator) (pre post : List Any)
    (bad : Any) (hbad : min.cdc bad = none)
    (hpre : ∀ a ∈ pre, ∃ m, min.cdc a = some m
      ∧ MinCommissionDecorator.validMsg m = .ok none) :
    min.validAuthz (pre ++ bad :: post) = .ok (some errUnmarshalAuthz) := by
  induction pre with
  | nil => simp [MinCommissionDecorator.validAuthz, hbad]
  | cons v rest ih =>
    obtain ⟨m, hv, hm⟩ := hpre v (List.mem_cons_self _ _)
    simp only [List.cons_append, MinCommissionDecorator.validAuthz, hv, hm]
    exact ih (fun a ha => hpre a (List.mem_cons_of_mem _ ha))

/-- Counterexample to C6 as stated: in the batch `[CreateValidator{0.01}, undecodable]`
one inner message fails to decode, yet the commission guard rejects the transaction with
the commission error, not with the decode error: the check of the first inner message
fails before the second is decoded. -/
theorem C6_counterexample_earlier_commission_failure :
    sampleGuard.cdc ⟨"/unknown.Msg", [0]⟩ = none
    ∧ RejectsWith (G := Unit) (sampleGuard.AnteHandle sampleCtx
        ⟨[.MsgExec [⟨"/cosmos.staking.v1beta1.MsgCreateValidator", [1]⟩,
          ⟨"/unknown.Msg", [0]⟩]], none⟩ false) sampleCtx errCommissionTooLow
    ∧ errCommissionTooLow ≠ errUnmarshalAuthz := by
  refine ⟨by decide, ?_, by decide⟩
  rw [rejectsWith_iff_scan]
  rfl

/-- C6 (amended): for every transaction with an `AuthzExec` batch in which some inner
message fails to decode, whatever its position and whatever the messages after it are:
when every message scanned before the undecodable one passes (the top-level messages before
the batch pass their check and the inner messages before it decode and pass the commission
check), the commission guard rejects the transaction with the decode error; and when no
check of a message scanned before it panics (none of them carries a commission rate that
was never set), the guard rejects the transaction, with the decode error or the commission
error. -/
theorem C6_undecodable_inner_message_rejected {G : Type} [Inhabited G]
    (min : MinCommissionDecorator) (ctx : Context) (simulate : Bool) (feeTx : Option FeeTx)
    (before after : List Msg) (pre post : List Any) (bad : Any)
    (hbad : min.cdc bad = none) :
    ((∀ m ∈ before, ∀ p, min.checkMsg m ≠ .error p) →
      (∀ a ∈ pre, ∀ m, min.cdc a = some m →
        ∀ p, MinCommissionDecorator.validMsg m ≠ .error p) →
      ∃ e, RejectsWith (G := G)
        (min.AnteHandle ctx ⟨before ++ .MsgExec (pre ++ bad :: post) :: after, feeTx⟩ simulate)
        ctx e ∧ (e = errUnmarshalAuthz ∨ e = errCommissionTooLow))
    ∧ ((∀ m ∈ before, min.checkMsg m = .ok none) →
        (∀ a ∈ pre, ∃ m, min.cdc a = some m
          ∧ MinCommissionDecorator.validMsg m = .ok none) →
        RejectsWith (G := G)
          (min.AnteHandle ctx ⟨before ++ .MsgExec (pre ++ bad :: post) :: after, feeTx⟩
            simulate) ctx errUnmarshalAuthz) := by
  constructor
  · intro hbefore hpre
    obtain ⟨e1, he1, hor1⟩ := validAuthz_undecodable_fails min pre post bad hbad hpre
    have hrest : min.scanMsgs (.MsgExec (pre ++ bad :: post) :: after) = .ok (some e1) := by
      simp only [MinCommissionDecorator.scanMsgs, MinCommissionDecorator.checkMsg, he1]
    cases hs : min.scanMsgs before with
    | error p => exact absurd hs (scanMsgs_ne_error min before hbefore p)
    | ok r =>
      cases r with
      | some e =>
        refine ⟨e, ?_, scanMsgs_eq_some min before e hs⟩
        rw [rejectsWith_iff_scan]
        simp only [Tx.GetMsgs]
        rw [scanMsgs_append, hs]
      | none =>
        refine ⟨e1, ?_, hor1⟩
        rw [rejectsWith_iff_scan]
        simp only [Tx.GetMsgs]
        rw [scanMsgs_append, hs]
        exact hrest
  · intro hbefore hpre
    rw [rejectsWith_iff_scan]
    simp only [Tx.GetMsgs]
    rw [scanMsgs_append_of_pass min before _ hbefore]
    simp only [MinCommissionDecorator.scanMsgs, MinCommissionDecorator.checkMsg,
      validAuthz_undecodable min pre post bad hbad hpre]

/-- Witness of C6. The batch `[Send, undecodable, CreateValidator{0.01}]` after a top-level
bank send: every message scanned before the undecodable one passes, and the guard rejects
with the decode error. The batch `[CreateValidator{0.01}, undecodable]`: no check before the
undecodable message panics, and the guard rejects with one of the two errors. -/
theorem C6_witness :
    sampleGuard.cdc ⟨"/unknown.Msg", [0]⟩ = none
    ∧ RejectsWith (G := Unit)
        (sampleGuard.AnteHandle sampleCtx
          ⟨[.Other "/cosmos.bank.v1beta1.MsgSend"]
            ++ .MsgExec ([⟨"/cosmos.bank.v1beta1.MsgSend", []⟩] ++ ⟨"/unknown.Msg", [0]⟩
                :: [⟨"/cosmos.staking.v1beta1.MsgCreateValidator", [1]⟩]) :: [], none⟩ false)
        sampleCtx errUnmarshalAuthz
    ∧ ∃ e, RejectsWith (G := Unit)
        (sampleGuard.AnteHandle sampleCtx
          ⟨[] ++ .MsgExec ([⟨"/cosmos.staking.v1beta1.MsgCreateValidator", [1]⟩]
            ++ ⟨"/unknown.Msg", [0]⟩ :: []) :: [], none⟩ false) sampleCtx e
        ∧ (e = errUnmarshalAuthz ∨ e = errCommissionTooLow) :=
  ⟨by decide,
    (C6_undecodable_inner_message_rejected (G := Unit) sampleGuard sampleCtx false none
      [.Other "/cosmos.bank.v1beta1.MsgSend"] [] [⟨"/cosmos.bank.v1beta1.MsgSend", []⟩]
      [⟨"/cosmos.staking.v1beta1.MsgCreateValidator", [1]⟩] ⟨"/unknown.Msg", [0]⟩
      (by decide)).2
      (by
        intro m hm
        simp only [List.mem_singleton] at hm
        subst hm
        rfl)
      (by
        intro a ha
        simp only [List.mem_singleton] at ha
        subst ha
        exact ⟨.Other "/cosmos.bank.v1beta1.MsgSend", by decide, rfl⟩),
    (C6_undecodable_inner_message_rejected (G := Unit) sampleGuard sampleCtx false none
      [] [] [⟨"/cosmos.staking.v1beta1.MsgCreateValidator", [1]⟩] [] ⟨"/unknown.Msg", [0]⟩
      (by decide)).1
      (by intro m hm; simp at hm)
      (by
        intro a ha m hm p hp
        simp only [List.mem_singleton] at ha
        subst ha
        have hc : sampleGuard.cdc ⟨"/cosmos.staking.v1beta1.MsgCreateValidator", [1]⟩
            = some (.MsgCreateValidator (.set (Dec.NewDecWithPrec 1 2))) := by decide
        rw [hc] at hm
        simp only [Option.some.injEq] at hm
        subst hm
        have := (validMsg_eq_error_iff _ p).mp hp
        simp at this)⟩

/-- The commission guard scans the messages in transaction order. It accepts iff every
top-level message passes its check; it rejects with an error iff that error is the one
produced by the earliest top-level message that does not pass; it panics iff the check of
the earliest top-level message that does not pass panics; a top-level `AuthzExec` does not
pass iff some inner message fails to decode or does not pass the commission check. When no
check panics, the guard rejects iff some top-level message fails its check, and it either
accepts or rejects. -/
theorem guard_first_failure_in_transaction_order {G : Type} [Inhabited G]
    (min : MinCommissionDecorator) (ctx : Context) (tx : Tx) (simulate : Bool) :
    ((∀ m ∈ tx.GetMsgs, min.checkMsg m = .ok none)
      ↔ Accepts (G := G) (min.AnteHandle ctx tx simulate) ctx tx simulate)
    ∧ (∀ e, RejectsWith (G := G) (min.AnteHandle ctx tx simulate) ctx e ↔
        ∃ pre m post, tx.GetMsgs = pre ++ m :: post ∧ (∀ x ∈ pre, min.checkMsg x = .ok none)
          ∧ min.checkMsg m = .ok (some e))
    ∧ (∀ p, (∀ (next : AnteHandler G) (s : State G),
          min.AnteHandle ctx tx simulate next s = .error p) ↔
        ∃ pre m post, tx.GetMsgs = pre ++ m :: post ∧ (∀ x ∈ pre, min.checkMsg x = .ok none)
          ∧ min.checkMsg m = .error p)
    ∧ (∀ anys, min.checkMsg (.MsgExec anys) ≠ .ok none ↔
        ∃ a ∈ anys, min.cdc a = none
          ∨ ∃ m, min.cdc a = some m ∧ MinCommissionDecorator.validMsg m ≠ .ok none)
    ∧ ((∀ m ∈ tx.GetMsgs, ∀ p, min.checkMsg m ≠ .error p) →
        (((∃ e, RejectsWith (G := G) (min.AnteHandle ctx tx simulate) ctx e)
          ↔ ∃ m ∈ tx.GetMsgs, min.checkMsg m ≠ .ok none)
        ∧ (Accepts (G := G) (min.AnteHandle ctx tx simulate) ctx tx simulate
          ∨ ∃ e, RejectsWith (G := G) (min.AnteHandle ctx tx simulate) ctx e))) := by
  refine ⟨?_, ?_, ?_, ?_, ?_⟩
  · rw [accepts_iff_scan, scanMsgs_eq_none_iff]
  · intro e
    rw [rejectsWith_iff_scan, scanMsgs_eq_some_iff]
  · intro p
    rw [panics_iff_scan, scanMsgs_eq_error_iff]
  · intro anys
    exact validAuthz_ne_none_iff min anys
  · intro hnp
    have hne := scanMsgs_ne_error min tx.GetMsgs hnp
    constructor
    · constructor
      · rintro ⟨e, he⟩
        rw [rejectsWith_iff_scan, scanMsgs_eq_some_iff] at he
        obtain ⟨pre, m, post, hmsgs, -, hm⟩ := he
        exact ⟨m, by rw [hmsgs]; simp, by rw [hm]; simp⟩
      · rintro ⟨m, hm, hnot⟩
        cases hs : min.scanMsgs tx.GetMsgs with
        | error p => exact absurd hs (hne p)
        | ok r =>
          cases r with
          | none => exact absurd ((scanMsgs_eq_none_iff min _).mp hs m hm) hnot
          | some e => exact ⟨e, (rejectsWith_iff_scan min ctx tx simulate e).mpr hs⟩
    · cases hs : min.scanMsgs tx.GetMsgs with
      | error p => exact absurd hs (hne p)
      | ok r =>
        cases r with
        | none => exact Or.inl ((accepts_iff_scan min ctx tx simulate).mpr hs)
        | some e => exact Or.inr ⟨e, (rejectsWith_iff_scan min ctx tx simulate e).mpr hs⟩

/-- C7 (failing input): a transaction whose only message is a validator creation whose
commission rate was never set, directly or inside an authorization batch. No message fails
its check with an error, so by the claim the next stage is invoked; the guard neither
invokes it nor returns an error: the comparison `c.Rate.LT` dereferences the nil pointer
and the guard panics, whatever the next handler and the state are. -/
theorem C7_unset_commission_rate_panics :
    sampleGuard.cdc ⟨"/cosmos.staking.v1beta1.MsgCreateValidator", []⟩
      = some (.MsgCreateValidator .unset)
    ∧ (∀ (next : AnteHandler Unit) (s : State Unit),
        sampleGuard.AnteHandle sampleCtx ⟨[.MsgCreateValidator .unset], none⟩ false next s
          = .error nilPointerPanic)
    ∧ (∀ (next : AnteHandler Unit) (s : State Unit),
        sampleGuard.AnteHandle sampleCtx
          ⟨[.MsgExec [⟨"/cosmos.staking.v1beta1.MsgCreateValidator", []⟩]], none⟩ false next s
          = .error nilPointerPanic)
    ∧ (∀ e, sampleGuard.checkMsg (.MsgCreateValidator .unset) ≠ .ok (some e))
    ∧ (∀ e, sampleGuard.checkMsg
        (.MsgExec [⟨"/cosmos.staking.v1beta1.MsgCreateValidator", []⟩]) ≠ .ok (some e))
    ∧ ¬ Accepts (G := Unit)
        (sampleGuard.AnteHandle sampleCtx ⟨[.MsgCreateValidator .unset], none⟩ false)
        sampleCtx ⟨[.MsgCreateValidator .unset], none⟩ false
    ∧ ¬ ∃ e, RejectsWith (G := Unit)
        (sampleGuard.AnteHandle sampleCtx ⟨[.MsgCreateValidator .unset], none⟩ false)
        sampleCtx e := by
  refine ⟨by rfl, fun _ _ => rfl, fun _ _ => rfl, ?_, ?_, ?_, ?_⟩
  · intro e h
    cases h
  · intro e h
    have h1 : sampleGuard.checkMsg
        (.MsgExec [⟨"/cosmos.staking.v1beta1.MsgCreateValidator", []⟩])
        = .error nilPointerPanic := rfl
    rw [h1] at h
    cases h
  · intro h
    have h1 := h nextOk sampleState
    have h2 : sampleGuard.AnteHandle sampleCtx ⟨[.MsgCreateValidator .unset], none⟩ false
        nextOk sampleState = .error nilPointerPanic := rfl
    rw [h2] at h1
    simp [nextOk] at h1
  · rintro ⟨e, h⟩
    have h1 := h nextOk sampleState
    have h2 : sampleGuard.AnteHandle sampleCtx ⟨[.MsgCreateValidator .unset], none⟩ false
        nextOk sampleState = .error nilPointerPanic := rfl
    rw [h2] at h1
    cases h1

/-- Counterexample to C8 as stated: a fee granter is present, differs from the fee payer
and no grant keeper is configured, but the fee-collector module account is not set; the
stage rejects with the error of the missing module account, not with the grant error. -/
theorem C8_counterexample_collector_not_set :
    sampleDeductNoCollector.feegrantKeeper.isNone = true
    ∧ ([6] : AccAddress) ≠ [5]
    ∧ RejectsWith (G := Unit)
        (DeductFeeDecorator.AnteHandle sampleBech32 sampleDeductNoCollector sampleCtx
          ⟨[], some ⟨[⟨"ujuno", 100⟩], 1000, [5], some [6]⟩⟩ false) sampleCtx errNoFeeCollector
    ∧ errNoFeeCollector ≠ errGrantsNotEnabled := by
  refine ⟨rfl, by decide, ?_, by decide⟩
  intro next s
  rfl

/-- C8 (amended): if the fee-collector module account is set, a fee granter is present,
differs from the fee payer, and no grant keeper is configured, the fee-deduction stage
rejects the transaction with the error "fee grants are not enabled": it returns the
context it was given, leaves the state as it was (no transfer, no event) and does not
call the next stage. -/
theorem C8_granter_without_grant_keeper_rejected {G : Type}
    (fromBech32 : String → Except String AccAddress) (dfd : DeductFeeDecorator G)
    (ctx : Context) (tx : Tx) (simulate : Bool) (f : FeeTx) (granter addr : AccAddress)
    (hcoll : dfd.ak.GetModuleAddress FeeCollectorName = some addr)
    (hfee : tx.feeTx = some f) (hg : f.feeGranter = some granter)
    (_hne : granter ≠ f.feePayer) (hfk : dfd.feegrantKeeper = none) :
    RejectsWith (DeductFeeDecorator.AnteHandle fromBech32 dfd ctx tx simulate) ctx
      errGrantsNotEnabled := by
  intro next s
  simp only [DeductFeeDecorator.AnteHandle, hfee, hcoll, DeductFeeDecorator.resolvePayer, hg,
    hfk]

/-- Witness of C8: the sample stage without grant keeper, payer `[5]`, granter `[6]`. -/
theorem C8_witness :
    sampleDeductNoGrants.ak.GetModuleAddress FeeCollectorName = some [0]
    ∧ ([6] : AccAddress) ≠ [5]
    ∧ RejectsWith (G := Unit)
        (DeductFeeDecorator.AnteHandle sampleBech32 sampleDeductNoGrants sampleCtx
          ⟨[], some ⟨[⟨"ujuno", 100⟩], 1000, [5], some [6]⟩⟩ false) sampleCtx
        errGrantsNotEnabled :=
  ⟨by decide, by decide,
    C8_granter_without_grant_keeper_rejected sampleBech32 sampleDeductNoGrants sampleCtx
      ⟨[], some ⟨[⟨"ujuno", 100⟩], 1000, [5], some [6]⟩⟩ false
      ⟨[⟨"ujuno", 100⟩], 1000, [5], some [6]⟩ [6] [0] (by decide) rfl rfl (by decide) rfl⟩


/-- A valid coin set holds a non-negative amount in every denomination. -/
theorem amountOf_nonneg (fees : Coins) (h : ∀ c ∈ fees, 0 < c.amount) (d : String) :
    0 ≤ fees.AmountOf d := by
  induction fees with
  | nil => simp [Coins.AmountOf]
  | cons x xs ih =>
    simp only [Coins.AmountOf]
    split
    · exact le_of_lt (h x (List.mem_cons_self _ _))
    · exact ih (fun c hc => h c (List.mem_cons_of_mem _ hc))

/-- The state left by the last transfer of `DeductFees` on the ledger: the state it was
given, or that state after the amount moved from the account to the module. -/
theorem payToModule_ledger {G : Type} (s : State G) (acc : Account) (amt : Coins) :
    (payToModule Ledger.keeper s acc amt).2 = s
    ∨ (payToModule Ledger.keeper s acc amt).2
      = ⟨Ledger.moved s.bank (.account acc.GetAddress) (.module "distribution") amt,
          s.grants, s.events⟩ := by
  simp only [payToModule, Ledger.keeper, Ledger.transfer]
  by_cases h : Ledger.covers s.bank (.account acc.GetAddress) amt = true
  · right; simp [h]
  · left; simp [h]

/-- The split path of `DeductFees` on the ledger: when the module owns the transferred
share it reaches the withdrawer and the last transfer follows; otherwise `DeductFees`
fails and nothing has moved. -/
theorem DeductFees_split_ledger {G : Type} (fromBech32 : String → Except String AccAddress)
    (s : State G) (acc : Account) (fees : Coins) (revKeeper : FeeShareKeeper G)
    (msgs : List Msg) (contract w : AccAddress) (cs : List AccAddress)
    (hvalid : fees.IsValid = true)
    (hcol : collectContracts fromBech32 msgs = .ok (contract :: cs))
    (hw : (revKeeper.GetRevenue s contract).1.GetWithdrawerAddr = some w) :
    DeductFees fromBech32 Ledger.keeper s acc fees revKeeper msgs =
      if Ledger.covers s.bank (.module "distribution") (owedCoins fees) = true then
        .ok (payToModule Ledger.keeper
          ⟨Ledger.moved s.bank (.module "distribution") (.account w) (owedCoins fees),
            s.grants, s.events⟩ acc (owedCoins fees))
      else .ok (some (errInsufficientFunds "insufficient funds"), s) := by
  rw [DeductFees_split fromBech32 Ledger.keeper s acc fees revKeeper msgs contract w cs hvalid
    hcol hw]
  by_cases hcov : Ledger.covers s.bank (.module "distribution") (owedCoins fees) = true
  · simp only [hcov, if_true]
    show (match Ledger.transfer s.bank (.module "distribution") (.account w) (owedCoins fees) with
      | .error msg => _
      | .ok bank => _) = _
    simp only [Ledger.transfer, hcov, if_true]
  · simp only [hcov, if_false]
    show (match Ledger.transfer s.bank (.module "distribution") (.account w) (owedCoins fees) with
      | .error msg => _
      | .ok bank => _) = _
    simp only [Ledger.transfer, hcov, if_false, Bool.false_eq_true]

/-- An account other than the one `DeductFees` debits is never debited on the ledger: its
balance does not decrease, and it is unchanged unless the account is the withdrawer
registered for the first executed contract. The grant store and the events are left as
they were. -/
theorem DeductFees_other_account {G : Type} (fromBech32 : String → Except String AccAddress)
    (s : State G) (acc : Account) (fees : Coins) (revKeeper : FeeShareKeeper G)
    (msgs : List Msg) (r : Option Error × State G)
    (h : DeductFees fromBech32 Ledger.keeper s acc fees revKeeper msgs = .ok r)
    (p : AccAddress) (hp : p ≠ acc.GetAddress) :
    (∀ d, s.bank (.account p) d ≤ r.2.bank (.account p) d)
    ∧ ((∀ c a, (executedContracts msgs).head? = some c → fromBech32 c = .ok a →
          (revKeeper.GetRevenue s a).1.GetWithdrawerAddr ≠ some p) →
        ∀ d, r.2.bank (.account p) d = s.bank (.account p) d)
    ∧ r.2.grants = s.grants ∧ r.2.events = s.events := by
  have hpay : ∀ (st : State G) (amt : Coins) (d : String),
      (payToModule Ledger.keeper st acc amt).2.bank (.account p) d = st.bank (.account p) d
      ∧ (payToModule Ledger.keeper st acc amt).2.grants = st.grants
      ∧ (payToModule Ledger.keeper st acc amt).2.events = st.events := by
    intro st amt d
    rcases payToModule_ledger st acc amt with h1 | h1
    · rw [h1]; exact ⟨rfl, rfl, rfl⟩
    · rw [h1]; simp [Ledger.moved, hp]
  by_cases hvalid : fees.IsValid = true
  swap
  · simp only [DeductFees, hvalid, Bool.not_false, if_true, Except.ok.injEq] at h
    subst h
    simp
  have hall := isValid_forall fees hvalid
  cases hc : collectContracts fromBech32 msgs with
  | error e =>
    simp only [DeductFees, hvalid, Bool.not_true, Bool.false_eq_true, if_false, hc,
      Except.ok.injEq] at h
    subst h
    simp
  | ok l =>
    by_cases hplain : ∀ contract ∈ l.head?,
        (revKeeper.GetRevenue s contract).1.GetWithdrawerAddr = none
    · rw [DeductFees_plain fromBech32 Ledger.keeper s acc fees revKeeper msgs l hvalid hc
        hplain] at h
      simp only [Except.ok.injEq] at h
      subst h
      exact ⟨fun d => le_of_eq (hpay s fees d).1.symm, fun _ d => (hpay s fees d).1,
        (hpay s fees "").2.1, (hpay s fees "").2.2⟩
    · -- the split path
      cases l with
      | nil => simp at hplain
      | cons contract cs =>
        simp only [List.head?_cons, Option.mem_def, Option.some.injEq, forall_eq'] at hplain
        obtain ⟨w, hw⟩ := Option.ne_none_iff_exists'.mp hplain
        rw [DeductFees_split_ledger fromBech32 s acc fees revKeeper msgs contract w cs
          hvalid hc hw] at h
        by_cases hcov : Ledger.covers s.bank (.module "distribution") (owedCoins fees) = true
        swap
        · simp only [hcov, Bool.false_eq_true, if_false, Except.ok.injEq] at h
          subst h
          simp
        simp only [hcov, if_true, Except.ok.injEq] at h
        subst h
        have hnn : ∀ d, 0 ≤ (owedCoins fees).AmountOf d := by
          intro d
          rw [amountOf_owedCoins]
          have := amountOf_nonneg fees (fun c hc => (hall c hc).2) d
          omega
        refine ⟨?_, ?_, ?_, ?_⟩
        · intro d
          rw [(hpay _ (owedCoins fees) d).1]
          have := hnn d
          simp only [Ledger.moved]
          split <;> split <;> simp_all
        · intro hnot d
          rw [(hpay _ (owedCoins fees) d).1]
          have hwp : w ≠ p := by
            intro hwp
            cases hex : executedContracts msgs with
            | nil =>
              rw [collectContracts_of_nil fromBech32 msgs hex] at hc
              simp at hc
            | cons c cs1 =>
              obtain ⟨a, as, ha, hl⟩ := collectContracts_head fromBech32 msgs c cs1 _ hex hc
              simp only [List.cons.injEq] at hl
              have := hnot c a (by rw [hex]; rfl) ha
              rw [← hl.1, hw, hwp] at this
              exact this rfl
          have hne : ¬ (p = w) := fun h1 => hwp h1.symm
          simp [Ledger.moved, hne]
        · exact (hpay _ (owedCoins fees) "").2.1
        · exact (hpay _ (owedCoins fees) "").2.2


/-- The fee-deduction stage after the fee-collector check and the resolution of the
account to deduct from: the account lookup, the deduction, the event and the call of the
next stage. -/
theorem deductFee_after_resolve {G : Type} (fromBech32 : String → Except String AccAddress)
    (dfd : DeductFeeDecorator G) (ctx : Context) (tx : Tx) (simulate : Bool)
    (next : AnteHandler G) (s : State G) (f : FeeTx) (addr payer : AccAddress) (grants1 : G)
    (hfee : tx.feeTx = some f)
    (hcoll : dfd.ak.GetModuleAddress FeeCollectorName = some addr)
    (hres : dfd.resolvePayer s.grants f.fee f.feePayer f.feeGranter tx.GetMsgs
      = .ok (payer, grants1)) :
    DeductFeeDecorator.AnteHandle fromBech32 dfd ctx tx simulate next s =
      if dfd.ak.HasAccount ⟨s.bank, grants1, s.events⟩ payer = true then
        if f.fee.IsZero = true then
          DeductFeeDecorator.emitAndNext ctx tx simulate next f.fee payer
            ⟨s.bank, grants1, s.events⟩
        else
          match DeductFees fromBech32 dfd.bankKeeper ⟨s.bank, grants1, s.events⟩ ⟨payer⟩ f.fee
              dfd.feesharekeeper tx.GetMsgs with
          | .error p => .error p
          | .ok (some err, s2) => .ok ((ctx, some err), s2)
          | .ok (none, s2) =>
            DeductFeeDecorator.emitAndNext ctx tx simulate next f.fee payer s2
      else .ok ((ctx, some (errUnknownFeePayer payer)), ⟨s.bank, grants1, s.events⟩) := by
  simp only [DeductFeeDecorator.AnteHandle, hfee, hcoll, hres, AccountKeeper.GetAccount]
  by_cases hacc : dfd.ak.HasAccount ⟨s.bank, grants1, s.events⟩ payer = true
  · simp only [hacc, if_true]
    by_cases hz : f.fee.IsZero = true
    · simp [hz]
    · simp [hz]
  · simp only [hacc, if_false, Bool.false_eq_true]

/-- Counterexample to C9 as stated: the granter `[5]` differs from the payer `[7]`, the
grant keeper authorizes the fee `101 ujuno`, and the transaction executes a contract
whose registered withdrawer is the payer; the stage succeeds and the balance of the
payer is changed by it, from 0 to 51 ujuno. -/
theorem C9_counterexample_payer_is_withdrawer :
    ([5] : AccAddress) ≠ [7]
    ∧ sampleGrants.UseGrantedFees () [5] [7] [⟨"ujuno", 101⟩]
        [.MsgExecuteContract "juno1contract"] = .ok ()
    ∧ DeductFeeDecorator.AnteHandle sampleBech32 sampleDeduct sampleCtx
        ⟨[.MsgExecuteContract "juno1contract"], some ⟨[⟨"ujuno", 101⟩], 1000, [7], some [5]⟩⟩
        false nextOk sampleState
      = .ok ((sampleCtx, none),
          ⟨sampleSplitState.bank, (), [feeEvent [⟨"ujuno", 101⟩] [5]]⟩)
    ∧ sampleState.bank (.account [7]) "ujuno" = 0
    ∧ sampleSplitState.bank (.account [7]) "ujuno" = 51 := by
  refine ⟨by decide, rfl, rfl, by decide, by decide⟩

/-- C9 (amended): if the fee-collector module account is set, a fee granter is present
and differs from the fee payer, and the grant keeper is configured, then: when
`UseGrantedFees` refuses, the stage rejects the transaction and leaves the state as it
was (no transfer); when it authorizes the fee for the messages, the stage goes on exactly
as it does for a transaction whose fee payer is the granter, and whenever it succeeds the
emitted event names the granter as fee payer and the literal payer is not debited: the
balance of the payer does not decrease, and it is unchanged unless the payer is the
withdrawer registered for the first executed contract. -/
theorem C9_fee_deducted_from_granter {G : Type}
    (fromBech32 : String → Except String AccAddress) (dfd : DeductFeeDecorator G)
    (ctx : Context) (tx : Tx) (simulate : Bool) (s : State G) (f : FeeTx)
    (granter addr : AccAddress) (fk : FeegrantKeeper G)
    (hcoll : dfd.ak.GetModuleAddress FeeCollectorName = some addr)
    (hfee : tx.feeTx = some f) (hg : f.feeGranter = some granter)
    (hne : granter ≠ f.feePayer) (hfk : dfd.feegrantKeeper = some fk)
    (hbank : dfd.bankKeeper = Ledger.keeper) :
    (∀ err, fk.UseGrantedFees s.grants granter f.feePayer f.fee tx.GetMsgs = .error err →
      ∀ next, DeductFeeDecorator.AnteHandle fromBech32 dfd ctx tx simulate next s
        = .ok ((ctx, some (errGrantRefused err granter f.feePayer)), s))
    ∧ (∀ grants1, fk.UseGrantedFees s.grants granter f.feePayer f.fee tx.GetMsgs = .ok grants1 →
      (∀ next, DeductFeeDecorator.AnteHandle fromBech32 dfd ctx tx simulate next s
        = DeductFeeDecorator.AnteHandle fromBech32 dfd ctx
            ⟨tx.msgs, some ⟨f.fee, f.gas, granter, none⟩⟩ simulate
            (fun c _ b st => next c tx b st) ⟨s.bank, grants1, s.events⟩)
      ∧ ∀ s2, DeductFeeDecorator.AnteHandle fromBech32 dfd ctx tx simulate nextOk s
            = .ok ((ctx, none), s2) →
          (∀ next, DeductFeeDecorator.AnteHandle fromBech32 dfd ctx tx simulate next s
            = next ctx tx simulate s2)
          ∧ s2.events = s.events ++ [feeEvent f.fee granter]
          ∧ (∀ d, s.bank (.account f.feePayer) d ≤ s2.bank (.account f.feePayer) d)
          ∧ ((∀ c a, (executedContracts tx.GetMsgs).head? = some c → fromBech32 c = .ok a →
                (dfd.feesharekeeper.GetRevenue ⟨s.bank, grants1, s.events⟩ a).1.GetWithdrawerAddr
                  ≠ some f.feePayer) →
              ∀ d, s2.bank (.account f.feePayer) d = s.bank (.account f.feePayer) d)) := by
  have hneq : granter.Equals f.feePayer = false := by
    simp [AccAddress.Equals, hne]
  constructor
  · intro err herr next
    simp only [DeductFeeDecorator.AnteHandle, hfee, hcoll, DeductFeeDecorator.resolvePayer, hg,
      hfk, hneq, herr, Bool.not_false, if_true]
  · intro grants1 hok
    have hres : dfd.resolvePayer s.grants f.fee f.feePayer f.feeGranter tx.GetMsgs
        = .ok (granter, grants1) := by
      simp only [DeductFeeDecorator.resolvePayer, hg, hfk, hneq, hok, Bool.not_false, if_true]
    have hform := fun next => deductFee_after_resolve fromBech32 dfd ctx tx simulate next s f
      addr granter grants1 hfee hcoll hres
    constructor
    · intro next
      rw [hform next]
      rw [deductFee_after_resolve fromBech32 dfd ctx ⟨tx.msgs, some ⟨f.fee, f.gas, granter, none⟩⟩
        simulate (fun c _ b st => next c tx b st) ⟨s.bank, grants1, s.events⟩
        ⟨f.fee, f.gas, granter, none⟩ addr granter grants1 rfl hcoll rfl]
      rfl
    · intro s2 hs2
      rw [hform nextOk] at hs2
      by_cases hacc : dfd.ak.HasAccount ⟨s.bank, grants1, s.events⟩ granter = true
      swap
      · simp [hacc] at hs2
      simp only [hacc, if_true] at hs2
      have hp : f.feePayer ≠ (⟨granter⟩ : Account).GetAddress := fun h => hne h.symm
      by_cases hz : f.fee.IsZero = true
      · simp only [hz, if_true, DeductFeeDecorator.emitAndNext, nextOk, Except.ok.injEq,
          Prod.mk.injEq, true_and] at hs2
        subst hs2
        refine ⟨?_, rfl, fun d => le_refl _, fun _ d => rfl⟩
        intro next
        rw [hform next]
        simp only [hacc, if_true, hz, DeductFeeDecorator.emitAndNext]
      · simp only [hz, if_false, Bool.false_eq_true] at hs2
        rw [hbank] at hs2
        cases hd : DeductFees fromBech32 Ledger.keeper ⟨s.bank, grants1, s.events⟩ ⟨granter⟩
            f.fee dfd.feesharekeeper tx.GetMsgs with
        | error p => rw [hd] at hs2; simp at hs2
        | ok r =>
          obtain ⟨e, s3⟩ := r
          rw [hd] at hs2
          cases e with
          | some err => simp at hs2
          | none =>
            simp only [DeductFeeDecorator.emitAndNext, nextOk, Except.ok.injEq, Prod.mk.injEq,
              true_and] at hs2
            subst hs2
            obtain ⟨h1, h2, -, h4⟩ := DeductFees_other_account fromBech32
              ⟨s.bank, grants1, s.events⟩ ⟨granter⟩ f.fee dfd.feesharekeeper tx.GetMsgs
              (none, s3) hd f.feePayer hp
            refine ⟨?_, ?_, h1, h2⟩
            · intro next
              rw [hform next]
              simp only [hacc, if_true, hz, if_false, Bool.false_eq_true, hbank, hd,
                DeductFeeDecorator.emitAndNext]
            · have h4a : s3.events = s.events := h4
              show s3.events ++ [feeEvent f.fee granter] = s.events ++ [feeEvent f.fee granter]
              rw [h4a]

/-- Witness of C9: the sample stage with the grant keeper, payer `[6]`, granter `[5]`,
fee `100 ujuno`, no contract execution; the fee is taken from the granter (500 to 400),
the balance of the payer stays 300 and the event names the granter. -/
theorem C9_witness :
    sampleDeduct.ak.GetModuleAddress FeeCollectorName = some [0]
    ∧ ([5] : AccAddress) ≠ [6]
    ∧ DeductFeeDecorator.AnteHandle sampleBech32 sampleDeduct sampleCtx
        ⟨[.Other "/cosmos.bank.v1beta1.MsgSend"], some ⟨[⟨"ujuno", 100⟩], 1000, [6], some [5]⟩⟩
        false nextOk sampleState
      = .ok ((sampleCtx, none),
          ⟨samplePlainState.bank, (), [feeEvent [⟨"ujuno", 100⟩] [5]]⟩)
    ∧ samplePlainState.bank (.account [6]) "ujuno" = sampleState.bank (.account [6]) "ujuno"
    ∧ samplePlainState.bank (.account [5]) "ujuno" = 400 := by
  have h := (C9_fee_deducted_from_granter sampleBech32 sampleDeduct sampleCtx
    ⟨[.Other "/cosmos.bank.v1beta1.MsgSend"], some ⟨[⟨"ujuno", 100⟩], 1000, [6], some [5]⟩⟩
    false sampleState ⟨[⟨"ujuno", 100⟩], 1000, [6], some [5]⟩ [5] [0] sampleGrants
    (by decide) rfl rfl (by decide) rfl rfl).2 () rfl
  have h2 := (h.2 ⟨samplePlainState.bank, (), [feeEvent [⟨"ujuno", 100⟩] [5]]⟩ rfl).2.2.2
    (by intro c a hc; simp [executedContracts, Tx.GetMsgs] at hc) "ujuno"
  exact ⟨by decide, by decide, rfl, h2, by decide⟩


/-- The account resolved by the grant block is the fee granter when one is present and
the fee payer otherwise. -/
theorem resolvePayer_eq {G : Type} (dfd : DeductFeeDecorator G) (grants : G) (fee : Coins)
    (feePayer : AccAddress) (feeGranter : Option AccAddress) (msgs : List Msg)
    (payer : AccAddress) (grants1 : G)
    (h : dfd.resolvePayer grants fee feePayer feeGranter msgs = .ok (payer, grants1)) :
    payer = feeGranter.getD feePayer := by
  unfold DeductFeeDecorator.resolvePayer at h
  cases feeGranter with
  | none => simp only [Except.ok.injEq, Prod.mk.injEq] at h; simp [h.1]
  | some g =>
    simp only at h
    cases hfk : dfd.feegrantKeeper with
    | none => rw [hfk] at h; simp at h
    | some fk =>
      rw [hfk] at h
      simp only at h
      split at h
      · split at h
        · simp at h
        · simp only [Except.ok.injEq, Prod.mk.injEq] at h; simp [h.1]
      · simp only [Except.ok.injEq, Prod.mk.injEq] at h; simp [h.1]

/-- The grant block never fails with the error of a missing account. -/
theorem resolvePayer_error_ne {G : Type} (dfd : DeductFeeDecorator G) (grants : G)
    (fee : Coins) (feePayer : AccAddress) (feeGranter : Option AccAddress) (msgs : List Msg)
    (e : Error) (h : dfd.resolvePayer grants fee feePayer feeGranter msgs = .error e) :
    ∀ a, e ≠ errUnknownFeePayer a := by
  intro a
  unfold DeductFeeDecorator.resolvePayer at h
  cases feeGranter with
  | none => simp at h
  | some g =>
    simp only at h
    cases hfk : dfd.feegrantKeeper with
    | none =>
      rw [hfk] at h
      simp only [Except.error.injEq] at h
      subst h
      simp [errGrantsNotEnabled, errUnknownFeePayer, Error.Wrap]
    | some fk =>
      rw [hfk] at h
      simp only at h
      split at h
      · split at h
        · simp only [Except.error.injEq] at h
          subst h
          simp [errGrantRefused, errUnknownFeePayer]
        · simp at h
      · simp at h

/-- The function `DeductFees` never returns the error of a missing account. -/
theorem DeductFees_error_ne {G : Type} (fromBech32 : String → Except String AccAddress)
    (bankKeeper : BankKeeper) (s s2 : State G) (acc : Account) (fees : Coins)
    (revKeeper : FeeShareKeeper G) (msgs : List Msg) (e : Error)
    (h : DeductFees fromBech32 bankKeeper s acc fees revKeeper msgs = .ok (some e, s2)) :
    ∀ a, e ≠ errUnknownFeePayer a := by
  intro a
  have hpay : ∀ (st : State G) (amt : Coins),
      (payToModule bankKeeper st acc amt).1 = some e → e ≠ errUnknownFeePayer a := by
    intro st amt hp
    unfold payToModule at hp
    split at hp
    · simp only [Option.some.injEq] at hp
      subst hp
      simp [errInsufficientFunds, errUnknownFeePayer]
    · simp at hp
  have hcollect : ∀ (ms : List Msg) (er : Error),
      collectContracts fromBech32 ms = .error er → ∃ msg, er = .external msg := by
    intro ms
    induction ms with
    | nil => intro er h1; simp [collectContracts] at h1
    | cons m rest ih =>
      intro er h1
      cases m with
      | MsgExecuteContract contract =>
        simp only [collectContracts] at h1
        cases hfb : fromBech32 contract with
        | error msg =>
          simp only [hfb, Except.error.injEq] at h1
          exact ⟨msg, h1.symm⟩
        | ok cAddr =>
          cases hrest : collectContracts fromBech32 rest with
          | error e2 =>
            simp only [hfb, hrest, Except.error.injEq] at h1
            subst h1
            exact ih _ hrest
          | ok l => simp [hfb, hrest] at h1
      | MsgCreateValidator r => exact ih er (by simpa [collectContracts] using h1)
      | MsgEditValidator r => exact ih er (by simpa [collectContracts] using h1)
      | MsgExec r => exact ih er (by simpa [collectContracts] using h1)
      | Other r => exact ih er (by simpa [collectContracts] using h1)
  by_cases hvalid : fees.IsValid = true
  swap
  · simp only [DeductFees, hvalid, Bool.not_false, if_true, Except.ok.injEq, Prod.mk.injEq,
      Option.some.injEq] at h
    rw [← h.1]
    simp [errInvalidFee, errUnknownFeePayer]
  cases hc : collectContracts fromBech32 msgs with
  | error err =>
    simp only [DeductFees, hvalid, Bool.not_true, Bool.false_eq_true, if_false, hc,
      Except.ok.injEq, Prod.mk.injEq, Option.some.injEq] at h
    obtain ⟨msg, hmsg⟩ := hcollect msgs err hc
    rw [← h.1, hmsg]
    simp [errUnknownFeePayer]
  | ok l =>
    by_cases hplain : ∀ contract ∈ l.head?,
        (revKeeper.GetRevenue s contract).1.GetWithdrawerAddr = none
    · rw [DeductFees_plain fromBech32 bankKeeper s acc fees revKeeper msgs l hvalid hc
        hplain] at h
      simp only [Except.ok.injEq] at h
      exact hpay s fees (by rw [h])
    · cases l with
      | nil => simp at hplain
      | cons contract cs =>
        simp only [List.head?_cons, Option.mem_def, Option.some.injEq, forall_eq'] at hplain
        obtain ⟨w, hw⟩ := Option.ne_none_iff_exists'.mp hplain
        rw [DeductFees_split fromBech32 bankKeeper s acc fees revKeeper msgs contract w cs
          hvalid hc hw] at h
        cases ht : bankKeeper.SendCoinsFromModuleToAccount s.bank "distribution" w
            (owedCoins fees) with
        | error msg =>
          simp only [ht, Except.ok.injEq, Prod.mk.injEq, Option.some.injEq] at h
          rw [← h.1]
          simp [errInsufficientFunds, errUnknownFeePayer]
        | ok bank =>
          simp only [ht, Except.ok.injEq] at h
          exact hpay _ _ (by rw [h])

/-- Counterexample to C10 as stated: the granter `[8]`, from whose account the fee is to
be deducted, has no account, but no grant keeper is configured; the stage fails with the
error "fee grants are not enabled", not with the error of the missing account. -/
theorem C10_counterexample_grant_check_first :
    sampleDeductNoGrants.ak.HasAccount sampleState [8] = false
    ∧ RejectsWith (G := Unit)
        (DeductFeeDecorator.AnteHandle sampleBech32 sampleDeductNoGrants sampleCtx
          ⟨[], some ⟨[⟨"ujuno", 100⟩], 1000, [5], some [8]⟩⟩ false) sampleCtx
        errGrantsNotEnabled
    ∧ errGrantsNotEnabled ≠ errUnknownFeePayer [8] := by
  refine ⟨by decide, ?_, by decide⟩
  intro next s
  rfl

/-- C10 (amended): when the checks made before the lookup pass (the fee-collector module
account is set, and the grant block accepts the granter, if any), and the account the fee
is to be deducted from (the fee granter when one is present, otherwise the fee payer)
does not exist, the stage fails with the error of the missing account, makes no balance
transfer, emits no event and does not call the next stage. If that account exists, the
stage never fails with the error of the missing account: it hands over to the next
stage, or returns another error, or panics. -/
theorem C10_unknown_fee_payer {G : Type}
    (fromBech32 : String → Except String AccAddress) (dfd : DeductFeeDecorator G)
    (ctx : Context) (tx : Tx) (simulate : Bool) (s : State G) (f : FeeTx)
    (hfee : tx.feeTx = some f) :
    (∀ addr payer grants1, dfd.ak.GetModuleAddress FeeCollectorName = some addr →
      dfd.resolvePayer s.grants f.fee f.feePayer f.feeGranter tx.GetMsgs = .ok (payer, grants1) →
      payer = f.feeGranter.getD f.feePayer
      ∧ (dfd.ak.HasAccount ⟨s.bank, grants1, s.events⟩ payer = false →
          ∀ next, DeductFeeDecorator.AnteHandle fromBech32 dfd ctx tx simulate next s
            = .ok ((ctx, some (errUnknownFeePayer payer)), ⟨s.bank, grants1, s.events⟩)))
    ∧ ((∀ grants1, dfd.ak.HasAccount ⟨s.bank, grants1, s.events⟩
          (f.feeGranter.getD f.feePayer) = true) →
        ∀ next,
          (∃ s2, DeductFeeDecorator.AnteHandle fromBech32 dfd ctx tx simulate next s
            = next ctx tx simulate s2)
          ∨ (∃ e s2, DeductFeeDecorator.AnteHandle fromBech32 dfd ctx tx simulate next s
              = .ok ((ctx, some e), s2) ∧ ∀ a, e ≠ errUnknownFeePayer a)
          ∨ ∃ p, DeductFeeDecorator.AnteHandle fromBech32 dfd ctx tx simulate next s
              = .error p) := by
  constructor
  · intro addr payer grants1 hcoll hres
    refine ⟨resolvePayer_eq dfd _ _ _ _ _ payer grants1 hres, ?_⟩
    intro hacc next
    rw [deductFee_after_resolve fromBech32 dfd ctx tx simulate next s f addr payer grants1 hfee
      hcoll hres]
    simp only [hacc, if_false, Bool.false_eq_true]
  · intro hacc next
    cases hcoll : dfd.ak.GetModuleAddress FeeCollectorName with
    | none =>
      right; left
      refine ⟨errNoFeeCollector, s, ?_, by intro a; simp [errNoFeeCollector, errUnknownFeePayer]⟩
      simp only [DeductFeeDecorator.AnteHandle, hfee, hcoll]
    | some addr =>
      cases hres : dfd.resolvePayer s.grants f.fee f.feePayer f.feeGranter tx.GetMsgs with
      | error e =>
        right; left
        refine ⟨e, s, ?_, resolvePayer_error_ne dfd _ _ _ _ _ e hres⟩
        simp only [DeductFeeDecorator.AnteHandle, hfee, hcoll, hres]
      | ok r =>
        obtain ⟨payer, grants1⟩ := r
        have hpayer := resolvePayer_eq dfd _ _ _ _ _ payer grants1 hres
        have hacc1 := hacc grants1
        rw [← hpayer] at hacc1
        rw [deductFee_after_resolve fromBech32 dfd ctx tx simulate next s f addr payer grants1
          hfee hcoll hres]
        simp only [hacc1, if_true]
        by_cases hz : f.fee.IsZero = true
        · left
          simp only [hz, if_true, DeductFeeDecorator.emitAndNext]
          exact ⟨_, rfl⟩
        · simp only [hz, if_false, Bool.false_eq_true]
          cases hd : DeductFees fromBech32 dfd.bankKeeper ⟨s.bank, grants1, s.events⟩ ⟨payer⟩
              f.fee dfd.feesharekeeper tx.GetMsgs with
          | error p => right; right; exact ⟨p, rfl⟩
          | ok r2 =>
            obtain ⟨e, s3⟩ := r2
            cases e with
            | some err =>
              right; left
              exact ⟨err, s3, rfl, DeductFees_error_ne fromBech32 _ _ s3 _ _ _ _ err hd⟩
            | none =>
              left
              simp only [DeductFeeDecorator.emitAndNext]
              exact ⟨_, rfl⟩

/-- Witness of C10: the sample stage, payer `[8]` without account and no granter: the
stage rejects with the error of the missing account `[8]`. -/
theorem C10_witness :
    sampleDeduct.ak.GetModuleAddress FeeCollectorName = some [0]
    ∧ sampleDeduct.ak.HasAccount sampleState [8] = false
    ∧ DeductFeeDecorator.AnteHandle sampleBech32 sampleDeduct sampleCtx
        ⟨[], some ⟨[⟨"ujuno", 100⟩], 1000, [8], none⟩⟩ false nextOk sampleState
      = .ok ((sampleCtx, some (errUnknownFeePayer [8])), sampleState) :=
  ⟨by decide, by decide,
    ((C10_unknown_fee_payer sampleBech32 sampleDeduct sampleCtx
      ⟨[], some ⟨[⟨"ujuno", 100⟩], 1000, [8], none⟩⟩ false sampleState
      ⟨[⟨"ujuno", 100⟩], 1000, [8], none⟩ rfl).1 [0] [8] () (by decide) rfl).2 (by decide)
      nextOk⟩


/-- The evaluation of the slice of the builder: with a simulation gas limit that is absent
or not zero every constructor returns, and the stages are those of the entries. -/
theorem constructAll_anteDecorators {G : Type} (ext : ExternalDecorators G)
    (fromBech32 : String → Except String AccAddress) (options : HandlerOptions G)
    (ak : AccountKeeper G) (smh : SignModeHandler) (sgc : SigGasConsumer)
    (hlimit : options.WasmConfig.SimulationGasLimit ≠ some 0) :
    constructAll ext fromBech32 (anteDecorators options ak smh sgc)
      = .ok ((anteDecorators options ak smh sgc).map (Decorator.AnteHandle ext fromBech32)) := by
  have h : NewLimitSimulationGasDecorator options.WasmConfig.SimulationGasLimit
      = .ok options.WasmConfig.SimulationGasLimit := by
    cases hl : options.WasmConfig.SimulationGasLimit with
    | none => rfl
    | some n =>
      cases n with
      | zero => exact absurd hl hlimit
      | succ k => rfl
  simp only [anteDecorators, constructAll, Decorator.construct, h, List.map,
    Decorator.AnteHandle]

/-- The evaluation of the slice of the builder panics when the simulation gas limit points
to zero. -/
theorem constructAll_anteDecorators_zero {G : Type} (ext : ExternalDecorators G)
    (fromBech32 : String → Except String AccAddress) (options : HandlerOptions G)
    (ak : AccountKeeper G) (smh : SignModeHandler) (sgc : SigGasConsumer)
    (hlimit : options.WasmConfig.SimulationGasLimit = some 0) :
    constructAll ext fromBech32 (anteDecorators options ak smh sgc)
      = .error "gas limit must not be zero" := by
  simp only [anteDecorators, constructAll, Decorator.construct, hlimit,
    NewLimitSimulationGasDecorator]

/-- Counterexample to C11 as stated: the sample options with the simulation gas limit
pointing to zero hold the three mandatory collaborators, yet the builder returns neither a
handler nor an error: the constructor of the simulation-gas stage panics. -/
theorem C11_counterexample_zero_simulation_gas_limit :
    ({ sampleOptions with WasmConfig := ⟨some 0⟩ } : HandlerOptions Unit).AccountKeeper
      = some sampleAccounts
    ∧ ({ sampleOptions with WasmConfig := ⟨some 0⟩ } : HandlerOptions Unit).BankKeeper
      = some Ledger.keeper
    ∧ ({ sampleOptions with WasmConfig := ⟨some 0⟩ } : HandlerOptions Unit).SignModeHandler
      = some ⟨1⟩
    ∧ NewAnteHandler sampleExternal sampleBech32
        { sampleOptions with WasmConfig := ⟨some 0⟩ } = .error "gas limit must not be zero"
    ∧ ¬ ∃ h e, NewAnteHandler sampleExternal sampleBech32
        { sampleOptions with WasmConfig := ⟨some 0⟩ } = .ok (some h, e) := by
  have hr : NewAnteHandler sampleExternal sampleBech32
      { sampleOptions with WasmConfig := ⟨some 0⟩ } = .error "gas limit must not be zero" := rfl
  refine ⟨rfl, rfl, rfl, hr, ?_⟩
  rintro ⟨h, e, he⟩
  rw [hr] at he
  cases he

/-- C11 (amended): `NewAnteHandler` returns a configuration error and no handler iff at
least one of the mandatory collaborators (account keeper, bank keeper, sign-mode handler) is
absent; the error wraps `ErrLogic`. It returns a handler and no error iff all three are
present and the simulation gas limit is absent or not zero, whatever the other options are:
the handler is the chain of the seventeen decorators, and an absent signature-gas consumer
is replaced by the default one. With all three present and the simulation gas limit
pointing to zero, the constructor of the simulation-gas stage panics. -/
theorem C11_builder_fails_iff_mandatory_collaborator_absent {G : Type}
    (ext : ExternalDecorators G) (fromBech32 : String → Except String AccAddress)
    (options : HandlerOptions G) :
    ((∃ e, NewAnteHandler ext fromBech32 options = .ok (none, some e))
      ↔ (options.AccountKeeper = none ∨ options.BankKeeper = none
          ∨ options.SignModeHandler = none))
    ∧ ((∃ h, NewAnteHandler ext fromBech32 options = .ok (some h, none))
      ↔ (options.AccountKeeper ≠ none ∧ options.BankKeeper ≠ none
          ∧ options.SignModeHandler ≠ none
          ∧ options.WasmConfig.SimulationGasLimit ≠ some 0))
    ∧ ((∃ p, NewAnteHandler ext fromBech32 options = .error p)
      ↔ (options.AccountKeeper ≠ none ∧ options.BankKeeper ≠ none
          ∧ options.SignModeHandler ≠ none
          ∧ options.WasmConfig.SimulationGasLimit = some 0))
    ∧ (∀ h e, NewAnteHandler ext fromBech32 options = .ok (h, some e) →
        h = none ∧ ∃ what, e = errRequired what)
    ∧ (∀ ak bk smh, options.AccountKeeper = some ak → options.BankKeeper = some bk →
        options.SignModeHandler = some smh →
        options.WasmConfig.SimulationGasLimit ≠ some 0 →
        NewAnteHandler ext fromBech32 options
          = .ok (some (chainFrom ((anteDecorators options ak smh
              (options.SigGasConsumer.getD .DefaultSigVerificationGasConsumer)).map
              (Decorator.AnteHandle ext fromBech32))), none)) := by
  have hfull : ∀ ak bk smh, options.AccountKeeper = some ak → options.BankKeeper = some bk →
      options.SignModeHandler = some smh →
      options.WasmConfig.SimulationGasLimit ≠ some 0 →
      NewAnteHandler ext fromBech32 options
        = .ok (some (chainFrom ((anteDecorators options ak smh
            (options.SigGasConsumer.getD .DefaultSigVerificationGasConsumer)).map
            (Decorator.AnteHandle ext fromBech32))), none) := by
    intro ak bk smh h1 h2 h3 h4
    simp only [NewAnteHandler, h1, h2, h3]
    cases options.SigGasConsumer <;>
      simp only [constructAll_anteDecorators ext fromBech32 options ak smh _ h4,
        Option.getD] <;> rfl
  have hzero : ∀ ak bk smh, options.AccountKeeper = some ak → options.BankKeeper = some bk →
      options.SignModeHandler = some smh →
      options.WasmConfig.SimulationGasLimit = some 0 →
      NewAnteHandler ext fromBech32 options = .error "gas limit must not be zero" := by
    intro ak bk smh h1 h2 h3 h4
    simp only [NewAnteHandler, h1, h2, h3]
    cases options.SigGasConsumer <;>
      simp only [constructAll_anteDecorators_zero ext fromBech32 options ak smh _ h4]
  cases h1 : options.AccountKeeper with
  | none =>
    have hr : NewAnteHandler ext fromBech32 options
        = .ok (none, some (errRequired "account keeper is required for ante builder")) := by
      simp only [NewAnteHandler, h1]
    refine ⟨?_, ?_, ?_, ?_, ?_⟩
    · simp [hr]
    · simp [hr]
    · simp [hr]
    · intro h e he
      rw [hr] at he
      simp only [Except.ok.injEq, Prod.mk.injEq, Option.some.injEq] at he
      exact ⟨he.1.symm, _, he.2.symm⟩
    · intro ak bk smh h; simp at h
  | some ak =>
    cases h2 : options.BankKeeper with
    | none =>
      have hr : NewAnteHandler ext fromBech32 options
          = .ok (none, some (errRequired "bank keeper is required for ante builder")) := by
        simp only [NewAnteHandler, h1, h2]
      refine ⟨?_, ?_, ?_, ?_, ?_⟩
      · simp [hr]
      · simp [hr]
      · simp [hr]
      · intro h e he
        rw [hr] at he
        simp only [Except.ok.injEq, Prod.mk.injEq, Option.some.injEq] at he
        exact ⟨he.1.symm, _, he.2.symm⟩
      · intro ak bk smh _ h; simp at h
    | some bk =>
      cases h3 : options.SignModeHandler with
      | none =>
        have hr : NewAnteHandler ext fromBech32 options
            = .ok (none,
              some (errRequired "sign mode handler is required for ante builder")) := by
          simp only [NewAnteHandler, h1, h2, h3]
        refine ⟨?_, ?_, ?_, ?_, ?_⟩
        · simp [hr]
        · simp [hr]
        · simp [hr]
        · intro h e he
          rw [hr] at he
          simp only [Except.ok.injEq, Prod.mk.injEq, Option.some.injEq] at he
          exact ⟨he.1.symm, _, he.2.symm⟩
        · intro ak bk smh _ _ h; simp at h
      | some smh =>
        by_cases h4 : options.WasmConfig.SimulationGasLimit = some 0
        · have hr := hzero ak bk smh h1 h2 h3 h4
          refine ⟨?_, ?_, ?_, ?_, ?_⟩
          · simp [hr]
          · simp [hr, h4]
          · simp [hr, h4]
          · intro h e he
            rw [hr] at he
            cases he
          · intro ak1 bk1 smh1 _ _ _ h5
            exact absurd h4 h5
        · have hr := hfull ak bk smh h1 h2 h3 h4
          refine ⟨?_, ?_, ?_, ?_, ?_⟩
          · simp [hr]
          · simp [hr, h4]
          · simp [hr, h4]
          · intro h e he
            rw [hr] at he
            simp at he
          · intro ak1 bk1 smh1 e1 e2 e3 _
            simp only [Option.some.injEq] at e1 e2 e3
            subst e1 e2 e3
            exact hr

/-- The function `DeductFees` never panics: an invalid fee is refused before the split, and
on a valid fee neither `sdk.NewCoin` nor `Coins.Sub` panics. -/
theorem DeductFees_ok {G : Type} (fromBech32 : String → Except String AccAddress)
    (bankKeeper : BankKeeper) (s : State G) (acc : Account) (fees : Coins)
    (revKeeper : FeeShareKeeper G) (msgs : List Msg) :
    ∃ r, DeductFees fromBech32 bankKeeper s acc fees revKeeper msgs = .ok r := by
  by_cases hvalid : fees.IsValid = true
  swap
  · exact ⟨(some (errInvalidFee fees), s),
      by simp only [DeductFees, hvalid, Bool.not_false, if_true]⟩
  cases hc : collectContracts fromBech32 msgs with
  | error err =>
    exact ⟨(some err, s),
      by simp only [DeductFees, hvalid, Bool.not_true, Bool.false_eq_true, if_false, hc]⟩
  | ok l =>
    by_cases hplain : ∀ contract ∈ l.head?,
        (revKeeper.GetRevenue s contract).1.GetWithdrawerAddr = none
    · exact ⟨_, DeductFees_plain fromBech32 bankKeeper s acc fees revKeeper msgs l hvalid hc
        hplain⟩
    · cases l with
      | nil => simp at hplain
      | cons contract cs =>
        simp only [List.head?_cons, Option.mem_def, Option.some.injEq, forall_eq'] at hplain
        obtain ⟨w, hw⟩ := Option.ne_none_iff_exists'.mp hplain
        rw [DeductFees_split fromBech32 bankKeeper s acc fees revKeeper msgs contract w cs
          hvalid hc hw]
        cases bankKeeper.SendCoinsFromModuleToAccount s.bank "distribution" w
            (owedCoins fees) with
        | error msg => exact ⟨_, rfl⟩
        | ok bank => exact ⟨_, rfl⟩

/-- Every stage of this repository, on every input, does one of three things, whatever the
next handler is: it hands over to the next handler, or it returns the context it was given
with an error of its own without calling the next handler, or it panics. -/
theorem localStage_outcome {G : Type} (fromBech32 : String → Except String AccAddress)
    (st : LocalStage G) (ctx : Context) (tx : Tx) (simulate : Bool) (s : State G) :
    (∃ s1, Passes (st.AnteHandle fromBech32) ctx tx simulate s s1)
    ∨ (∃ e s1, Fails (st.AnteHandle fromBech32) ctx tx simulate s e s1)
    ∨ (∃ p, Panics (st.AnteHandle fromBech32) ctx tx simulate s p) := by
  cases st with
  | commissionGuard min =>
    cases hs : min.scanMsgs tx.GetMsgs with
    | error p =>
      right; right
      exact ⟨p, fun next => by
        simp only [LocalStage.AnteHandle, MinCommissionDecorator.AnteHandle, hs]⟩
    | ok r =>
      cases r with
      | none =>
        left
        exact ⟨s, fun next => by
          simp only [LocalStage.AnteHandle, MinCommissionDecorator.AnteHandle, hs]⟩
      | some e =>
        right; left
        exact ⟨e, s, fun next => by
          simp only [LocalStage.AnteHandle, MinCommissionDecorator.AnteHandle, hs]⟩
  | feeSufficiency =>
    cases hf : tx.feeTx with
    | none =>
      right; left
      exact ⟨errNotFeeTx, s, fun next => by
        simp only [LocalStage.AnteHandle, MempoolFeeDecorator.AnteHandle, hf]⟩
    | some f =>
      by_cases hc : (ctx.IsCheckTx && !simulate) = true
      swap
      · left
        exact ⟨s, fun next => by
          simp only [LocalStage.AnteHandle, MempoolFeeDecorator.AnteHandle, hf, hc, if_false,
            Bool.false_eq_true]⟩
      by_cases hz : (!ctx.MinGasPrices.IsZero) = true
      swap
      · left
        exact ⟨s, fun next => by
          simp only [LocalStage.AnteHandle, MempoolFeeDecorator.AnteHandle, hf, hc, hz, if_true,
            if_false, Bool.false_eq_true]⟩
      cases hr : MempoolFeeDecorator.requiredFees ctx.MinGasPrices f.gas with
      | error p =>
        right; right
        exact ⟨p, fun next => by
          simp only [LocalStage.AnteHandle, MempoolFeeDecorator.AnteHandle, hf, hc, hz, hr,
            if_true]⟩
      | ok required =>
        by_cases hg : (!f.fee.IsAnyGTE required) = true
        · right; left
          exact ⟨errInsufficientFee f.fee required, s, fun next => by
            simp only [LocalStage.AnteHandle, MempoolFeeDecorator.AnteHandle, hf, hc, hz, hr, hg,
              if_true]⟩
        · left
          exact ⟨s, fun next => by
            simp only [LocalStage.AnteHandle, MempoolFeeDecorator.AnteHandle, hf, hc, hz, hr, hg,
              if_true, if_false, Bool.false_eq_true]⟩
  | feeDeduction dfd =>
    cases hf : tx.feeTx with
    | none =>
      right; left
      exact ⟨errNotFeeTx, s, fun next => by
        simp only [LocalStage.AnteHandle, DeductFeeDecorator.AnteHandle, hf]⟩
    | some f =>
      cases hcoll : dfd.ak.GetModuleAddress FeeCollectorName with
      | none =>
        right; left
        exact ⟨errNoFeeCollector, s, fun next => by
          simp only [LocalStage.AnteHandle, DeductFeeDecorator.AnteHandle, hf, hcoll]⟩
      | some addr =>
        cases hres : dfd.resolvePayer s.grants f.fee f.feePayer f.feeGranter tx.GetMsgs with
        | error e =>
          right; left
          exact ⟨e, s, fun next => by
            simp only [LocalStage.AnteHandle, DeductFeeDecorator.AnteHandle, hf, hcoll, hres]⟩
        | ok r =>
          obtain ⟨payer, grants1⟩ := r
          have hform := fun next => deductFee_after_resolve fromBech32 dfd ctx tx simulate next
            s f addr payer grants1 hf hcoll hres
          by_cases hacc : dfd.ak.HasAccount ⟨s.bank, grants1, s.events⟩ payer = true
          swap
          · right; left
            exact ⟨errUnknownFeePayer payer, ⟨s.bank, grants1, s.events⟩, fun next => by
              simp only [LocalStage.AnteHandle, hform next, hacc, if_false,
                Bool.false_eq_true]⟩
          by_cases hz : f.fee.IsZero = true
          · left
            exact ⟨⟨s.bank, grants1, s.events ++ [feeEvent f.fee payer]⟩, fun next => by
              simp only [LocalStage.AnteHandle, hform next, hacc, hz, if_true,
                DeductFeeDecorator.emitAndNext]⟩
          obtain ⟨r2, hd⟩ := DeductFees_ok fromBech32 dfd.bankKeeper
            ⟨s.bank, grants1, s.events⟩ ⟨payer⟩ f.fee dfd.feesharekeeper tx.GetMsgs
          obtain ⟨e, s2⟩ := r2
          cases e with
          | some err =>
            right; left
            exact ⟨err, s2, fun next => by
              simp only [LocalStage.AnteHandle, hform next, hacc, hz, if_true, if_false,
                Bool.false_eq_true, hd]⟩
          | none =>
            left
            exact ⟨{ s2 with events := s2.events ++ [feeEvent f.fee payer] }, fun next => by
              simp only [LocalStage.AnteHandle, hform next, hacc, hz, if_true, if_false,
                Bool.false_eq_true, hd, DeductFeeDecorator.emitAndNext]⟩


/-- A chain runs through a prefix of stages that all pass and goes on with the rest. -/
theorem chainFrom_append_of_passAll {G : Type} (ctx : Context) (tx : Tx) (simulate : Bool)
    (pre rest : List (Stage G)) :
    ∀ (s s1 : State G), PassAll ctx tx simulate pre s s1 →
      chainFrom (pre ++ rest) ctx tx simulate s = chainFrom rest ctx tx simulate s1 := by
  induction pre with
  | nil =>
    intro s s1 h
    simp only [PassAll] at h
    rw [h]; rfl
  | cons d ds ih =>
    intro s s1 h
    obtain ⟨s2, hd, hrest⟩ := h
    simp only [List.cons_append, chainFrom]
    rw [hd]
    exact ih s2 s1 hrest

/-- A chain whose first stage fails returns the error of that stage, whatever the later
stages are. -/
theorem chainFrom_of_fails {G : Type} (ctx : Context) (tx : Tx) (simulate : Bool)
    (d : Stage G) (post : List (Stage G)) (s s1 : State G) (e : Error)
    (h : Fails d ctx tx simulate s e s1) :
    chainFrom (d :: post) ctx tx simulate s = .ok ((ctx, some e), s1) := by
  simp only [chainFrom]
  exact h _

/-- C12: each stage defined in this repository (commission guard, fee sufficiency, fee
deduction), on every input, either hands over to the next stage, or fails, returning its
error together with the context it was given without calling the next stage, or panics
(without calling the next stage either). In a chain composed of these stages, when the
stages before some stage all pass and that stage fails, the chain returns the error of
that stage with the context, whatever the stages after it are; and every run of such a
chain ends in one of three ways: all stages pass, or the first stage that does not pass
fails and its error is the result, or that stage panics. -/
theorem C12_chain_returns_first_failure {G : Type}
    (fromBech32 : String → Except String AccAddress) (ctx : Context) (tx : Tx)
    (simulate : Bool) :
    (∀ (st : LocalStage G) (s : State G),
      (∃ s1, Passes (st.AnteHandle fromBech32) ctx tx simulate s s1)
      ∨ (∃ e s1, Fails (st.AnteHandle fromBech32) ctx tx simulate s e s1)
      ∨ (∃ p, Panics (st.AnteHandle fromBech32) ctx tx simulate s p))
    ∧ (∀ (pre : List (LocalStage G)) (st : LocalStage G) (post : List (LocalStage G))
        (s s1 s2 : State G) (e : Error),
        PassAll ctx tx simulate (pre.map (LocalStage.AnteHandle fromBech32)) s s1 →
        Fails (st.AnteHandle fromBech32) ctx tx simulate s1 e s2 →
        chainFrom ((pre ++ st :: post).map (LocalStage.AnteHandle fromBech32)) ctx tx simulate s
          = .ok ((ctx, some e), s2))
    ∧ (∀ (stages : List (LocalStage G)) (s : State G),
        (∃ s1, PassAll ctx tx simulate (stages.map (LocalStage.AnteHandle fromBech32)) s s1
          ∧ chainFrom (stages.map (LocalStage.AnteHandle fromBech32)) ctx tx simulate s
            = .ok ((ctx, none), s1))
        ∨ (∃ pre st post e s1 s2, stages = pre ++ st :: post
          ∧ PassAll ctx tx simulate (pre.map (LocalStage.AnteHandle fromBech32)) s s1
          ∧ Fails (st.AnteHandle fromBech32) ctx tx simulate s1 e s2
          ∧ chainFrom (stages.map (LocalStage.AnteHandle fromBech32)) ctx tx simulate s
            = .ok ((ctx, some e), s2))
        ∨ (∃ pre st post p s1, stages = pre ++ st :: post
          ∧ PassAll ctx tx simulate (pre.map (LocalStage.AnteHandle fromBech32)) s s1
          ∧ Panics (st.AnteHandle fromBech32) ctx tx simulate s1 p
          ∧ chainFrom (stages.map (LocalStage.AnteHandle fromBech32)) ctx tx simulate s
            = .error p)) := by
  refine ⟨fun st s => localStage_outcome fromBech32 st ctx tx simulate s, ?_, ?_⟩
  · intro pre st post s s1 s2 e hpre hfail
    rw [List.map_append, List.map_cons,
      chainFrom_append_of_passAll ctx tx simulate _ _ s s1 hpre]
    exact chainFrom_of_fails ctx tx simulate _ _ s1 s2 e hfail
  · intro stages
    induction stages with
    | nil =>
      intro s
      left
      exact ⟨s, rfl, rfl⟩
    | cons st rest ih =>
      intro s
      rcases localStage_outcome fromBech32 st ctx tx simulate s with
        ⟨s1, hp⟩ | ⟨e, s1, hf⟩ | ⟨p, hp⟩
      · have hchain : chainFrom ((st :: rest).map (LocalStage.AnteHandle fromBech32)) ctx tx
            simulate s
            = chainFrom (rest.map (LocalStage.AnteHandle fromBech32)) ctx tx simulate s1 := by
          simp only [List.map_cons, chainFrom]
          exact hp _
        rcases ih s1 with ⟨s2, hall, hres⟩ | ⟨pre, st2, post, e, s2, s3, hst, hall, hf, hres⟩
          | ⟨pre, st2, post, p, s2, hst, hall, hpn, hres⟩
        · left
          exact ⟨s2, ⟨s1, hp, hall⟩, by rw [hchain, hres]⟩
        · right; left
          exact ⟨st :: pre, st2, post, e, s2, s3, by rw [hst]; rfl, ⟨s1, hp, hall⟩, hf,
            by rw [hchain, hres]⟩
        · right; right
          exact ⟨st :: pre, st2, post, p, s2, by rw [hst]; rfl, ⟨s1, hp, hall⟩, hpn,
            by rw [hchain, hres]⟩
      · right; left
        exact ⟨[], st, rest, e, s, s1, rfl, rfl, hf,
          chainFrom_of_fails ctx tx simulate _ _ s s1 e hf⟩
      · right; right
        refine ⟨[], st, rest, p, s, rfl, rfl, hp, ?_⟩
        simp only [List.map_cons, chainFrom]
        exact hp _


/-- The last transfer of `DeductFees` leaves the grant store and the events as they were,
and leaves the whole state as it was when the transfer fails. -/
theorem payToModule_keeps {G : Type} (bankKeeper : BankKeeper) (s : State G) (acc : Account)
    (amt : Coins) :
    (payToModule bankKeeper s acc amt).2.grants = s.grants
    ∧ (payToModule bankKeeper s acc amt).2.events = s.events
    ∧ (∀ msg, bankKeeper.SendCoinsFromAccountToModule s.bank acc.GetAddress "distribution" amt
          = .error msg →
        payToModule bankKeeper s acc amt = (some (errInsufficientFunds msg), s)) := by
  unfold payToModule
  cases bankKeeper.SendCoinsFromAccountToModule s.bank acc.GetAddress "distribution" amt with
  | error m => simp
  | ok bank => simp

/-- The function `DeductFees` leaves the grant store and the events as they were, for every
bank keeper. -/
theorem DeductFees_keeps {G : Type} (fromBech32 : String → Except String AccAddress)
    (bankKeeper : BankKeeper) (s : State G) (acc : Account) (fees : Coins)
    (revKeeper : FeeShareKeeper G) (msgs : List Msg) (r : Option Error × State G)
    (h : DeductFees fromBech32 bankKeeper s acc fees revKeeper msgs = .ok r) :
    r.2.grants = s.grants ∧ r.2.events = s.events := by
  by_cases hvalid : fees.IsValid = true
  swap
  · simp only [DeductFees, hvalid, Bool.not_false, if_true, Except.ok.injEq] at h
    subst h
    exact ⟨rfl, rfl⟩
  cases hc : collectContracts fromBech32 msgs with
  | error err =>
    simp only [DeductFees, hvalid, Bool.not_true, Bool.false_eq_true, if_false, hc,
      Except.ok.injEq] at h
    subst h
    exact ⟨rfl, rfl⟩
  | ok l =>
    by_cases hplain : ∀ contract ∈ l.head?,
        (revKeeper.GetRevenue s contract).1.GetWithdrawerAddr = none
    · rw [DeductFees_plain fromBech32 bankKeeper s acc fees revKeeper msgs l hvalid hc
        hplain] at h
      simp only [Except.ok.injEq] at h
      subst h
      exact ⟨(payToModule_keeps bankKeeper s acc fees).1,
        (payToModule_keeps bankKeeper s acc fees).2.1⟩
    · cases l with
      | nil => simp at hplain
      | cons contract cs =>
        simp only [List.head?_cons, Option.mem_def, Option.some.injEq, forall_eq'] at hplain
        obtain ⟨w, hw⟩ := Option.ne_none_iff_exists'.mp hplain
        rw [DeductFees_split fromBech32 bankKeeper s acc fees revKeeper msgs contract w cs
          hvalid hc hw] at h
        cases ht : bankKeeper.SendCoinsFromModuleToAccount s.bank "distribution" w
            (owedCoins fees) with
        | error msg =>
          simp only [ht, Except.ok.injEq] at h
          subst h
          exact ⟨rfl, rfl⟩
        | ok bank =>
          simp only [ht, Except.ok.injEq] at h
          subst h
          exact ⟨(payToModule_keeps bankKeeper _ acc _).1,
            (payToModule_keeps bankKeeper _ acc _).2.1⟩

/-- When every top-level contract execution carries an address that decodes, the first
loop of `DeductFees` succeeds and the first address it collects is the decoded address of
the first top-level contract execution. -/
theorem collectContracts_head_of_decode (fromBech32 : String → Except String AccAddress)
    (msgs : List Msg) (c : String) (contract : AccAddress)
    (hdecode : ∀ c ∈ executedContracts msgs, ∃ a, fromBech32 c = .ok a)
    (hfirst : (executedContracts msgs).head? = some c)
    (haddr : fromBech32 c = .ok contract) :
    ∃ cs, collectContracts fromBech32 msgs = .ok (contract :: cs) := by
  obtain ⟨l, hl⟩ := collectContracts_ok fromBech32 msgs hdecode
  cases hex : executedContracts msgs with
  | nil => rw [hex] at hfirst; simp at hfirst
  | cons x xs =>
    rw [hex] at hfirst
    simp only [List.head?_cons, Option.some.injEq] at hfirst
    subst hfirst
    obtain ⟨a, as, ha, rfl⟩ := collectContracts_head fromBech32 msgs x xs l hex hl
    rw [haddr] at ha
    simp only [Except.ok.injEq] at ha
    exact ⟨as, by rw [hl, ha]⟩

/-- C13: all coin transfers of `DeductFees` fail closed, for every bank keeper. On the
split path, if the collector-to-withdrawer transfer fails, `DeductFees` returns
`ErrInsufficientFunds` and the state it was given (no balance has changed), and the
payer-to-collector transfer has no part in the result; if that first transfer is made and
the payer-to-collector transfer fails, `DeductFees` returns `ErrInsufficientFunds` and the
state after the first transfer. On the ordinary path, if the payer-to-collector transfer
fails, `DeductFees` returns `ErrInsufficientFunds` and the state it was given. Whenever
the call of `DeductFees` in the fee-deduction stage returns an error, the stage returns
that error with the context it was given, has emitted no event and does not call the next
stage. -/
theorem C13_transfers_fail_closed {G : Type}
    (fromBech32 : String → Except String AccAddress) (bankKeeper : BankKeeper) (s : State G)
    (acc : Account) (fees : Coins) (revKeeper : FeeShareKeeper G) (msgs : List Msg)
    (hvalid : fees.IsValid = true)
    (hdecode : ∀ c ∈ executedContracts msgs, ∃ a, fromBech32 c = .ok a) :
    (∀ c contract w msg, (executedContracts msgs).head? = some c →
      fromBech32 c = .ok contract →
      (revKeeper.GetRevenue s contract).1.GetWithdrawerAddr = some w →
      bankKeeper.SendCoinsFromModuleToAccount s.bank "distribution" w (owedCoins fees)
        = .error msg →
      DeductFees fromBech32 bankKeeper s acc fees revKeeper msgs
        = .ok (some (errInsufficientFunds msg), s)
      ∧ ∀ bk : BankKeeper,
          bk.SendCoinsFromModuleToAccount = bankKeeper.SendCoinsFromModuleToAccount →
          DeductFees fromBech32 bk s acc fees revKeeper msgs
            = .ok (some (errInsufficientFunds msg), s))
    ∧ (∀ c contract w bank msg, (executedContracts msgs).head? = some c →
      fromBech32 c = .ok contract →
      (revKeeper.GetRevenue s contract).1.GetWithdrawerAddr = some w →
      bankKeeper.SendCoinsFromModuleToAccount s.bank "distribution" w (owedCoins fees)
        = .ok bank →
      bankKeeper.SendCoinsFromAccountToModule bank acc.GetAddress "distribution"
        (owedCoins fees) = .error msg →
      DeductFees fromBech32 bankKeeper s acc fees revKeeper msgs
        = .ok (some (errInsufficientFunds msg), ⟨bank, s.grants, s.events⟩))
    ∧ (∀ msg, (∀ c ∈ (executedContracts msgs).head?, ∀ a, fromBech32 c = .ok a →
        (revKeeper.GetRevenue s a).1.GetWithdrawerAddr = none) →
      bankKeeper.SendCoinsFromAccountToModule s.bank acc.GetAddress "distribution" fees
        = .error msg →
      DeductFees fromBech32 bankKeeper s acc fees revKeeper msgs
        = .ok (some (errInsufficientFunds msg), s))
    ∧ (∀ (dfd : DeductFeeDecorator G) (ctx : Context) (tx : Tx) (simulate : Bool)
        (f : FeeTx) (addr payer : AccAddress) (grants1 : G) (err : Error) (s2 : State G),
      tx.feeTx = some f →
      dfd.ak.GetModuleAddress FeeCollectorName = some addr →
      dfd.resolvePayer s.grants f.fee f.feePayer f.feeGranter tx.GetMsgs
        = .ok (payer, grants1) →
      dfd.ak.HasAccount ⟨s.bank, grants1, s.events⟩ payer = true →
      f.fee.IsZero = false →
      DeductFees fromBech32 dfd.bankKeeper ⟨s.bank, grants1, s.events⟩ ⟨payer⟩ f.fee
        dfd.feesharekeeper tx.GetMsgs = .ok (some err, s2) →
      (∀ next, DeductFeeDecorator.AnteHandle fromBech32 dfd ctx tx simulate next s
        = .ok ((ctx, some err), s2))
      ∧ s2.events = s.events) := by
  refine ⟨?_, ?_, ?_, ?_⟩
  · intro c contract w msg hfirst haddr hw hfail
    obtain ⟨cs, hcol⟩ := collectContracts_head_of_decode fromBech32 msgs c contract hdecode
      hfirst haddr
    constructor
    · rw [DeductFees_split fromBech32 bankKeeper s acc fees revKeeper msgs contract w cs hvalid
        hcol hw, hfail]
    · intro bk hbk
      rw [DeductFees_split fromBech32 bk s acc fees revKeeper msgs contract w cs hvalid hcol hw,
        hbk, hfail]
  · intro c contract w bank msg hfirst haddr hw hmade hfail
    obtain ⟨cs, hcol⟩ := collectContracts_head_of_decode fromBech32 msgs c contract hdecode
      hfirst haddr
    rw [DeductFees_split fromBech32 bankKeeper s acc fees revKeeper msgs contract w cs hvalid
      hcol hw, hmade]
    simp only
    rw [(payToModule_keeps bankKeeper ⟨bank, s.grants, s.events⟩ acc (owedCoins fees)).2.2 msg
      hfail]
  · intro msg hnone hfail
    obtain ⟨l, hl⟩ := collectContracts_ok fromBech32 msgs hdecode
    have hw : ∀ contract ∈ l.head?,
        (revKeeper.GetRevenue s contract).1.GetWithdrawerAddr = none := by
      intro contract hc
      cases hex : executedContracts msgs with
      | nil =>
        rw [collectContracts_of_nil fromBech32 msgs hex] at hl
        simp only [Except.ok.injEq] at hl
        subst hl
        simp at hc
      | cons c cs =>
        obtain ⟨a, as, ha, rfl⟩ := collectContracts_head fromBech32 msgs c cs l hex hl
        simp only [List.head?_cons, Option.mem_def, Option.some.injEq] at hc
        subst hc
        exact hnone c (by rw [hex]; simp) a ha
    rw [DeductFees_plain fromBech32 bankKeeper s acc fees revKeeper msgs l hvalid hl hw,
      (payToModule_keeps bankKeeper s acc fees).2.2 msg hfail]
  · intro dfd ctx tx simulate f addr payer grants1 err s2 hfee hcoll hres hacc hz hd
    constructor
    · intro next
      rw [deductFee_after_resolve fromBech32 dfd ctx tx simulate next s f addr payer grants1
        hfee hcoll hres]
      simp only [hacc, if_true, hz, Bool.false_eq_true, if_false, hd]
    · exact (DeductFees_keeps fromBech32 dfd.bankKeeper _ _ _ _ _ _ hd).2


/-- Witness of C13 on the sample ledger. Ordinary path: the payer `[5]` owns 500 ujuno and the
fee is 600 ujuno. Split path: the module owns 1000 ujuno and the share to transfer of the
fee 2002 ujuno is 1001 ujuno. In both cases `DeductFees` returns `ErrInsufficientFunds` and
the state it was given. -/
theorem C13_witness :
    Coins.IsValid [⟨"ujuno", 600⟩] = true
    ∧ DeductFees sampleBech32 Ledger.keeper sampleState samplePayer [⟨"ujuno", 600⟩]
        sampleRegistry [.Other "/cosmos.bank.v1beta1.MsgSend"]
      = .ok (some (errInsufficientFunds "insufficient funds"), sampleState)
    ∧ Coins.IsValid [⟨"ujuno", 2002⟩] = true
    ∧ DeductFees sampleBech32 Ledger.keeper sampleState samplePayer [⟨"ujuno", 2002⟩]
        sampleRegistry [.MsgExecuteContract "juno1contract"]
      = .ok (some (errInsufficientFunds "insufficient funds"), sampleState) :=
  ⟨by decide,
    (C13_transfers_fail_closed sampleBech32 Ledger.keeper sampleState samplePayer
      [⟨"ujuno", 600⟩] sampleRegistry [.Other "/cosmos.bank.v1beta1.MsgSend"] (by decide)
      (by intro c hc; simp [executedContracts] at hc)).2.2.1 "insufficient funds"
      (by intro c hc; simp [executedContracts] at hc) rfl,
    by decide,
    ((C13_transfers_fail_closed sampleBech32 Ledger.keeper sampleState samplePayer
      [⟨"ujuno", 2002⟩] sampleRegistry [.MsgExecuteContract "juno1contract"] (by decide)
      (by intro c hc
          simp only [executedContracts, List.mem_singleton] at hc
          exact ⟨[1, 1], by rw [hc]; rfl⟩)).1
      "juno1contract" [1, 1] [7] "insufficient funds" rfl rfl rfl rfl).1⟩

/-- C14: whenever the context is not in check mode, or the simulate flag is true, or the
minimum-gas-price policy is empty, the fee-sufficiency stage is a no-op: for every
fee-bearing transaction, whatever its declared fee and gas limit, it returns what the next
stage returns on the unchanged context, transaction, flag and state. -/
theorem C14_fee_sufficiency_noop {G : Type} (ctx : Context) (msgs : List Msg) (f : FeeTx)
    (simulate : Bool)
    (h : ctx.IsCheckTx = false ∨ simulate = true ∨ ctx.MinGasPrices = []) :
    Accepts (G := G) (MempoolFeeDecorator.AnteHandle ctx ⟨msgs, some f⟩ simulate) ctx
      ⟨msgs, some f⟩ simulate := by
  intro next s
  rcases h with h | h | h
  · simp only [MempoolFeeDecorator.AnteHandle, h, Bool.false_and, Bool.false_eq_true, if_false]
  · simp only [MempoolFeeDecorator.AnteHandle, h, Bool.not_true, Bool.and_false,
      Bool.false_eq_true, if_false]
  · by_cases hc : (ctx.IsCheckTx && !simulate) = true
    · have hz : DecCoins.IsZero ctx.MinGasPrices = true := by rw [h]; rfl
      simp only [MempoolFeeDecorator.AnteHandle, hc, hz, if_true, Bool.not_true,
        Bool.false_eq_true, if_false]
    · simp only [MempoolFeeDecorator.AnteHandle, hc, if_false, Bool.false_eq_true]

/-- Witness of C14, the example of the specification: with the policy `denomA: 0.01` and gas
limit 1000 the fee `9 denomA` is accepted in simulation mode. -/
theorem C14_witness :
    Accepts (G := Unit)
      (MempoolFeeDecorator.AnteHandle sampleCtx ⟨[], some ⟨[⟨"denomA", 9⟩], 1000, [5], none⟩⟩
        true) sampleCtx ⟨[], some ⟨[⟨"denomA", 9⟩], 1000, [5], none⟩⟩ true :=
  C14_fee_sufficiency_noop sampleCtx [] ⟨[⟨"denomA", 9⟩], 1000, [5], none⟩ true
    (Or.inr (Or.inl rfl))

/-- The first loop of `DeductFees` is all that `DeductFees` reads of the messages. -/
theorem DeductFees_congr {G : Type} (fromBech32 : String → Except String AccAddress)
    (bankKeeper : BankKeeper) (s : State G) (acc : Account) (fees : Coins)
    (revKeeper : FeeShareKeeper G) (msgs1 msgs2 : List Msg)
    (h : collectContracts fromBech32 msgs1 = collectContracts fromBech32 msgs2) :
    DeductFees fromBech32 bankKeeper s acc fees revKeeper msgs1
      = DeductFees fromBech32 bankKeeper s acc fees revKeeper msgs2 := by
  unfold DeductFees
  rw [h]

/-- A message list without contract execution has no executed contract. -/
theorem executedContracts_eq_nil (msgs : List Msg)
    (h : ∀ m ∈ msgs, ∀ c, m ≠ .MsgExecuteContract c) : executedContracts msgs = [] := by
  induction msgs with
  | nil => rfl
  | cons m rest ih =>
    have hrest := ih (fun x hx => h x (List.mem_cons_of_mem _ hx))
    cases m with
    | MsgExecuteContract c => exact absurd rfl (h _ (List.mem_cons_self _ _) c)
    | MsgCreateValidator r => simpa [executedContracts] using hrest
    | MsgEditValidator r => simpa [executedContracts] using hrest
    | MsgExec r => simpa [executedContracts] using hrest
    | Other r => simpa [executedContracts] using hrest

/-- C15: reordering messages does not change the acceptance outcome. For every transaction
whose messages contain no `ExecuteContract` message and every permutation of its message
list, the commission guard accepts the permuted transaction iff it accepts the original
(so it rejects or panics on the one iff it rejects or panics on the other, and when no check
of a message panics it rejects the one iff it rejects the other), and `DeductFees` on the
permuted message list returns the same result and leaves the same state as on the
original. -/
theorem C15_reordering_keeps_outcome {G : Type} [Inhabited G] (min : MinCommissionDecorator)
    (fromBech32 : String → Except String AccAddress) (bankKeeper : BankKeeper)
    (ctx : Context) (simulate : Bool) (feeTx : Option FeeTx) (s : State G) (acc : Account)
    (fees : Coins) (revKeeper : FeeShareKeeper G) (msgs1 msgs2 : List Msg)
    (hperm : msgs2.Perm msgs1)
    (hno : ∀ m ∈ msgs1, ∀ c, m ≠ .MsgExecuteContract c) :
    (Accepts (G := G) (min.AnteHandle ctx ⟨msgs2, feeTx⟩ simulate) ctx ⟨msgs2, feeTx⟩ simulate
      ↔ Accepts (G := G) (min.AnteHandle ctx ⟨msgs1, feeTx⟩ simulate) ctx ⟨msgs1, feeTx⟩
        simulate)
    ∧ (((∃ e, RejectsWith (G := G) (min.AnteHandle ctx ⟨msgs2, feeTx⟩ simulate) ctx e)
        ∨ ∃ p, ∀ (next : AnteHandler G) (s1 : State G),
          min.AnteHandle ctx ⟨msgs2, feeTx⟩ simulate next s1 = .error p)
      ↔ ((∃ e, RejectsWith (G := G) (min.AnteHandle ctx ⟨msgs1, feeTx⟩ simulate) ctx e)
        ∨ ∃ p, ∀ (next : AnteHandler G) (s1 : State G),
          min.AnteHandle ctx ⟨msgs1, feeTx⟩ simulate next s1 = .error p))
    ∧ ((∀ m ∈ msgs1, ∀ p, min.checkMsg m ≠ .error p) →
        ((∃ e, RejectsWith (G := G) (min.AnteHandle ctx ⟨msgs2, feeTx⟩ simulate) ctx e)
          ↔ ∃ e, RejectsWith (G := G) (min.AnteHandle ctx ⟨msgs1, feeTx⟩ simulate) ctx e))
    ∧ DeductFees fromBech32 bankKeeper s acc fees revKeeper msgs2
      = DeductFees fromBech32 bankKeeper s acc fees revKeeper msgs1 := by
  have hscan : min.scanMsgs msgs2 = .ok none ↔ min.scanMsgs msgs1 = .ok none := by
    rw [scanMsgs_eq_none_iff, scanMsgs_eq_none_iff]
    constructor
    · intro h m hm; exact h m (hperm.mem_iff.mpr hm)
    · intro h m hm; exact h m (hperm.mem_iff.mp hm)
  have hnot : ∀ msgs : List Msg,
      ((∃ e, RejectsWith (G := G) (min.AnteHandle ctx ⟨msgs, feeTx⟩ simulate) ctx e)
        ∨ ∃ p, ∀ (next : AnteHandler G) (s1 : State G),
          min.AnteHandle ctx ⟨msgs, feeTx⟩ simulate next s1 = .error p)
        ↔ ¬ min.scanMsgs msgs = .ok none := by
    intro msgs
    constructor
    · rintro (⟨e, he⟩ | ⟨p, hp⟩)
      · rw [rejectsWith_iff_scan] at he
        simp only [Tx.GetMsgs] at he
        rw [he]; simp
      · rw [panics_iff_scan] at hp
        simp only [Tx.GetMsgs] at hp
        rw [hp]; simp
    · intro hne
      cases hs : min.scanMsgs msgs with
      | error p =>
        exact Or.inr ⟨p, (panics_iff_scan min ctx ⟨msgs, feeTx⟩ simulate p).mpr hs⟩
      | ok r =>
        cases r with
        | none => exact absurd hs hne
        | some e =>
          exact Or.inl ⟨e, (rejectsWith_iff_scan min ctx ⟨msgs, feeTx⟩ simulate e).mpr hs⟩
  have hrej : ∀ msgs : List Msg, (∀ m ∈ msgs, ∀ p, min.checkMsg m ≠ .error p) →
      ((∃ e, RejectsWith (G := G) (min.AnteHandle ctx ⟨msgs, feeTx⟩ simulate) ctx e)
        ↔ ¬ min.scanMsgs msgs = .ok none) := by
    intro msgs hnp
    rw [← hnot msgs]
    constructor
    · intro h; exact Or.inl h
    · rintro (h | ⟨p, hp⟩)
      · exact h
      · rw [panics_iff_scan] at hp
        exact absurd hp (scanMsgs_ne_error min msgs hnp p)
  refine ⟨?_, ?_, ?_, ?_⟩
  · rw [accepts_iff_scan, accepts_iff_scan]
    exact hscan
  · rw [hnot, hnot, hscan]
  · intro hnp
    rw [hrej msgs2 (fun m hm => hnp m (hperm.mem_iff.mp hm)), hrej msgs1 hnp, hscan]
  · apply DeductFees_congr
    have h1 := executedContracts_eq_nil msgs1 hno
    have h2 := executedContracts_eq_nil msgs2
      (fun m hm => hno m (hperm.mem_iff.mp hm))
    rw [collectContracts_of_nil fromBech32 msgs1 h1, collectContracts_of_nil fromBech32 msgs2 h2]

/-- Witness of C15: a validator creation at 1% and a bank send, in both orders; the guard
accepts neither, and `DeductFees` moves the fee `100 ujuno` in both orders. -/
theorem C15_witness :
    ([Msg.Other "/cosmos.bank.v1beta1.MsgSend",
        Msg.MsgCreateValidator (.set (Dec.NewDecWithPrec 1 2))]).Perm
      [Msg.MsgCreateValidator (.set (Dec.NewDecWithPrec 1 2)),
        Msg.Other "/cosmos.bank.v1beta1.MsgSend"]
    ∧ DeductFees sampleBech32 Ledger.keeper sampleState samplePayer [⟨"ujuno", 100⟩]
        sampleRegistry [Msg.Other "/cosmos.bank.v1beta1.MsgSend",
          Msg.MsgCreateValidator (.set (Dec.NewDecWithPrec 1 2))]
      = DeductFees sampleBech32 Ledger.keeper sampleState samplePayer [⟨"ujuno", 100⟩]
        sampleRegistry [Msg.MsgCreateValidator (.set (Dec.NewDecWithPrec 1 2)),
          Msg.Other "/cosmos.bank.v1beta1.MsgSend"] :=
  ⟨List.Perm.swap _ _ _,
    (C15_reordering_keeps_outcome (G := Unit) sampleGuard sampleBech32 Ledger.keeper sampleCtx
      false none sampleState samplePayer [⟨"ujuno", 100⟩] sampleRegistry
      [Msg.MsgCreateValidator (.set (Dec.NewDecWithPrec 1 2)),
        Msg.Other "/cosmos.bank.v1beta1.MsgSend"]
      [Msg.Other "/cosmos.bank.v1beta1.MsgSend",
        Msg.MsgCreateValidator (.set (Dec.NewDecWithPrec 1 2))]
      (List.Perm.swap _ _ _)
      (by intro m hm c; simp at hm; rcases hm with rfl | rfl <;> simp)).2.2.2⟩

/-- Adding the halves back to the transferred shares, entry by entry, gives the fee. -/
theorem safeAdd_owedCoins_halfCoins (fees : Coins) (h : ∀ c ∈ fees, 0 < c.amount) :
    Coins.safeAdd (owedCoins fees) (halfCoins fees) = fees := by
  induction fees with
  | nil => rfl
  | cons x xs ih =>
    have hx := h x (List.mem_cons_self _ _)
    have hxs := ih (fun c hc => h c (List.mem_cons_of_mem _ hc))
    have hne : ¬ (x.amount - x.amount / 2 + x.amount / 2 = 0) := by omega
    have hsum : x.amount - x.amount / 2 + x.amount / 2 = x.amount := by omega
    have hx0 : ¬ (x.amount = 0) := by omega
    simp only [halfCoins, owedCoins, List.map_cons, Coins.safeAdd, Coins.safeAddAux,
      denomLT_irrefl, Bool.false_eq_true, if_false, if_true, Coins.consNonZero, Coin.IsZero,
      decide_eq_true_eq, hne, hsum, hx0] at hxs ⊢
    rw [hxs]

/-- C16: for every valid fee set `F`, with `Half[denom] = floor(F[denom] / 2)` as computed
by `DeductFees` (the loop that fills `splitFees` does not panic): `Half` has the
denominations of `F`, at amounts between 0 and those of `F`; the subtraction `F - Half`
used by the split does not panic and every amount of its result is positive; and
`(F - Half) + Half = F`. -/
theorem C16_split_subtraction_exact (fees : Coins) (hvalid : fees.IsValid = true) :
    splitFees fees = .ok (halfCoins fees)
    ∧ (halfCoins fees).map Coin.denom = fees.map Coin.denom
    ∧ (∀ d, (halfCoins fees).AmountOf d = fees.AmountOf d / 2
        ∧ 0 ≤ (halfCoins fees).AmountOf d
        ∧ (halfCoins fees).AmountOf d ≤ fees.AmountOf d)
    ∧ fees.Sub (halfCoins fees) = .ok (owedCoins fees)
    ∧ (∀ c ∈ owedCoins fees, 0 < c.amount)
    ∧ (∀ d, (owedCoins fees).AmountOf d = fees.AmountOf d - (halfCoins fees).AmountOf d
        ∧ 0 ≤ (owedCoins fees).AmountOf d)
    ∧ (owedCoins fees).Add (halfCoins fees) = fees := by
  have hall := isValid_forall fees hvalid
  have hpos : ∀ c ∈ fees, 0 < c.amount := fun c hc => (hall c hc).2
  refine ⟨splitFees_eq fees hall, ?_, ?_, sub_halfCoins fees hpos, ?_, ?_, ?_⟩
  · simp [halfCoins]
  · intro d
    have hnn := amountOf_nonneg fees hpos d
    rw [amountOf_halfCoins]
    refine ⟨rfl, ?_, ?_⟩ <;> omega
  · intro c hc
    simp only [owedCoins, List.mem_map] at hc
    obtain ⟨x, hx, rfl⟩ := hc
    have := hpos x hx
    simp only
    omega
  · intro d
    have hnn := amountOf_nonneg fees hpos d
    rw [amountOf_owedCoins, amountOf_halfCoins]
    refine ⟨rfl, ?_⟩
    omega
  · exact safeAdd_owedCoins_halfCoins fees hpos

/-- Witness of C16: the fee `1 aaa, 101 ujuno`; the halves are `0 aaa, 50 ujuno`, the
difference is `1 aaa, 51 ujuno`, and adding the halves back gives the fee. -/
theorem C16_witness :
    Coins.IsValid [⟨"aaa", 1⟩, ⟨"ujuno", 101⟩] = true
    ∧ splitFees [⟨"aaa", 1⟩, ⟨"ujuno", 101⟩] = .ok [⟨"aaa", 0⟩, ⟨"ujuno", 50⟩]
    ∧ Coins.Sub [⟨"aaa", 1⟩, ⟨"ujuno", 101⟩] [⟨"aaa", 0⟩, ⟨"ujuno", 50⟩]
      = .ok [⟨"aaa", 1⟩, ⟨"ujuno", 51⟩]
    ∧ Coins.Add [⟨"aaa", 1⟩, ⟨"ujuno", 51⟩] [⟨"aaa", 0⟩, ⟨"ujuno", 50⟩]
      = [⟨"aaa", 1⟩, ⟨"ujuno", 101⟩] :=
  have h := C16_split_subtraction_exact [⟨"aaa", 1⟩, ⟨"ujuno", 101⟩] (by decide)
  ⟨by decide, h.1, h.2.2.2.1, h.2.2.2.2.2.2⟩

/-- C18: the commission guard performs exactly one level of authorization unwrapping. For
every commission rate `r`, the transaction `[AuthzExec{[AuthzExec{...}]}]` whose inner
message decodes to an authorization batch is accepted by the guard, whatever that nested
batch holds, in particular `[CreateValidator{r}]` with `r < 0.05`; while the transaction
`[AuthzExec{[CreateValidator{r}]}]` with `r < 0.05` is rejected with the commission
error. -/
theorem C18_one_level_of_unwrapping {G : Type} [Inhabited G] (min : MinCommissionDecorator)
    (ctx : Context) (simulate : Bool) (feeTx : Option FeeTx) (r : Dec) (outer inner : Any)
    (houter : min.cdc outer = some (.MsgExec [inner]))
    (hinner : min.cdc inner = some (.MsgCreateValidator (.set r))) :
    Accepts (G := G) (min.AnteHandle ctx ⟨[.MsgExec [outer]], feeTx⟩ simulate) ctx
      ⟨[.MsgExec [outer]], feeTx⟩ simulate
    ∧ (r.toRat < 5 / 100 →
        RejectsWith (G := G) (min.AnteHandle ctx ⟨[.MsgExec [inner]], feeTx⟩ simulate) ctx
          errCommissionTooLow)
    ∧ ((5 : ℚ) / 100 ≤ r.toRat →
        Accepts (G := G) (min.AnteHandle ctx ⟨[.MsgExec [inner]], feeTx⟩ simulate) ctx
          ⟨[.MsgExec [inner]], feeTx⟩ simulate) := by
  have hlt := lt_minCommissionRate_iff r
  refine ⟨?_, ?_, ?_⟩
  · rw [accepts_iff_scan]
    simp only [Tx.GetMsgs, MinCommissionDecorator.scanMsgs, MinCommissionDecorator.checkMsg,
      MinCommissionDecorator.validAuthz, houter, MinCommissionDecorator.validMsg]
  · intro hr
    rw [rejectsWith_iff_scan]
    simp only [Tx.GetMsgs, MinCommissionDecorator.scanMsgs, MinCommissionDecorator.checkMsg,
      MinCommissionDecorator.validAuthz, hinner, MinCommissionDecorator.validMsg, DecField.LT,
      hlt.mpr hr, if_true]
  · intro hr
    have hnot : ¬ r.LT minCommissionRate = true := fun h => absurd (hlt.mp h) (not_lt.mpr hr)
    rw [accepts_iff_scan]
    simp only [Tx.GetMsgs, MinCommissionDecorator.scanMsgs, MinCommissionDecorator.checkMsg,
      MinCommissionDecorator.validAuthz, hinner, MinCommissionDecorator.validMsg, DecField.LT,
      hnot, if_false, Bool.false_eq_true]

/-- Witness of C18 with the codec that decodes nested batches and the rate 0.01: the doubly
wrapped validator creation is accepted, the singly wrapped one is rejected. -/
theorem C18_witness :
    sampleNestedCdc ⟨"/cosmos.authz.v1beta1.MsgExec", [1]⟩
      = some (.MsgExec [⟨"/cosmos.staking.v1beta1.MsgCreateValidator", [1]⟩])
    ∧ sampleNestedCdc ⟨"/cosmos.staking.v1beta1.MsgCreateValidator", [1]⟩
      = some (.MsgCreateValidator (.set (Dec.NewDecWithPrec 1 2)))
    ∧ Accepts (G := Unit)
        ((⟨sampleNestedCdc⟩ : MinCommissionDecorator).AnteHandle sampleCtx
          ⟨[.MsgExec [⟨"/cosmos.authz.v1beta1.MsgExec", [1]⟩]], none⟩ false) sampleCtx
        ⟨[.MsgExec [⟨"/cosmos.authz.v1beta1.MsgExec", [1]⟩]], none⟩ false
    ∧ RejectsWith (G := Unit)
        ((⟨sampleNestedCdc⟩ : MinCommissionDecorator).AnteHandle sampleCtx
          ⟨[.MsgExec [⟨"/cosmos.staking.v1beta1.MsgCreateValidator", [1]⟩]], none⟩ false)
        sampleCtx errCommissionTooLow :=
  have h := C18_one_level_of_unwrapping (G := Unit) ⟨sampleNestedCdc⟩ sampleCtx false none
    (Dec.NewDecWithPrec 1 2) ⟨"/cosmos.authz.v1beta1.MsgExec", [1]⟩
    ⟨"/cosmos.staking.v1beta1.MsgCreateValidator", [1]⟩ (by decide) (by decide)
  ⟨by decide, by decide, h.1,
    h.2.1 ((lt_minCommissionRate_iff (Dec.NewDecWithPrec 1 2)).mp (by decide))⟩


/-- C17: the stage list that `NewAnteHandler` composes is fixed and ordered. With the three
mandatory collaborators present, the handler returned is the chain of the slice
`anteDecorators`, whatever the options are (with a simulation gas limit pointing to zero the
construction panics and no handler is returned); the kinds of the stages of that slice are
the seventeen kinds of `pipelineOrder`, each once; context setup is the first stage, the
commission guard (built from the codec of the options) is second, the cross-chain guard is
the last stage, sequence increment is immediately before the cross-chain guard, and fee
sufficiency precedes fee deduction, which precedes the four signature-related stages. -/
theorem C17_stage_list_fixed_and_ordered {G : Type} (ext : ExternalDecorators G)
    (fromBech32 : String → Except String AccAddress) (options : HandlerOptions G)
    (accountKeeper : AccountKeeper G) (bankKeeper : BankKeeper)
    (signModeHandler : SignModeHandler)
    (hak : options.AccountKeeper = some accountKeeper)
    (hbk : options.BankKeeper = some bankKeeper)
    (hsm : options.SignModeHandler = some signModeHandler) :
    (options.WasmConfig.SimulationGasLimit ≠ some 0 →
      NewAnteHandler ext fromBech32 options
        = .ok (ChainAnteDecorators
            ((anteDecorators options accountKeeper signModeHandler
                (options.SigGasConsumer.getD .DefaultSigVerificationGasConsumer)).map
              (Decorator.AnteHandle ext fromBech32)), none))
    ∧ (∀ handler err, NewAnteHandler ext fromBech32 options = .ok (handler, err) →
        handler = ChainAnteDecorators
          ((anteDecorators options accountKeeper signModeHandler
              (options.SigGasConsumer.getD .DefaultSigVerificationGasConsumer)).map
            (Decorator.AnteHandle ext fromBech32)))
    ∧ (∀ sigGasConsumer,
        (anteDecorators options accountKeeper signModeHandler sigGasConsumer).map
          Decorator.kind = pipelineOrder
        ∧ (anteDecorators options accountKeeper signModeHandler sigGasConsumer).head?
          = some .SetUpContextDecorator
        ∧ (anteDecorators options accountKeeper signModeHandler sigGasConsumer).get? 1
          = some (.MinCommissionDecorator (NewMinCommissionDecorator options.Cdc))
        ∧ (anteDecorators options accountKeeper signModeHandler sigGasConsumer).getLast?
          = some (.IBCAnteDecorator options.IBCKeeper))
    ∧ pipelineOrder.Nodup
    ∧ pipelineOrder.length = 17
    ∧ pipelineOrder.head? = some .contextSetup
    ∧ pipelineOrder.get? 1 = some .commissionGuard
    ∧ pipelineOrder.getLast? = some .crossChainGuard
    ∧ immediatelyBefore pipelineOrder .sequenceIncrement .crossChainGuard = true
    ∧ precedes pipelineOrder .feeSufficiency .feeDeduction = true
    ∧ precedes pipelineOrder .feeDeduction .setPubKey = true
    ∧ precedes pipelineOrder .feeDeduction .signerCount = true
    ∧ precedes pipelineOrder .feeDeduction .signatureGas = true
    ∧ precedes pipelineOrder .feeDeduction .signatureVerification = true := by
  have hok : options.WasmConfig.SimulationGasLimit ≠ some 0 →
      NewAnteHandler ext fromBech32 options
        = .ok (ChainAnteDecorators
            ((anteDecorators options accountKeeper signModeHandler
                (options.SigGasConsumer.getD .DefaultSigVerificationGasConsumer)).map
              (Decorator.AnteHandle ext fromBech32)), none) := by
    intro hlimit
    unfold NewAnteHandler
    rw [hak, hbk, hsm]
    cases options.SigGasConsumer <;>
      simp only [constructAll_anteDecorators ext fromBech32 options accountKeeper
        signModeHandler _ hlimit, Option.getD]
  refine ⟨hok, ?_, ?_, by decide, by decide, by decide, by decide, by decide, by decide,
    by decide, by decide, by decide, by decide, by decide⟩
  · intro handler err h
    by_cases hlimit : options.WasmConfig.SimulationGasLimit = some 0
    · have hz : NewAnteHandler ext fromBech32 options = .error "gas limit must not be zero" := by
        unfold NewAnteHandler
        rw [hak, hbk, hsm]
        cases options.SigGasConsumer <;>
          simp only [constructAll_anteDecorators_zero ext fromBech32 options accountKeeper
            signModeHandler _ hlimit]
      rw [hz] at h
      cases h
    · rw [hok hlimit] at h
      simp only [Except.ok.injEq, Prod.mk.injEq] at h
      exact h.1.symm
  · intro sigGasConsumer
    exact ⟨rfl, rfl, rfl, rfl⟩

/-- Witness of C17: the sample options, with the three mandatory collaborators present and
no simulation gas limit. -/
theorem C17_witness :
    sampleOptions.AccountKeeper = some sampleAccounts
    ∧ sampleOptions.BankKeeper = some Ledger.keeper
    ∧ sampleOptions.SignModeHandler = some ⟨1⟩
    ∧ NewAnteHandler sampleExternal sampleBech32 sampleOptions
      = .ok (ChainAnteDecorators
          ((anteDecorators sampleOptions sampleAccounts ⟨1⟩
            .DefaultSigVerificationGasConsumer).map
            (Decorator.AnteHandle sampleExternal sampleBech32)), none)
    ∧ (anteDecorators sampleOptions sampleAccounts ⟨1⟩
        .DefaultSigVerificationGasConsumer).map Decorator.kind = pipelineOrder :=
  ⟨rfl, rfl, rfl,
    (C17_stage_list_fixed_and_ordered sampleExternal sampleBech32 sampleOptions
      sampleAccounts Ledger.keeper ⟨1⟩ rfl rfl rfl).1 (by decide),
    ((C17_stage_list_fixed_and_ordered sampleExternal sampleBech32 sampleOptions
      sampleAccounts Ledger.keeper ⟨1⟩ rfl rfl rfl).2.2.1
        .DefaultSigVerificationGasConsumer).1⟩

/-- The conversion `int64(gas)` at `gas = 2 ^ 64 - 1` is `-1`. -/
theorem int64OfUint64_max : int64OfUint64 18446744073709551615 = -1 := by decide

/-- C19 (failing inputs): with the policy `denomA: 0.01`, the value
`ceil(minPrice * gasLimit)` is `92233720368547759` for the gas limit `2 ^ 63` and
`184467440737095517` for the gas limit `2 ^ 64 - 1`. The stage computes neither: at
`2 ^ 63` the conversion `int64(gas)` is `-2 ^ 63` and the computation panics in
`sdk.NewCoin` on a negative amount; at `2 ^ 64 - 1` the conversion is `-1` and the required
amount computed is `ceil(-0.01) = 0`. -/
theorem C19_required_fee_beyond_int64 :
    requiredAmount ⟨"denomA", Dec.NewDecWithPrec 1 2⟩ 9223372036854775808
      = 92233720368547759
    ∧ MempoolFeeDecorator.requiredFees sampleCtx.MinGasPrices 9223372036854775808
      = .error "negative coin amount"
    ∧ requiredAmount ⟨"denomA", Dec.NewDecWithPrec 1 2⟩ 18446744073709551615
      = 184467440737095517
    ∧ MempoolFeeDecorator.requiredFees sampleCtx.MinGasPrices 18446744073709551615
      = .ok [⟨"denomA", 0⟩] := by
  have hp : Dec.NewDecWithPrec 1 2 = ⟨10000000000000000⟩ := by decide
  refine ⟨?_, ?_, ?_, ?_⟩
  · have h := ceil_toRat_mul 10000000000000000 9223372036854775808 (by decide)
    unfold requiredAmount
    rw [hp]
    simp only at h ⊢
    rw [h]
    decide
  · unfold MempoolFeeDecorator.requiredFees
    rw [int64OfUint64_wraps]
    rfl
  · have h := ceil_toRat_mul 10000000000000000 18446744073709551615 (by decide)
    unfold requiredAmount
    rw [hp]
    simp only at h ⊢
    rw [h]
    decide
  · unfold MempoolFeeDecorator.requiredFees
    rw [int64OfUint64_max]
    rfl


/-- Counterexample to C20 as stated: two message lists whose first top-level
`ExecuteContract` names the same contract `juno1contract`, with the same fee `101 ujuno`,
payer and ledger state. On the first list `DeductFees` makes the two transfers of the
split; on the second, whose later `ExecuteContract` carries a malformed address,
`DeductFees` returns the decode error of the first loop and makes no transfer. -/
theorem C20_counterexample_malformed_later_address :
    (executedContracts [.MsgExecuteContract "juno1contract"]).head?
      = (executedContracts
          [.MsgExecuteContract "juno1contract", .MsgExecuteContract "not-an-address"]).head?
    ∧ DeductFees sampleBech32 Ledger.keeper sampleState samplePayer [⟨"ujuno", 101⟩]
        sampleRegistry [.MsgExecuteContract "juno1contract"] = .ok (none, sampleSplitState)
    ∧ DeductFees sampleBech32 Ledger.keeper sampleState samplePayer [⟨"ujuno", 101⟩]
        sampleRegistry
        [.MsgExecuteContract "juno1contract", .MsgExecuteContract "not-an-address"]
        = .ok (some (.external "decoding bech32 failed"), sampleState)
    ∧ sampleSplitState.bank (.account [5]) "ujuno" = 449
    ∧ sampleState.bank (.account [5]) "ujuno" = 500 := by
  refine ⟨by rfl, by rfl, by rfl, by decide, by decide⟩

/-- C20 (amended): when every top-level `ExecuteContract` message of both lists carries a
well-formed contract address, settlement considers only the first one. For every two such
message lists that agree on the decoded address of their first top-level `ExecuteContract`
message (or have none), `DeductFees` with the same fee, payer, bank keeper, registry and
state returns the same result, error and final state alike, whatever the contract
addresses of the later `ExecuteContract` messages are. -/
theorem C20_only_first_contract_considered {G : Type}
    (fromBech32 : String → Except String AccAddress) (bankKeeper : BankKeeper) (s : State G)
    (acc : Account) (fees : Coins) (revKeeper : FeeShareKeeper G) (msgs1 msgs2 : List Msg)
    (hdecode1 : ∀ c ∈ executedContracts msgs1, ∃ a, fromBech32 c = .ok a)
    (hdecode2 : ∀ c ∈ executedContracts msgs2, ∃ a, fromBech32 c = .ok a)
    (hagree : (executedContracts msgs1).head?.map fromBech32
      = (executedContracts msgs2).head?.map fromBech32) :
    DeductFees fromBech32 bankKeeper s acc fees revKeeper msgs1
      = DeductFees fromBech32 bankKeeper s acc fees revKeeper msgs2 := by
  obtain ⟨l1, hl1⟩ := collectContracts_ok fromBech32 msgs1 hdecode1
  obtain ⟨l2, hl2⟩ := collectContracts_ok fromBech32 msgs2 hdecode2
  cases hex1 : executedContracts msgs1 with
  | nil =>
    cases hex2 : executedContracts msgs2 with
    | nil =>
      exact DeductFees_congr fromBech32 bankKeeper s acc fees revKeeper msgs1 msgs2
        (by rw [collectContracts_of_nil fromBech32 msgs1 hex1,
          collectContracts_of_nil fromBech32 msgs2 hex2])
    | cons c2 cs2 => rw [hex1, hex2] at hagree; simp at hagree
  | cons c1 cs1 =>
    cases hex2 : executedContracts msgs2 with
    | nil => rw [hex1, hex2] at hagree; simp at hagree
    | cons c2 cs2 =>
      rw [hex1, hex2] at hagree
      simp only [List.head?_cons, Option.map_some', Option.some.injEq] at hagree
      obtain ⟨a1, as1, ha1, rfl⟩ := collectContracts_head fromBech32 msgs1 c1 cs1 l1 hex1 hl1
      obtain ⟨a2, as2, ha2, rfl⟩ := collectContracts_head fromBech32 msgs2 c2 cs2 l2 hex2 hl2
      rw [hagree, ha2] at ha1
      simp only [Except.ok.injEq] at ha1
      subst ha1
      unfold DeductFees
      rw [hl1, hl2]

/-- Witness of C20: two message lists whose first top-level `ExecuteContract` names
`juno1contract`; the second list has another message before it and a later
`ExecuteContract` of another contract. `DeductFees` makes the same split on both. -/
theorem C20_witness :
    (executedContracts [.MsgExecuteContract "juno1contract"]).head? = some "juno1contract"
    ∧ (executedContracts [.Other "/cosmos.bank.v1beta1.MsgSend",
        .MsgExecuteContract "juno1contract", .MsgExecuteContract "juno1other"]).head?
        = some "juno1contract"
    ∧ DeductFees sampleBech32 Ledger.keeper sampleState samplePayer [⟨"ujuno", 101⟩]
        sampleRegistry [.MsgExecuteContract "juno1contract"]
      = DeductFees sampleBech32 Ledger.keeper sampleState samplePayer [⟨"ujuno", 101⟩]
        sampleRegistry [.Other "/cosmos.bank.v1beta1.MsgSend",
          .MsgExecuteContract "juno1contract", .MsgExecuteContract "juno1other"]
    ∧ DeductFees sampleBech32 Ledger.keeper sampleState samplePayer [⟨"ujuno", 101⟩]
        sampleRegistry [.Other "/cosmos.bank.v1beta1.MsgSend",
          .MsgExecuteContract "juno1contract", .MsgExecuteContract "juno1other"]
      = .ok (none, sampleSplitState) :=
  ⟨by rfl, by rfl,
    C20_only_first_contract_considered sampleBech32 Ledger.keeper sampleState samplePayer
      [⟨"ujuno", 101⟩] sampleRegistry [.MsgExecuteContract "juno1contract"]
      [.Other "/cosmos.bank.v1beta1.MsgSend", .MsgExecuteContract "juno1contract",
        .MsgExecuteContract "juno1other"]
      (by
        intro c hc
        simp only [executedContracts, List.mem_singleton] at hc
        subst hc
        exact ⟨[1, 1], rfl⟩)
      (by
        intro c hc
        simp only [executedContracts, List.mem_cons, List.mem_singleton, List.not_mem_nil,
          or_false] at hc
        rcases hc with rfl | rfl
        · exact ⟨[1, 1], rfl⟩
        · exact ⟨[2, 2], rfl⟩)
      (by rfl),
    by rfl⟩


/-- Witness of C11: with the sample options, which hold the three mandatory collaborators,
no simulation gas limit and no signature-gas consumer, the builder returns the chain with
the default consumer and no error; without the account keeper it returns an error and no
handler. -/
theorem C11_witness :
    NewAnteHandler sampleExternal sampleBech32 sampleOptions
      = .ok (some (chainFrom ((anteDecorators sampleOptions sampleAccounts ⟨1⟩
          .DefaultSigVerificationGasConsumer).map
          (Decorator.AnteHandle sampleExternal sampleBech32))), none)
    ∧ ∃ e, NewAnteHandler sampleExternal sampleBech32
        { sampleOptions with AccountKeeper := none } = .ok (none, some e) :=
  ⟨(C11_builder_fails_iff_mandatory_collaborator_absent sampleExternal sampleBech32
      sampleOptions).2.2.2.2 sampleAccounts Ledger.keeper ⟨1⟩ rfl rfl rfl (by decide),
    (C11_builder_fails_iff_mandatory_collaborator_absent sampleExternal sampleBech32
      { sampleOptions with AccountKeeper := none }).1.mpr (Or.inl rfl)⟩

/-- Witness of C12: the chain of the commission guard, the fee-sufficiency stage and the
fee-deduction stage, in check mode with the policy `denomA: 0.01`, on a transaction with
the gas limit 1000 and the fee `9 denomA`: the commission guard passes, the fee-sufficiency
stage fails, and the chain returns `ErrInsufficientFee` with the state it was given. -/
theorem C12_witness :
    chainFrom
      ([LocalStage.commissionGuard sampleGuard, .feeSufficiency,
        .feeDeduction sampleDeduct].map (LocalStage.AnteHandle sampleBech32))
      sampleCtx ⟨[.Other "/cosmos.bank.v1beta1.MsgSend"],
        some ⟨[⟨"denomA", 9⟩], 1000, [5], none⟩⟩ false sampleState
      = .ok ((sampleCtx, some (errInsufficientFee [⟨"denomA", 9⟩] [⟨"denomA", 10⟩])),
          sampleState) :=
  (C12_chain_returns_first_failure sampleBech32 sampleCtx
    ⟨[.Other "/cosmos.bank.v1beta1.MsgSend"], some ⟨[⟨"denomA", 9⟩], 1000, [5], none⟩⟩
    false).2.1 [.commissionGuard sampleGuard] .feeSufficiency [.feeDeduction sampleDeduct]
    sampleState sampleState sampleState
    (errInsufficientFee [⟨"denomA", 9⟩] [⟨"denomA", 10⟩])
    ⟨sampleState, fun _ => rfl, rfl⟩
    (fun next => (mempoolFee_example [.Other "/cosmos.bank.v1beta1.MsgSend"] [5] none next
      sampleState).2.2)


/-- The validation of a registration succeeds iff the deployer and the contract decode and
the withdrawer is empty or decodes. -/
theorem registerRevenue_validateBasic_iff (fromBech32 : String → Except String AccAddress)
    (msg : MsgRegisterRevenue) :
    msg.ValidateBasic fromBech32 = none
      ↔ (∃ a, fromBech32 msg.DeployerAddress = .ok a)
        ∧ (∃ a, fromBech32 msg.ContractAddress = .ok a)
        ∧ (msg.WithdrawerAddress = "" ∨ ∃ a, fromBech32 msg.WithdrawerAddress = .ok a) := by
  unfold MsgRegisterRevenue.ValidateBasic
  cases hd : fromBech32 msg.DeployerAddress with
  | error e => simp
  | ok d =>
    cases hc : fromBech32 msg.ContractAddress with
    | error e => simp
    | ok c =>
      by_cases hw : msg.WithdrawerAddress = ""
      · simp [hw]
      · cases hwd : fromBech32 msg.WithdrawerAddress with
        | error e => simp [hw]
        | ok w => simp [hw]

/-- The validation of an update succeeds iff the deployer, the contract and the withdrawer
decode. -/
theorem updateRevenue_validateBasic_iff (fromBech32 : String → Except String AccAddress)
    (msg : MsgUpdateRevenue) :
    msg.ValidateBasic fromBech32 = none
      ↔ (∃ a, fromBech32 msg.DeployerAddress = .ok a)
        ∧ (∃ a, fromBech32 msg.ContractAddress = .ok a)
        ∧ ∃ a, fromBech32 msg.WithdrawerAddress = .ok a := by
  unfold MsgUpdateRevenue.ValidateBasic
  cases hd : fromBech32 msg.DeployerAddress with
  | error e => simp
  | ok d =>
    cases hc : fromBech32 msg.ContractAddress with
    | error e => simp
    | ok c =>
      cases hwd : fromBech32 msg.WithdrawerAddress with
      | error e => simp
      | ok w => simp

/-- C23: `MsgRegisterRevenue.ValidateBasic` succeeds iff the deployer address and the
contract address are accepted by `sdk.AccAddressFromBech32` and the withdrawer address is
empty or accepted by it; `MsgUpdateRevenue.ValidateBasic` succeeds iff all three addresses
are accepted, so with a decoder that refuses the empty string (as the library does) it
requires a non-empty withdrawer and fails on every message with an empty one. A message
built by `NewMsgRegisterRevenue` with a `nil` withdrawer has an empty withdrawer field, and
passes validation when the strings of its contract and deployer are accepted. -/
theorem C23_register_allows_empty_withdrawer_update_does_not
    (fromBech32 : String → Except String AccAddress) :
    (∀ msg : MsgRegisterRevenue,
      msg.ValidateBasic fromBech32 = none
        ↔ (∃ a, fromBech32 msg.DeployerAddress = .ok a)
          ∧ (∃ a, fromBech32 msg.ContractAddress = .ok a)
          ∧ (msg.WithdrawerAddress = "" ∨ ∃ a, fromBech32 msg.WithdrawerAddress = .ok a))
    ∧ (∀ msg : MsgUpdateRevenue,
      msg.ValidateBasic fromBech32 = none
        ↔ (∃ a, fromBech32 msg.DeployerAddress = .ok a)
          ∧ (∃ a, fromBech32 msg.ContractAddress = .ok a)
          ∧ ∃ a, fromBech32 msg.WithdrawerAddress = .ok a)
    ∧ ((∃ e, fromBech32 "" = .error e) →
        (∀ msg : MsgUpdateRevenue,
          msg.ValidateBasic fromBech32 = none → msg.WithdrawerAddress ≠ "")
        ∧ (∀ contract deployer : String,
          (MsgUpdateRevenue.mk contract deployer "").ValidateBasic fromBech32 ≠ none))
    ∧ (∀ (A : Type) (contractString : A → String) (addrString : AccAddress → String)
        (contract : A) (deployer : AccAddress),
        (NewMsgRegisterRevenue contractString addrString contract deployer
          none).WithdrawerAddress = ""
        ∧ ((∃ a, fromBech32 (contractString contract) = .ok a) →
            (∃ a, fromBech32 (addrString deployer) = .ok a) →
            (NewMsgRegisterRevenue contractString addrString contract deployer
              none).ValidateBasic fromBech32 = none)) := by
  refine ⟨registerRevenue_validateBasic_iff fromBech32,
    updateRevenue_validateBasic_iff fromBech32, ?_, ?_⟩
  · rintro ⟨e, he⟩
    have hne : ∀ str a, fromBech32 str = .ok a → str ≠ "" := by
      intro str a h hs
      rw [hs, he] at h
      cases h
    constructor
    · intro msg h
      obtain ⟨-, -, a, h3⟩ := (updateRevenue_validateBasic_iff fromBech32 msg).mp h
      exact hne _ a h3
    · intro contract deployer h
      obtain ⟨-, -, a, h3⟩ := (updateRevenue_validateBasic_iff fromBech32 _).mp h
      exact hne _ a h3 rfl
  · intro A contractString addrString contract deployer
    refine ⟨rfl, ?_⟩
    intro hc hd
    rw [registerRevenue_validateBasic_iff]
    exact ⟨hd, hc, Or.inl rfl⟩

/-- Witness of C23 with the sample decoder, which refuses the empty string: the
registration built for the contract `[1, 1]`, the deployer `[2, 2]` and a `nil` withdrawer
has an empty withdrawer field and passes validation; the update with the same three fields
fails on the withdrawer. -/
theorem C23_witness :
    sampleBech32 "" = .error "decoding bech32 failed"
    ∧ NewMsgRegisterRevenue sampleAddrString sampleAddrString [1, 1] [2, 2] none
      = ⟨"juno1contract", "juno1other", ""⟩
    ∧ (NewMsgRegisterRevenue sampleAddrString sampleAddrString [1, 1] [2, 2]
        none).ValidateBasic sampleBech32 = none
    ∧ (MsgUpdateRevenue.mk "juno1contract" "juno1other" "").ValidateBasic sampleBech32 ≠ none
    ∧ (MsgUpdateRevenue.mk "juno1contract" "juno1other" "").ValidateBasic sampleBech32
      = some (.Wrapf (.external "decoding bech32 failed") "invalid withdraw address %s"
          [.str ""]) :=
  ⟨rfl, by decide,
    ((C23_register_allows_empty_withdrawer_update_does_not sampleBech32).2.2.2
      AccAddress sampleAddrString sampleAddrString [1, 1] [2, 2]).2
      ⟨[1, 1], rfl⟩ ⟨[2, 2], rfl⟩,
    ((C23_register_allows_empty_withdrawer_update_does_not sampleBech32).2.2.1
      ⟨_, rfl⟩).2 "juno1contract" "juno1other",
    by decide⟩


/-- Counterexample to C22 as stated: the fee granter is the fee payer itself and no grant
keeper is configured, but the fee-collector module account is not set; the stage rejects
with the error of the missing module account, and does not reject with "fee grants are not
enabled". -/
theorem C22_counterexample_collector_not_set :
    sampleDeductNoCollector.feegrantKeeper.isNone = true
    ∧ RejectsWith (G := Unit)
        (DeductFeeDecorator.AnteHandle sampleBech32 sampleDeductNoCollector sampleCtx
          ⟨[], some ⟨[⟨"ujuno", 100⟩], 1000, [5], some [5]⟩⟩ false) sampleCtx errNoFeeCollector
    ∧ ¬ RejectsWith (G := Unit)
        (DeductFeeDecorator.AnteHandle sampleBech32 sampleDeductNoCollector sampleCtx
          ⟨[], some ⟨[⟨"ujuno", 100⟩], 1000, [5], some [5]⟩⟩ false) sampleCtx
        errGrantsNotEnabled := by
  have hrej : RejectsWith (G := Unit)
      (DeductFeeDecorator.AnteHandle sampleBech32 sampleDeductNoCollector sampleCtx
        ⟨[], some ⟨[⟨"ujuno", 100⟩], 1000, [5], some [5]⟩⟩ false) sampleCtx
      errNoFeeCollector := by
    intro next s
    rfl
  refine ⟨rfl, hrej, ?_⟩
  intro h
  have h1 := h nextOk sampleState
  rw [hrej nextOk sampleState] at h1
  simp only [Except.ok.injEq, Prod.mk.injEq, Option.some.injEq, and_true, true_and] at h1
  exact absurd h1 (by decide)

/-- C22 (amended): if the fee-collector module account is set, a fee granter is present
and no grant keeper is configured, the fee-deduction stage rejects the transaction with
"fee grants are not enabled" whether or not the fee granter equals the fee payer: it
returns the context it was given, leaves the state as it was (no transfer, no event) and
does not call the next stage. With a grant keeper configured and the fee granter equal to
the fee payer, no grant is consulted: the grant block resolves to the payer with the grant
store unchanged, and the stage returns the same result whatever the grant keeper is. -/
theorem C22_granter_rejected_without_grant_keeper_even_if_payer {G : Type}
    (fromBech32 : String → Except String AccAddress) (dfd : DeductFeeDecorator G)
    (ctx : Context) (tx : Tx) (simulate : Bool) (f : FeeTx) (granter addr : AccAddress)
    (hcoll : dfd.ak.GetModuleAddress FeeCollectorName = some addr)
    (hfee : tx.feeTx = some f) (hg : f.feeGranter = some granter) :
    (dfd.feegrantKeeper = none →
      RejectsWith (DeductFeeDecorator.AnteHandle fromBech32 dfd ctx tx simulate) ctx
        errGrantsNotEnabled)
    ∧ (granter = f.feePayer →
        (∀ (fk : FeegrantKeeper G) (grants : G),
          DeductFeeDecorator.resolvePayer { dfd with feegrantKeeper := some fk } grants f.fee
            f.feePayer f.feeGranter tx.GetMsgs = .ok (f.feePayer, grants))
        ∧ (∀ (fk1 fk2 : FeegrantKeeper G) (next : AnteHandler G) (s : State G),
          DeductFeeDecorator.AnteHandle fromBech32 { dfd with feegrantKeeper := some fk1 }
              ctx tx simulate next s
            = DeductFeeDecorator.AnteHandle fromBech32
              { dfd with feegrantKeeper := some fk2 } ctx tx simulate next s)) := by
  constructor
  · intro hfk next s
    simp only [DeductFeeDecorator.AnteHandle, hfee, hcoll, DeductFeeDecorator.resolvePayer, hg,
      hfk]
  · intro heq
    have hres : ∀ (fk : FeegrantKeeper G) (grants : G),
        DeductFeeDecorator.resolvePayer { dfd with feegrantKeeper := some fk } grants f.fee
          f.feePayer f.feeGranter tx.GetMsgs = .ok (f.feePayer, grants) := by
      intro fk grants
      simp only [DeductFeeDecorator.resolvePayer, hg, heq, AccAddress.Equals, beq_self_eq_true,
        Bool.not_true, Bool.false_eq_true, if_false]
    refine ⟨hres, ?_⟩
    intro fk1 fk2 next s
    simp only [DeductFeeDecorator.AnteHandle, hfee, hcoll, hres]

/-- Witness of C22: the sample stage without grant keeper, with the fee-collector module
account set, payer `[5]` and granter `[5]`: the transaction is rejected with "fee grants
are not enabled". -/
theorem C22_witness :
    sampleDeductNoGrants.ak.GetModuleAddress FeeCollectorName = some [0]
    ∧ sampleDeductNoGrants.feegrantKeeper = none
    ∧ RejectsWith (G := Unit)
        (DeductFeeDecorator.AnteHandle sampleBech32 sampleDeductNoGrants sampleCtx
          ⟨[], some ⟨[⟨"ujuno", 100⟩], 1000, [5], some [5]⟩⟩ false) sampleCtx
        errGrantsNotEnabled :=
  ⟨by decide, rfl,
    (C22_granter_rejected_without_grant_keeper_even_if_payer sampleBech32
      sampleDeductNoGrants sampleCtx ⟨[], some ⟨[⟨"ujuno", 100⟩], 1000, [5], some [5]⟩⟩ false
      ⟨[⟨"ujuno", 100⟩], 1000, [5], some [5]⟩ [5] [0] (by decide) rfl rfl).1 rfl⟩


/-- The first loop of `DeductFees` returns a list iff every top-level contract execution
carries an address that decodes, and the list is then the decoded addresses in
transaction order. -/
theorem collectContracts_eq_ok_iff (fromBech32 : String → Except String AccAddress)
    (msgs : List Msg) :
    ∀ l : List AccAddress, collectContracts fromBech32 msgs = .ok l
      ↔ (executedContracts msgs).map fromBech32 = l.map .ok := by
  induction msgs with
  | nil =>
    intro l
    cases l <;> simp [collectContracts, executedContracts]
  | cons m rest ih =>
    intro l
    cases m with
    | MsgExecuteContract contract =>
      simp only [collectContracts, executedContracts, List.map_cons]
      cases hfb : fromBech32 contract with
      | error e =>
        cases l <;> simp
      | ok a =>
        cases hrest : collectContracts fromBech32 rest with
        | error e =>
          cases l with
          | nil => simp
          | cons x xs =>
            have hno : ¬ (executedContracts rest).map fromBech32 = xs.map .ok :=
              fun h => by rw [(ih xs).mpr h] at hrest; cases hrest
            simp only [List.map_cons, List.cons.injEq, Except.ok.injEq, hno, and_false]
            simp
        | ok as =>
          have has := (ih as).mp hrest
          cases l with
          | nil => simp
          | cons x xs =>
            simp only [Except.ok.injEq, List.cons.injEq, List.map_cons]
            constructor
            · rintro ⟨rfl, rfl⟩
              exact ⟨rfl, has⟩
            · rintro ⟨rfl, h⟩
              have := (ih xs).mpr h
              rw [hrest] at this
              simp only [Except.ok.injEq] at this
              exact ⟨rfl, this⟩
    | MsgCreateValidator r => simpa [executedContracts, collectContracts] using ih l
    | MsgEditValidator r => simpa [executedContracts, collectContracts] using ih l
    | MsgExec r => simpa [executedContracts, collectContracts] using ih l
    | Other r => simpa [executedContracts, collectContracts] using ih l


/-- Counterexample to C21 as stated. The only message is an authorization batch whose
inner message decodes to the execution of `juno1contract`, a contract with the registered
withdrawer `[7]`; the fee `600 ujuno` is valid and not zero, and the payer owns 500 ujuno:
`DeductFees` fails with `ErrInsufficientFunds` and transfers nothing, so the fee is not
moved from the payer to the collector. And with a malformed address in a later top-level
`ExecuteContract`, the first loop collects no list but returns the decode error. -/
theorem C21_counterexample_payer_lacks_funds :
    executedContracts [.MsgExec [⟨"/cosmwasm.wasm.v1.MsgExecuteContract", []⟩]] = []
    ∧ sampleWasmCdc ⟨"/cosmwasm.wasm.v1.MsgExecuteContract", []⟩
      = some (.MsgExecuteContract "juno1contract")
    ∧ sampleBech32 "juno1contract" = .ok [1, 1]
    ∧ (sampleRegistry.GetRevenue sampleState [1, 1]).1.GetWithdrawerAddr = some [7]
    ∧ Coins.IsValid [⟨"ujuno", 600⟩] = true
    ∧ Coins.IsZero [⟨"ujuno", 600⟩] = false
    ∧ DeductFees sampleBech32 Ledger.keeper sampleState samplePayer [⟨"ujuno", 600⟩]
        sampleRegistry [.MsgExec [⟨"/cosmwasm.wasm.v1.MsgExecuteContract", []⟩]]
      = .ok (some (errInsufficientFunds "insufficient funds"), sampleState)
    ∧ sampleState.bank (.account samplePayer.GetAddress) "ujuno" = 500
    ∧ sampleState.bank (.module "distribution") "ujuno" = 1000
    ∧ executedContracts
        [.MsgExecuteContract "juno1contract", .MsgExecuteContract "not-an-address"]
      = ["juno1contract", "not-an-address"]
    ∧ collectContracts sampleBech32
        [.MsgExecuteContract "juno1contract", .MsgExecuteContract "not-an-address"]
      = .error (.external "decoding bech32 failed") := by
  refine ⟨by rfl, by decide, by rfl, by rfl, by decide, by decide, by rfl, by decide,
    by decide, by rfl, by rfl⟩

/-- C21 (amended): contract executions wrapped in an authorization batch are not collected
for revenue sharing. A top-level authorization batch adds nothing to the collection,
whatever it holds. For every transaction whose top-level messages contain no
`ExecuteContract`, whatever the registry holds, `DeductFees` with a valid fee `F` is exactly
one transfer attempt, of the entire `F` from the payer to the collector module account, for
every bank keeper. On the ledger: when the payer owns `F` the transfer is made, the payer
balance decreases by `F`, the collector balance increases by `F` and no other balance
changes (nothing goes to a withdrawer); otherwise `DeductFees` fails with
`ErrInsufficientFunds` and nothing changes. And for every message list the first loop
returns a list iff every top-level `ExecuteContract` address decodes, and that list is
exactly the decoded top-level `ExecuteContract` addresses in transaction order. -/
theorem C21_authz_wrapped_executions_not_collected {G : Type}
    (fromBech32 : String → Except String AccAddress) (bankKeeper : BankKeeper) (s : State G)
    (acc : Account) (fees : Coins) (revKeeper : FeeShareKeeper G) (msgs : List Msg)
    (hvalid : fees.IsValid = true)
    (hno : ∀ m ∈ msgs, ∀ c, m ≠ .MsgExecuteContract c) :
    (∀ (anys : List Any) (rest : List Msg),
      collectContracts fromBech32 (.MsgExec anys :: rest) = collectContracts fromBech32 rest)
    ∧ collectContracts fromBech32 msgs = .ok []
    ∧ DeductFees fromBech32 bankKeeper s acc fees revKeeper msgs
      = .ok (payToModule bankKeeper s acc fees)
    ∧ (Ledger.covers s.bank (.account acc.GetAddress) fees = true →
        ∃ s1, DeductFees fromBech32 Ledger.keeper s acc fees revKeeper msgs = .ok (none, s1)
          ∧ (∀ d, s1.bank (.account acc.GetAddress) d
              = s.bank (.account acc.GetAddress) d - fees.AmountOf d)
          ∧ (∀ d, s1.bank (.module "distribution") d
              = s.bank (.module "distribution") d + fees.AmountOf d)
          ∧ (∀ h d, h ≠ .account acc.GetAddress → h ≠ .module "distribution" →
              s1.bank h d = s.bank h d)
          ∧ s1.grants = s.grants ∧ s1.events = s.events)
    ∧ (Ledger.covers s.bank (.account acc.GetAddress) fees = false →
        DeductFees fromBech32 Ledger.keeper s acc fees revKeeper msgs
          = .ok (some (errInsufficientFunds "insufficient funds"), s))
    ∧ (∀ (msgs1 : List Msg) (l : List AccAddress),
        collectContracts fromBech32 msgs1 = .ok l
          ↔ (executedContracts msgs1).map fromBech32 = l.map .ok) := by
  have hcol : collectContracts fromBech32 msgs = .ok [] :=
    collectContracts_of_nil fromBech32 msgs (executedContracts_eq_nil msgs hno)
  have hplain := fun bk => DeductFees_plain fromBech32 bk s acc fees revKeeper msgs []
    hvalid hcol (by intro contract hc; simp at hc)
  refine ⟨fun anys rest => by simp only [collectContracts], hcol, hplain bankKeeper, ?_, ?_,
    fun msgs1 l => collectContracts_eq_ok_iff fromBech32 msgs1 l⟩
  · intro hcov
    refine ⟨⟨Ledger.moved s.bank (.account acc.GetAddress) (.module "distribution") fees,
      s.grants, s.events⟩, ?_, ?_, ?_, ?_, rfl, rfl⟩
    · rw [hplain]
      simp [payToModule, Ledger.keeper, Ledger.transfer, hcov]
    · intro d; simp [Ledger.moved]
    · intro d; simp [Ledger.moved]
    · intro h d h1 h2; simp [Ledger.moved, h1, h2]
  · intro hcov
    rw [hplain]
    simp [payToModule, Ledger.keeper, Ledger.transfer, hcov]

/-- Witness of C21: the only message is an authorization batch whose inner message decodes
to the execution of `juno1contract`, a contract with the registered withdrawer `[7]`; with
the fee `100 ujuno` exactly 100 ujuno move from the payer (500 to 400) to the collector
module account (1000 to 1100), and the withdrawer receives nothing. -/
theorem C21_witness :
    sampleWasmCdc ⟨"/cosmwasm.wasm.v1.MsgExecuteContract", []⟩
      = some (.MsgExecuteContract "juno1contract")
    ∧ (sampleRegistry.GetRevenue sampleState [1, 1]).1.GetWithdrawerAddr = some [7]
    ∧ Coins.IsValid [⟨"ujuno", 100⟩] = true
    ∧ DeductFees sampleBech32 Ledger.keeper sampleState samplePayer [⟨"ujuno", 100⟩]
        sampleRegistry [.MsgExec [⟨"/cosmwasm.wasm.v1.MsgExecuteContract", []⟩]]
      = .ok (none, samplePlainState)
    ∧ samplePlainState.bank (.account [5]) "ujuno" = 400
    ∧ samplePlainState.bank (.module "distribution") "ujuno" = 1100
    ∧ samplePlainState.bank (.account [7]) "ujuno" = sampleState.bank (.account [7]) "ujuno" := by
  have h := C21_authz_wrapped_executions_not_collected sampleBech32 Ledger.keeper sampleState
    samplePayer [⟨"ujuno", 100⟩] sampleRegistry
    [.MsgExec [⟨"/cosmwasm.wasm.v1.MsgExecuteContract", []⟩]] (by decide)
    (by
      intro m hm c
      simp only [List.mem_singleton] at hm
      subst hm
      exact fun h => by cases h)
  refine ⟨by decide, by rfl, by decide, ?_, by decide, by decide, by decide⟩
  rw [h.2.2.1]
  rfl

end Juno
